import Mathlib

/-!
Verification of the constraint-generation logic of the CLAASP modular-arithmetic
and OR components (`modadd_component.py`, `modsub_component.py`, `or_component.py`).

The development shallowly embeds the constraint emitters: each Python function
that returns a list of constraint strings becomes a Lean function returning a
list of deep-embedded constraints over named variables, and satisfaction of a
constraint list under a 0/1 assignment is a decidable predicate.  Python list
indexing with `[-1]`, which raises `IndexError` on an empty list, is modelled
with `Option`: an encoder that would raise returns `none`.

Helper modules of the repository that are referenced but whose sources are not
part of the component files (`sat_utils`, `smt_utils`, the id generators of the
`Component` base class) are modelled from the specification; every such
definition carries a doc comment starting with `Modelled from the spec:`.
-/

namespace Claasp

/-! ## Bits, words and the reference ripple-carry functions

Words are lists of bits.  Following the component encoders, index 0 of a word
list is the most significant bit and the last index is the least significant
bit; `valMSB` is the corresponding integer value.  The algebraic backend of
MODADD indexes its variables the other way round, so the least-significant-first
value `valLSB` is also needed. -/

/-- Numeric value of one bit. -/
def bitv (b : Bool) : Nat := if b then 1 else 0

/-- Majority of three bits, the carry function of a full adder. -/
def maj (a b c : Bool) : Bool := (a && b) || (a && c) || (b && c)

/-- Value of a word whose head is the most significant bit. -/
def valMSB : List Bool → Nat
  | [] => 0
  | b :: bs => bitv b * 2 ^ bs.length + valMSB bs

/-- Value of a word whose head is the least significant bit. -/
def valLSB : List Bool → Nat
  | [] => 0
  | b :: bs => bitv b + 2 * valLSB bs

/-- Reference ripple-carry adder on most-significant-first words: the sum word
together with the carry out of the whole word.  The carry into each position is
the second component of the recursive call on the (less significant) tail. -/
def addMSB : List Bool → List Bool → List Bool × Bool
  | a :: as, b :: bs =>
      let r := addMSB as bs
      ((a ^^ (b ^^ r.2)) :: r.1, maj a b r.2)
  | _, _ => ([], false)

/-- Reference carry words for `addMSB`: entry `i` is the carry into position
`i`, that is, the carry out of the suffix starting at position `i + 1`.  There
are `w - 1` carries, the least significant position having none. -/
def carriesMSB (as bs : List Bool) : List Bool :=
  (List.range (as.length - 1)).map fun i => (addMSB (as.drop (i + 1)) (bs.drop (i + 1))).2

/-- Reference two's complement on a most-significant-first word: result word of
`(not b) + 1` and the carry out; the seed carry of the empty word is `1`. -/
def twcMSB : List Bool → List Bool × Bool
  | [] => ([], true)
  | b :: bs =>
      let r := twcMSB bs
      ((!b ^^ r.2) :: r.1, !b && r.2)

/-- Reference carry words for `twcMSB`, indexed like `carriesMSB`. -/
def twcCarries (bs : List Bool) : List Bool :=
  (List.range (bs.length - 1)).map fun i => (twcMSB (bs.drop (i + 1))).2

/-- Reference ripple-carry adder on least-significant-first words with explicit
carry in, used for the algebraic backend whose index 0 is the least significant
bit. -/
def addLSB : List Bool → List Bool → Bool → List Bool
  | a :: as, b :: bs, c => (a ^^ (b ^^ c)) :: addLSB as bs (maj a b c)
  | _, _, _ => []

/-- Carry into each position for `addLSB`: entry `i` is the carry into
position `i` (entry 0 is the seed carry). -/
def carriesLSB : List Bool → List Bool → Bool → List Bool
  | a :: as, b :: bs, c => c :: carriesLSB as bs (maj a b c)
  | _, _, _ => []

theorem length_addMSB : ∀ as bs : List Bool, as.length = bs.length →
    (addMSB as bs).1.length = as.length := by
  intro as
  induction as with
  | nil => intro bs h; cases bs <;> simp_all [addMSB]
  | cons a as ih =>
      intro bs h
      cases bs with
      | nil => simp at h
      | cons b bs => simp_all [addMSB]

theorem valMSB_lt : ∀ bs : List Bool, valMSB bs < 2 ^ bs.length := by
  intro bs
  induction bs with
  | nil => simp [valMSB]
  | cons b bs ih =>
      simp only [valMSB, List.length_cons, pow_succ]
      cases b <;> simp [bitv] <;> omega

/-- The full-adder identity for one bit. -/
theorem bit_add_identity (a b c : Bool) :
    bitv (a ^^ (b ^^ c)) + 2 * bitv (maj a b c) = bitv a + bitv b + bitv c := by
  cases a <;> cases b <;> cases c <;> decide

/-- Ripple-carry addition computes addition: sum word plus weighted carry out
equals the sum of the operand values. -/
theorem addMSB_spec : ∀ as bs : List Bool, as.length = bs.length →
    valMSB (addMSB as bs).1 + 2 ^ as.length * bitv (addMSB as bs).2 =
      valMSB as + valMSB bs := by
  intro as
  induction as with
  | nil => intro bs h; cases bs <;> simp_all [addMSB, valMSB, bitv]
  | cons a as ih =>
      intro bs h
      cases bs with
      | nil => simp at h
      | cons b bs =>
        simp only [List.length_cons, Nat.succ_inj] at h
        have hl : (addMSB as bs).1.length = as.length := length_addMSB as bs h
        have hv := ih bs h
        rw [h] at hv
        have hb2 : (bitv (a ^^ (b ^^ (addMSB as bs).2)) +
              2 * bitv (maj a b (addMSB as bs).2)) * 2 ^ bs.length =
            (bitv a + bitv b + bitv (addMSB as bs).2) * 2 ^ bs.length := by
          rw [bit_add_identity]
        simp only [addMSB, valMSB, List.length_cons, hl, h, pow_succ]
        linarith [hv, hb2]

/-- The value of the ripple-carry sum word is addition modulo `2 ^ w`. -/
theorem valMSB_addMSB (as bs : List Bool) (h : as.length = bs.length) :
    valMSB (addMSB as bs).1 = (valMSB as + valMSB bs) % 2 ^ as.length := by
  have hs := addMSB_spec as bs h
  have hlt : valMSB (addMSB as bs).1 < 2 ^ as.length := by
    have := valMSB_lt (addMSB as bs).1
    rwa [length_addMSB as bs h] at this
  rcases Bool.eq_false_or_eq_true (addMSB as bs).2 with h2 | h2 <;>
    simp only [h2, bitv, if_true, if_false, Bool.false_eq_true, ite_false, ite_true,
      Nat.mul_zero, Nat.mul_one, Nat.add_zero] at hs
  · have hv2 : valMSB as + valMSB bs = valMSB (addMSB as bs).1 + 2 ^ as.length := by
      omega
    rw [hv2, Nat.add_mod_right, Nat.mod_eq_of_lt hlt]
  · rw [← hs, Nat.mod_eq_of_lt hlt]

theorem length_twcMSB (bs : List Bool) : (twcMSB bs).1.length = bs.length := by
  induction bs <;> simp_all [twcMSB]

/-- Two's complement computes the complement: result plus weighted carry out
plus the operand value equals `2 ^ w`. -/
theorem twcMSB_spec : ∀ bs : List Bool,
    valMSB (twcMSB bs).1 + 2 ^ bs.length * bitv (twcMSB bs).2 + valMSB bs =
      2 ^ bs.length := by
  intro bs
  induction bs with
  | nil => simp [twcMSB, valMSB, bitv]
  | cons b bs ih =>
      have hl : (twcMSB bs).1.length = bs.length := length_twcMSB bs
      have hb2 : (bitv (!b ^^ (twcMSB bs).2) + 2 * bitv (!b && (twcMSB bs).2) +
            bitv b) * 2 ^ bs.length =
          (1 + bitv (twcMSB bs).2) * 2 ^ bs.length := by
        have hb : bitv (!b ^^ (twcMSB bs).2) + 2 * bitv (!b && (twcMSB bs).2) + bitv b
            = 1 + bitv (twcMSB bs).2 := by
          cases b <;> cases h2 : (twcMSB bs).2 <;> simp [h2, bitv]
        rw [hb]
      simp only [twcMSB, valMSB, List.length_cons, hl, pow_succ]
      linarith [ih, hb2]

/-- The value of the two's-complement word is `(2 ^ w - b) % 2 ^ w`. -/
theorem valMSB_twcMSB (bs : List Bool) :
    valMSB (twcMSB bs).1 = (2 ^ bs.length - valMSB bs) % 2 ^ bs.length := by
  have hs := twcMSB_spec bs
  have hlt : valMSB (twcMSB bs).1 < 2 ^ bs.length := by
    have := valMSB_lt (twcMSB bs).1
    rwa [length_twcMSB bs] at this
  have hvlt := valMSB_lt bs
  have hp : 0 < 2 ^ bs.length := pow_pos (by norm_num) _
  rcases Bool.eq_false_or_eq_true (twcMSB bs).2 with h2 | h2 <;>
    simp only [h2, bitv, if_true, if_false, Bool.false_eq_true, ite_false, ite_true,
      Nat.mul_zero, Nat.mul_one, Nat.add_zero] at hs
  · -- carry out: the operand is zero and the result is zero
    have hz : valMSB bs = 0 := by omega
    have h0 : valMSB (twcMSB bs).1 = 0 := by omega
    simp [h0, hz, Nat.sub_zero, Nat.mod_self]
  · -- no carry out: the operand is nonzero
    have he : valMSB (twcMSB bs).1 = 2 ^ bs.length - valMSB bs := by omega
    have hlt2 : 2 ^ bs.length - valMSB bs < 2 ^ bs.length := by omega
    rw [he, Nat.mod_eq_of_lt hlt2]

/-! ## Deep-embedded constraints

SAT/CMS/SMT constraints are over string-named boolean variables.  The SMT
backend asserts equivalences between a variable and a boolean expression; the
CNF helpers of `sat_utils` are small fixed clause sets implementing exactly
such equivalences, so both are modelled by the same constraint type.  The CMS
backend additionally emits native xor clauses (`x -o a b c`). -/

/-- Boolean expressions appearing on the right-hand side of equivalences. -/
inductive BE
  | var (s : String)
  | neg (e : BE)
  | conj (a b : BE)
  | disj2 (a b : BE)
  | disj3 (a b c : BE)
  | xor2 (a b : BE)
  | xor3 (a b c : BE)
  deriving DecidableEq

def BE.evalB (σ : String → Bool) : BE → Bool
  | var s => σ s
  | neg e => !(evalB σ e)
  | conj a b => evalB σ a && evalB σ b
  | disj2 a b => evalB σ a || evalB σ b
  | disj3 a b c => evalB σ a || evalB σ b || evalB σ c
  | xor2 a b => evalB σ a ^^ evalB σ b
  | xor3 a b c => evalB σ a ^^ (evalB σ b ^^ evalB σ c)

/-- One emitted constraint. -/
inductive Constr
  | eqv (v : String) (e : BE)
  | distinct (a b : String)
  | xclause (lits : List (Bool × String))
  deriving DecidableEq

/-- Value of one literal: the variable, negated when the polarity is `false`. -/
def litv (σ : String → Bool) (l : Bool × String) : Bool :=
  if l.1 then σ l.2 else !(σ l.2)

def Constr.evalB (σ : String → Bool) : Constr → Bool
  | eqv v e => σ v == BE.evalB σ e
  | distinct a b => !(σ a == σ b)
  | xclause lits => (lits.map (litv σ)).foldr (fun a b => a ^^ b) false

/-- Satisfaction of a constraint list: every constraint evaluates to true. -/
def sats (σ : String → Bool) (cs : List Constr) : Bool :=
  cs.all (Constr.evalB σ)

/-- Python `zip` on three lists. -/
def zip3 {α β γ : Type} : List α → List β → List γ → List (α × β × γ)
  | a :: as, b :: bs, c :: cs => (a, b, c) :: zip3 as bs cs
  | _, _, _ => []

/-- Python `zip` on four lists. -/
def zip4 {α β γ δ : Type} : List α → List β → List γ → List δ → List (α × β × γ × δ)
  | a :: as, b :: bs, c :: cs, d :: ds => (a, b, c, d) :: zip4 as bs cs ds
  | _, _, _, _ => []

/-- Python `zip` on five lists. -/
def zip5 {α β γ δ ε : Type} :
    List α → List β → List γ → List δ → List ε → List (α × β × γ × δ × ε)
  | a :: as, b :: bs, c :: cs, d :: ds, e :: es => (a, b, c, d, e) :: zip5 as bs cs ds es
  | _, _, _, _, _ => []

/-! ### The `sat_utils` and `smt_utils` helpers

These live outside the component files.  They are modelled from the spec at
the level of the boolean relation each clause set implements. -/

/-- Modelled from the spec: `sat_utils.cnf_carry` is a fixed clause set
implementing "majority of 3 bits", i.e. the equivalence
`carry <=> (x AND y) OR (x AND c) OR (y AND c)`. -/
def cnf_carry (carry_id input0_id input1_id previous_carry_id : String) : List Constr :=
  [Constr.eqv carry_id
    (BE.disj3 (BE.conj (BE.var input0_id) (BE.var input1_id))
      (BE.conj (BE.var input0_id) (BE.var previous_carry_id))
      (BE.conj (BE.var input1_id) (BE.var previous_carry_id)))]

/-- Modelled from the spec: `sat_utils.cnf_and` implements "AND of 2 bits". -/
def cnf_and (v a b : String) : List Constr :=
  [Constr.eqv v (BE.conj (BE.var a) (BE.var b))]

/-- Modelled from the spec: `sat_utils.cnf_xor` implements 2-input XOR. -/
def cnf_xor (v a b : String) : List Constr :=
  [Constr.eqv v (BE.xor2 (BE.var a) (BE.var b))]

/-- Modelled from the spec: `sat_utils.cnf_result` implements 3-input XOR using
the auxiliary intermediate variable for the first two inputs, then XOR-ing with
the third. -/
def cnf_result (output_id input0_id input1_id carry_id intermediate_id : String) :
    List Constr :=
  [Constr.eqv intermediate_id (BE.xor2 (BE.var input0_id) (BE.var input1_id)),
   Constr.eqv output_id (BE.xor2 (BE.var intermediate_id) (BE.var carry_id))]

/-- Modelled from the spec: `sat_utils.cnf_carry_comp2` is the two's-complement
carry relation `carry <=> (NOT input) AND previous_carry`; it matches the SMT
emission in `MODSUB.smt_constraints`. -/
def cnf_carry_comp2 (carry_id input_id previous_carry_id : String) : List Constr :=
  [Constr.eqv carry_id (BE.conj (BE.neg (BE.var input_id)) (BE.var previous_carry_id))]

/-- Modelled from the spec: `sat_utils.cnf_inequality` forces two variables to
differ (the complement inequality check at the top bit). -/
def cnf_inequality (a b : String) : List Constr :=
  [Constr.distinct a b]

/-- Modelled from the spec: `sat_utils.cnf_result_comp2` is the two's-complement
result relation `result <=> (NOT input) XOR carry`; it matches the SMT emission
in `MODSUB.smt_constraints`. -/
def cnf_result_comp2 (result_id input_id carry_id : String) : List Constr :=
  [Constr.eqv result_id (BE.xor2 (BE.neg (BE.var input_id)) (BE.var carry_id))]

/-- Modelled from the spec: `sat_utils.cnf_equivalent` on a two-element list
forces the two variables to coincide. -/
def cnf_equivalent (a b : String) : List Constr :=
  [Constr.eqv a (BE.var b)]

/-- Modelled from the spec: `smt_utils.smt_carry` builds the majority
expression `(or (and x y) (and x c) (and y c))`. -/
def smt_carry (x y c : String) : BE :=
  BE.disj3 (BE.conj (BE.var x) (BE.var y)) (BE.conj (BE.var x) (BE.var c))
    (BE.conj (BE.var y) (BE.var c))

/-- Modelled from the spec: `smt_assert (smt_equivalent (v, e))` asserts the
equivalence of a variable and an expression. -/
def smt_assert_equivalent (v : String) (e : BE) : Constr :=
  Constr.eqv v e

/-! ## `modadd_component.py`: the SAT/CMS/SMT emitters -/

/-- Embedding of `cms_modadd` (modadd_component.py, lines 25-35).  The
`[-1]` accesses fail on empty lists, hence the `Option`. -/
def cms_modadd (output_ids input0_ids input1_ids carry_ids : List String) :
    Option (List Constr) := do
  let cl ← carry_ids.getLast?
  let x0l ← input0_ids.getLast?
  let x1l ← input1_ids.getLast?
  let ol ← output_ids.getLast?
  some ((zip4 carry_ids input0_ids.tail input1_ids.tail carry_ids.tail).flatMap
          (fun q => cnf_carry q.1 q.2.1 q.2.2.1 q.2.2.2)
        ++ cnf_and cl x0l x1l
        ++ (zip4 output_ids input0_ids input1_ids carry_ids).map
          (fun q => Constr.xclause [(false, q.1), (true, q.2.1), (true, q.2.2.1), (true, q.2.2.2)])
        ++ [Constr.xclause [(false, ol), (true, x0l), (true, x1l)]])

/-- Embedding of `sat_modadd` (modadd_component.py, lines 63-74). -/
def sat_modadd (output_ids input0_ids input1_ids carry_ids intermediate_ids : List String) :
    Option (List Constr) := do
  let cl ← carry_ids.getLast?
  let x0l ← input0_ids.getLast?
  let x1l ← input1_ids.getLast?
  let ol ← output_ids.getLast?
  some ((zip4 carry_ids input0_ids.tail input1_ids.tail carry_ids.tail).flatMap
          (fun q => cnf_carry q.1 q.2.1 q.2.2.1 q.2.2.2)
        ++ cnf_and cl x0l x1l
        ++ (zip5 output_ids input0_ids input1_ids carry_ids intermediate_ids).flatMap
          (fun q => cnf_result q.1 q.2.1 q.2.2.1 q.2.2.2.1 q.2.2.2.2)
        ++ cnf_xor ol x0l x1l)

/-- Embedding of `smt_modadd` (modadd_component.py, lines 86-106). -/
def smt_modadd (output_ids input0_ids input1_ids carry_ids : List String) :
    Option (List Constr) := do
  let cl ← carry_ids.getLast?
  let x0l ← input0_ids.getLast?
  let x1l ← input1_ids.getLast?
  let ol ← output_ids.getLast?
  some ((zip4 carry_ids input0_ids.tail input1_ids.tail carry_ids.tail).map
          (fun q => smt_assert_equivalent q.1 (smt_carry q.2.1 q.2.2.1 q.2.2.2))
        ++ [smt_assert_equivalent cl (BE.conj (BE.var x0l) (BE.var x1l))]
        ++ (zip4 output_ids input0_ids input1_ids carry_ids).map
          (fun q => smt_assert_equivalent q.1 (BE.xor3 (BE.var q.2.1) (BE.var q.2.2.1) (BE.var q.2.2.2)))
        ++ [smt_assert_equivalent ol (BE.xor2 (BE.var x0l) (BE.var x1l))])

/-- The loop shared by `cms_modadd_seq` and `smt_modadd_seq`: stage `i > 0`
uses the previous stage's output word as the left operand and the next raw
operand as the right operand.  The recursion is driven by the outputs list,
as the Python loop is; a missing operand or carry word is an `IndexError`,
i.e. `none`. -/
def seqRest4 (step : List String → List String → List String → List String → Option (List Constr)) :
    List String → List (List String) → List (List String) → List (List String) →
      Option (List Constr)
  | _, [], _, _ => some []
  | prev, o :: os, i :: irest, c :: cs => do
      let first ← step o prev i c
      let rest ← seqRest4 step o os irest cs
      some (first ++ rest)
  | _, _ :: _, _, _ => none

/-- The analogous loop for `sat_modadd_seq`, which also threads the stage's
intermediate variables. -/
def seqRest5 (step : List String → List String → List String → List String → List String →
      Option (List Constr)) :
    List String → List (List String) → List (List String) → List (List String) →
      List (List String) → Option (List Constr)
  | _, [], _, _, _ => some []
  | prev, o :: os, i :: irest, c :: cs, t :: ts => do
      let first ← step o prev i c t
      let rest ← seqRest5 step o os irest cs ts
      some (first ++ rest)
  | _, _ :: _, _, _, _ => none

/-- Embedding of `cms_modadd_seq` (modadd_component.py, lines 38-43). -/
def cms_modadd_seq (outputs_ids inputs_ids carries_ids : List (List String)) :
    Option (List Constr) :=
  match outputs_ids, inputs_ids, carries_ids with
  | o0 :: os, i0 :: i1 :: irest, c0 :: cs => do
      let first ← cms_modadd o0 i0 i1 c0
      let rest ← seqRest4 cms_modadd o0 os irest cs
      some (first ++ rest)
  | _, _, _ => none

/-- Embedding of `sat_modadd_seq` (modadd_component.py, lines 77-83). -/
def sat_modadd_seq (outputs_ids inputs_ids carries_ids intermediates_ids : List (List String)) :
    Option (List Constr) :=
  match outputs_ids, inputs_ids, carries_ids, intermediates_ids with
  | o0 :: os, i0 :: i1 :: irest, c0 :: cs, t0 :: ts => do
      let first ← sat_modadd o0 i0 i1 c0 t0
      let rest ← seqRest5 sat_modadd o0 os irest cs ts
      some (first ++ rest)
  | _, _, _, _ => none

/-- Embedding of `smt_modadd_seq` (modadd_component.py, lines 109-114). -/
def smt_modadd_seq (outputs_ids inputs_ids carries_ids : List (List String)) :
    Option (List Constr) :=
  match outputs_ids, inputs_ids, carries_ids with
  | o0 :: os, i0 :: i1 :: irest, c0 :: cs => do
      let first ← smt_modadd o0 i0 i1 c0
      let rest ← seqRest4 smt_modadd o0 os irest cs
      some (first ++ rest)
  | _, _, _ => none

/-! ## Component-level id generation and the MODADD/MODSUB methods -/

/-- Python `f-string` formatting `{i:03}`. -/
def pad3 (n : Nat) : String :=
  if n < 10 then "00" ++ toString n
  else if n < 100 then "0" ++ toString n
  else toString n

/-- Modelled from the spec: `Component._generate_input_ids` returns the flat
list of deterministic input bit ids, one per selected bit, derived from the
input id links and the bit positions (`{link}_{position}`). -/
def generate_input_ids (links : List String) (positions : List (List Nat)) : List String :=
  (links.zip positions).flatMap fun lp => lp.2.map fun p => lp.1 ++ "_" ++ toString p

/-- Modelled from the spec: `Component._generate_output_ids` returns the output
bit ids `{component_id}_{i}` for `i < output_bit_size`. -/
def generate_output_ids (component_id : String) (output_bit_size : Nat) : List String :=
  (List.range output_bit_size).map fun i => component_id ++ "_" ++ toString i

/-- Embedding of the body of `MODADD.sat_constraints` (modadd_component.py,
lines 305-354) after the two id-generator calls: it is parameterised by the
generated input and output ids and by `description[1]` (the operand count). -/
def MODADD_sat_constraints (input_ids output_ids : List String) (num_of_addenda : Nat) :
    Option (List String × List Constr) :=
  let output_len := output_ids.length
  let inputs_ids := (List.range num_of_addenda).map
    fun i => (input_ids.drop (i * output_len)).take output_len
  let carries_ids := (List.range (num_of_addenda - 1)).map
    fun i => output_ids.dropLast.map fun oid => "carry_" ++ pad3 i ++ "_" ++ oid
  let intermediates_ids := (List.range (num_of_addenda - 1)).map
    fun i => output_ids.map fun oid => "modadd_intermediate_" ++ pad3 i ++ "_" ++ oid
  let outputs_ids := ((List.range (num_of_addenda - 2)).map
    fun i => output_ids.map fun oid => "modadd_output_" ++ pad3 i ++ "_" ++ oid) ++ [output_ids]
  match sat_modadd_seq outputs_ids inputs_ids carries_ids intermediates_ids with
  | none => none
  | some constraints =>
      some (carries_ids.flatten ++ intermediates_ids.flatten ++ outputs_ids.flatten, constraints)

/-- Embedding of the body of `MODADD.cms_constraints` (modadd_component.py,
lines 186-231), parameterised like `MODADD_sat_constraints`. -/
def MODADD_cms_constraints (input_ids output_ids : List String) (num_of_addenda : Nat) :
    Option (List String × List Constr) :=
  let output_len := output_ids.length
  let inputs_ids := (List.range num_of_addenda).map
    fun i => (input_ids.drop (i * output_len)).take output_len
  let carries_ids := (List.range (num_of_addenda - 1)).map
    fun i => output_ids.dropLast.map fun oid => "carry_" ++ pad3 i ++ "_" ++ oid
  let outputs_ids := ((List.range (num_of_addenda - 2)).map
    fun i => output_ids.map fun oid => "modadd_output_" ++ pad3 i ++ "_" ++ oid) ++ [output_ids]
  match cms_modadd_seq outputs_ids inputs_ids carries_ids with
  | none => none
  | some constraints => some (carries_ids.flatten ++ outputs_ids.flatten, constraints)

/-- Embedding of the body of `MODADD.smt_constraints` (modadd_component.py,
lines 356-400), parameterised like `MODADD_sat_constraints`. -/
def MODADD_smt_constraints (input_ids output_ids : List String) (num_of_addenda : Nat) :
    Option (List String × List Constr) :=
  let output_len := output_ids.length
  let inputs_ids := (List.range num_of_addenda).map
    fun i => (input_ids.drop (i * output_len)).take output_len
  let carries_ids := (List.range (num_of_addenda - 1)).map
    fun i => output_ids.dropLast.map fun oid => "carry_" ++ pad3 i ++ "_" ++ oid
  let outputs_ids := ((List.range (num_of_addenda - 2)).map
    fun i => output_ids.map fun oid => "modadd_output_" ++ pad3 i ++ "_" ++ oid) ++ [output_ids]
  match smt_modadd_seq outputs_ids inputs_ids carries_ids with
  | none => none
  | some constraints => some (carries_ids.flatten ++ outputs_ids.flatten, constraints)

/-! ## `modsub_component.py`: the SAT/CMS/SMT emitters -/

/-- Embedding of `two_complement_sat_constraints` (modsub_component.py,
lines 37-48). -/
def two_complement_sat_constraints (twocomp_result_ids input_ids : List String) :
    Option (List String × List Constr) := do
  let twocomp_carry_ids := input_ids.dropLast.map fun iid => "twocomp_carry_" ++ iid
  let cl ← twocomp_carry_ids.getLast?
  let il ← input_ids.getLast?
  let rl ← twocomp_result_ids.getLast?
  some (twocomp_carry_ids,
    (zip3 twocomp_carry_ids input_ids.tail twocomp_carry_ids.tail).flatMap
      (fun q => cnf_carry_comp2 q.1 q.2.1 q.2.2)
    ++ cnf_inequality cl il
    ++ (zip3 twocomp_result_ids input_ids twocomp_carry_ids).flatMap
      (fun q => cnf_result_comp2 q.1 q.2.1 q.2.2)
    ++ cnf_equivalent rl il)

/-- Embedding of the body of `MODSUB.sat_constraints` (modsub_component.py,
lines 171-210), parameterised by the generated input and output ids. -/
def MODSUB_sat_constraints (input_ids output_ids : List String) :
    Option (List String × List Constr) := do
  let output_len := output_ids.length
  let input1_ids := input_ids.drop output_len
  let twocomp_result_ids := input1_ids.map fun iid => "twocomp_result_" ++ iid
  let (twocomp_carry_ids, constraints) ←
    two_complement_sat_constraints twocomp_result_ids input1_ids
  let carry_ids := output_ids.dropLast.map fun oid => "carry_" ++ oid
  let intermediate_ids := output_ids.map fun oid => "intermediate_" ++ oid
  let cs2 ← sat_modadd output_ids (input_ids.take output_len) twocomp_result_ids
    carry_ids intermediate_ids
  some (twocomp_carry_ids ++ twocomp_result_ids ++ carry_ids ++ intermediate_ids ++ output_ids,
    constraints ++ cs2)

/-- Embedding of the body of `MODSUB.cms_constraints` (modsub_component.py,
lines 57-94), parameterised by the generated input and output ids. -/
def MODSUB_cms_constraints (input_ids output_ids : List String) :
    Option (List String × List Constr) := do
  let output_len := output_ids.length
  let input1_ids := input_ids.drop output_len
  let twocomp_result_ids := input1_ids.map fun iid => "twocomp_result_" ++ iid
  let (twocomp_carry_ids, constraints) ←
    two_complement_sat_constraints twocomp_result_ids input1_ids
  let carry_ids := output_ids.dropLast.map fun oid => "carry_" ++ oid
  let cs2 ← cms_modadd output_ids (input_ids.take output_len) twocomp_result_ids carry_ids
  some (twocomp_carry_ids ++ twocomp_result_ids ++ carry_ids ++ output_ids, constraints ++ cs2)

/-- Embedding of the body of `MODSUB.smt_constraints` (modsub_component.py,
lines 212-265), parameterised by the generated input and output ids. -/
def MODSUB_smt_constraints (input_ids output_ids : List String) :
    Option (List String × List Constr) := do
  let output_len := output_ids.length
  let input1_ids := input_ids.drop output_len
  let twocomp_carry_ids := input1_ids.dropLast.map fun iid => "twocomp_carry_" ++ iid
  let twocomp_result_ids := input1_ids.map fun iid => "twocomp_result_" ++ iid
  let carry_ids := output_ids.dropLast.map fun oid => "carry_" ++ oid
  let cl ← twocomp_carry_ids.getLast?
  let il ← input1_ids.getLast?
  let rl ← twocomp_result_ids.getLast?
  let twocompCs :=
    (zip3 twocomp_carry_ids input1_ids.tail twocomp_carry_ids.tail).map
      (fun q => smt_assert_equivalent q.1 (BE.conj (BE.neg (BE.var q.2.1)) (BE.var q.2.2)))
    ++ [Constr.distinct cl il]
    ++ (zip3 twocomp_result_ids input1_ids twocomp_carry_ids).map
      (fun q => smt_assert_equivalent q.1 (BE.xor2 (BE.neg (BE.var q.2.1)) (BE.var q.2.2)))
    ++ [smt_assert_equivalent rl (BE.var il)]
  let cs2 ← smt_modadd output_ids (input_ids.take output_len) twocomp_result_ids carry_ids
  some (twocomp_carry_ids ++ twocomp_result_ids ++ carry_ids ++ output_ids, twocompCs ++ cs2)

/-! ## The CP backend

CP variables are elements of named 0/1 arrays, so a CP variable is a pair of
an array name and an index, and a CP assignment maps such pairs to bits. -/

/-- A declared CP array `array[lo..hi] of var 0..1: name;`. -/
structure CpDecl where
  name : String
  lo : Nat
  hi : Nat
  deriving DecidableEq

/-- Arithmetic expressions on CP array elements, as emitted by `cp_twoterms`. -/
inductive CpExpr
  | v (a : String) (i : Nat)
  | addm (p q : CpExpr)
  | mulm (p q : CpExpr)
  deriving DecidableEq

def CpExpr.evalN (σ : String → Nat → Bool) : CpExpr → Nat
  | v a i => bitv (σ a i)
  | addm p q => evalN σ p + evalN σ q
  | mulm p q => evalN σ p * evalN σ q

/-- One emitted CP constraint: either a wiring equation between two array
elements or an equation of an element with an expression taken mod 2. -/
inductive CpC
  | ceq (lhs rhs : String × Nat)
  | eqMod2 (lhs : String × Nat) (rhs : CpExpr)
  deriving DecidableEq

def CpC.evalB (σ : String → Nat → Bool) : CpC → Bool
  | ceq lhs rhs => σ lhs.1 lhs.2 == σ rhs.1 rhs.2
  | eqMod2 lhs rhs => bitv (σ lhs.1 lhs.2) == CpExpr.evalN σ rhs % 2

/-- Satisfaction of a CP constraint list. -/
def cpSats (σ : String → Nat → Bool) (cs : List CpC) : Bool :=
  cs.all (CpC.evalB σ)

/-- Embedding of `cp_twoterms` of modadd_component.py (lines 46-60): the
carry-chain equations of one pairwise addition over the arrays `input_1`,
`input_2` and `out`, with carry array `carry_{out}` indexed `1 .. len - 1`
(entry `i + 1` is the carry into position `i`). -/
def cp_twoterms_add (input_1 input_2 out : String) (input_length : Nat) :
    List CpDecl × List CpC :=
  let carry := "carry_" ++ out
  (⟨carry, 1, input_length - 1⟩ :: [],
    ((List.range' 1 (input_length - 2)).map fun i =>
      CpC.eqMod2 (carry, i)
        (CpExpr.addm (CpExpr.mulm (CpExpr.v input_1 i) (CpExpr.v input_2 i))
          (CpExpr.addm (CpExpr.mulm (CpExpr.v input_1 i) (CpExpr.v carry (i + 1)))
            (CpExpr.mulm (CpExpr.v carry (i + 1)) (CpExpr.v input_2 i)))))
    ++ [CpC.eqMod2 (carry, input_length - 1)
          (CpExpr.mulm (CpExpr.v input_1 (input_length - 1)) (CpExpr.v input_2 (input_length - 1)))]
    ++ ((List.range (input_length - 1)).map fun i =>
      CpC.eqMod2 (out, i)
        (CpExpr.addm (CpExpr.v input_1 i)
          (CpExpr.addm (CpExpr.v input_2 i) (CpExpr.v carry (i + 1)))))
    ++ [CpC.eqMod2 (out, input_length - 1)
          (CpExpr.addm (CpExpr.v input_1 (input_length - 1)) (CpExpr.v input_2 (input_length - 1)))])

/-- The MiniZinc staging-array name `pre_{out}_{i}`. -/
def pre_name (out : String) (i : Nat) : String := "pre_" ++ out ++ "_" ++ toString i

/-- The MiniZinc staging-array name `temp_{out}_{i}` used by MODSUB. -/
def temp_name (out : String) (i : Nat) : String := "temp_" ++ out ++ "_" ++ toString i

/-- The sequence of `cp_twoterms` reduction calls issued by
`MODADD.cp_constraints` (modadd_component.py, lines 272-277), as
`(input_1, input_2, out)` array-name triples, in emission order.  Note that
every call of the `for i in range(num_add - 2)` loop passes
`pre_{num_add - 1}` as its first argument. -/
def modadd_cp_calls (out : String) (num_add : Nat) : List (String × String × String) :=
  ((List.range (num_add - 2)).map fun i =>
    (pre_name out (num_add - 1), pre_name out (i + 1), pre_name out (num_add + i)))
  ++ [(pre_name out (2 * num_add - 3), pre_name out 0, out)]

/-- Embedding of the body of `MODADD.cp_constraints` (modadd_component.py,
lines 233-279).  The wiring section copies each selected input bit into the
`pre_` staging arrays; the reduction section issues the `cp_twoterms` calls. -/
def MODADD_cp_constraints (output_id_link : String) (input_id_links : List String)
    (input_bit_positions : List (List Nat)) (output_size num_add : Nat) :
    List CpDecl × List CpC :=
  let all_inputs : List (String × Nat) :=
    (input_id_links.zip input_bit_positions).flatMap fun lp => lp.2.map fun p => (lp.1, p)
  let input_len := all_inputs.length / num_add
  let wiringDecls := (List.range num_add).map fun i =>
    (⟨pre_name output_id_link i, 0, input_len - 1⟩ : CpDecl)
  let wiringCs := (List.range num_add).flatMap fun i =>
    (List.range input_len).map fun j =>
      CpC.ceq (pre_name output_id_link i, j) (all_inputs.getD (i * input_len + j) ("", 0))
  let interDecls := (List.range' num_add (num_add - 2)).map fun i =>
    (⟨pre_name output_id_link i, 0, input_len - 1⟩ : CpDecl)
  let calls := modadd_cp_calls output_id_link num_add
  (wiringDecls ++ interDecls ++ calls.flatMap (fun c => (cp_twoterms_add c.1 c.2.1 c.2.2 output_size).1),
   wiringCs ++ calls.flatMap fun c => (cp_twoterms_add c.1 c.2.1 c.2.2 output_size).2)

/-- The sequence of `cp_twoterms` reduction calls issued by
`MODSUB.cp_constraints` (modsub_component.py, lines 148-160), as
`(input_1, input_2, out)` name triples.  In the source the call producing the
component output sits inside the `for i in range(1, num_add - 2)` loop body;
the embedding preserves this. -/
def modsub_cp_calls (out : String) (num_add : Nat) : List (String × String × String) :=
  if num_add = 2 then [(pre_name out 0, pre_name out 1, out)]
  else if num_add > 2 then
    [(pre_name out 0, pre_name out 1, temp_name out 0)]
    ++ (List.range' 1 (num_add - 3)).flatMap fun i =>
      [(pre_name out (i + 1), temp_name out (i - 1), temp_name out i),
       (pre_name out (num_add - 1), temp_name out (num_add - 3), out)]
  else []

/-! ## The algebraic backend

Polynomials over GF(2) in string-named variables, evaluated into `Bool`
(addition is xor, multiplication is conjunction); a polynomial constraint is
satisfied when the polynomial evaluates to zero, i.e. `false`. -/

inductive Poly
  | zero
  | one
  | pvar (s : String)
  | padd (p q : Poly)
  | pmul (p q : Poly)
  deriving DecidableEq

def Poly.evalB (σ : String → Bool) : Poly → Bool
  | zero => false
  | one => true
  | pvar s => σ s
  | padd p q => evalB σ p ^^ evalB σ q
  | pmul p q => evalB σ p && evalB σ q

/-- A polynomial list is satisfied when every polynomial vanishes. -/
def polySats (σ : String → Bool) (ps : List Poly) : Bool :=
  ps.all fun p => Poly.evalB σ p == false

/-- The majority polynomial `x*y + x*z + y*z` of `MODADD.algebraic_polynomials`. -/
def majPoly (x y z : Poly) : Poly :=
  Poly.padd (Poly.pmul x y) (Poly.padd (Poly.pmul x z) (Poly.pmul y z))

/-- The polynomials of one addition stage of `MODADD.algebraic_polynomials`
(modadd_component.py, lines 164-182): `c[0]`, `x[0]+y[0]+z[0]+c[0]`, and for
`i` in `1 .. word_size - 1` the pair `c[i] + maj(x[i-1], y[i-1], c[i-1])` and
`x[i]+y[i]+z[i]+c[i]`. -/
def algStage (x y z c : List String) (word_size : Nat) : List Poly :=
  [Poly.padd (Poly.pvar (c.getD 0 "")) Poly.zero,
   Poly.padd (Poly.pvar (x.getD 0 ""))
     (Poly.padd (Poly.pvar (y.getD 0 ""))
       (Poly.padd (Poly.pvar (z.getD 0 "")) (Poly.pvar (c.getD 0 ""))))]
  ++ (List.range' 1 (word_size - 1)).flatMap fun i =>
    [Poly.padd (Poly.pvar (c.getD i ""))
       (majPoly (Poly.pvar (x.getD (i - 1) "")) (Poly.pvar (y.getD (i - 1) ""))
         (Poly.pvar (c.getD (i - 1) ""))),
     Poly.padd (Poly.pvar (x.getD i ""))
       (Poly.padd (Poly.pvar (y.getD i ""))
         (Poly.padd (Poly.pvar (z.getD i "")) (Poly.pvar (c.getD i ""))))]

/-- Embedding of `MODADD.algebraic_polynomials` (modadd_component.py, lines
123-184).  The variable postfixes of the algebraic model (`x` for inputs, `y`
for outputs) are modelled from the spec variable-naming convention; carries are
`c{n}_{i}` and auxiliary stage outputs `o{n}_{i}` as in the source. -/
def MODADD_algebraic_polynomials (component_id : String)
    (ninput_words ninput_bits noutput_bits : Nat) : List Poly :=
  let nadditions := ninput_words - 1
  let word_size := noutput_bits
  let input_vars := (List.range ninput_bits).map fun i => component_id ++ "_x" ++ toString i
  let output_vars := (List.range noutput_bits).map fun i => component_id ++ "_y" ++ toString i
  let carries_vars := (List.range nadditions).map fun n =>
    (List.range word_size).map fun i => component_id ++ "_c" ++ toString n ++ "_" ++ toString i
  let aux_outputs_vars := (List.range (nadditions - 1)).map fun n =>
    (List.range word_size).map fun i => component_id ++ "_o" ++ toString n ++ "_" ++ toString i
  ((List.range nadditions).map fun n =>
    let x := if n = 0 then input_vars.take word_size else aux_outputs_vars.getD (n - 1) []
    let z := if n = nadditions - 1 then output_vars else aux_outputs_vars.getD n []
    let y := (input_vars.drop ((n + 1) * word_size)).take word_size
    let c := carries_vars.getD n []
    algStage x y z c word_size).flatten

/-! ## `or_component.py` -/

/-- The polynomial OR identity `OR(x0, x1) = x0*x1 + x0 + x1`
(or_component.py, lines 61-62). -/
def or_polynomial (x0 x1 : Poly) : Poly :=
  Poly.padd (Poly.pmul x0 x1) (Poly.padd x0 x1)

/-- Embedding of `OR.algebraic_polynomials` (or_component.py, lines 31-72).
Note that the accumulator `x` is initialised with the constant `ring_R.one()`
before the fold over the operand words, exactly as in the source. -/
def OR_algebraic_polynomials (component_id : String) (ninputs noutputs : Nat) : List Poly :=
  let word_size := noutputs
  let input_vars := (List.range ninputs).map fun i => component_id ++ "_x" ++ toString i
  let output_vars := (List.range noutputs).map fun i => component_id ++ "_y" ++ toString i
  let words_vars := (List.range (ninputs / word_size)).map fun n =>
    (input_vars.drop (n * word_size)).take word_size
  let x0 : List Poly := List.replicate noutputs Poly.one
  let x := words_vars.foldl
    (fun acc word => (List.range noutputs).map fun i =>
      or_polynomial (acc.getD i Poly.zero) (Poly.pvar (word.getD i ""))) x0
  (List.range noutputs).map fun i =>
    Poly.padd (Poly.pvar (output_vars.getD i "")) (x.getD i Poly.zero)

/-- Embedding of `OR.sat_constraints` (or_component.py, lines 215-250).  As
soon as the loop body runs (i.e. whenever the output length is positive), the
expression `intermediate_ids + output_bit_ids[i]` concatenates a Python list
with a string and raises `TypeError`; the failure is modelled by `none`. -/
def OR_sat_constraints (input_bit_ids output_bit_ids : List String) :
    Option (List String × List Constr) :=
  if output_bit_ids.length = 0 then some (output_bit_ids, []) else none

/-- The fixed 2x2x2 signed lookup table of
`OR.generic_sign_linear_constraints` (or_component.py, line 203). -/
def or_LAT : List (List (List Int)) := [[[1, -1], [0, 1]], [[0, 1], [0, 1]]]

/-- Entry of `or_LAT` at a triple of 0/1 indices. -/
def latGet (a b c : Nat) : Int := ((or_LAT.getD a []).getD b []).getD c 0

/-- Embedding of `OR.generic_sign_linear_constraints` (or_component.py, lines
182-207): the running product of table entries over the output positions. -/
def OR_generic_sign_linear_constraints (input_size output_size : Nat)
    (inputs outputs : List Nat) : Int :=
  (List.range output_size).foldl
    (fun sign i =>
      sign * latGet (inputs.getD i 0) (inputs.getD (input_size / 2 + i) 0) (outputs.getD i 0))
    1

/-! ## Basic list helpers -/

theorem getD_replicate_zero (n i : Nat) : (List.replicate n (0 : Nat)).getD i 0 = 0 := by
  induction n generalizing i with
  | zero => simp [List.getD]
  | succ n ih => cases i <;> simp [List.replicate, ih]

/-! ## Claim C10: the OR trail-sign computation -/

/-- C10: `generic_sign_linear_constraints` returns the product over output bit
positions `i` of `or_LAT[inputs[i]][inputs[input_size/2 + i]][outputs[i]]` from
the fixed 2x2x2 table; with all inputs and outputs zero it returns `+1`, and
`or_LAT[1][1][1] = 1`. -/
theorem c10_or_sign_is_lat_product (input_size output_size : Nat)
    (inputs outputs : List Nat) :
    OR_generic_sign_linear_constraints input_size output_size inputs outputs =
      ((List.range output_size).map fun i =>
        latGet (inputs.getD i 0) (inputs.getD (input_size / 2 + i) 0) (outputs.getD i 0)).prod ∧
    OR_generic_sign_linear_constraints input_size output_size
      (List.replicate input_size 0) (List.replicate output_size 0) = 1 ∧
    latGet 1 1 1 = 1 := by
  have hprod : ∀ (insz outsz : Nat) (ins outs : List Nat),
      OR_generic_sign_linear_constraints insz outsz ins outs =
        ((List.range outsz).map fun i =>
          latGet (ins.getD i 0) (ins.getD (insz / 2 + i) 0) (outs.getD i 0)).prod := by
    intro insz outsz ins outs
    unfold OR_generic_sign_linear_constraints
    rw [List.prod_eq_foldl, List.foldl_map]
  refine ⟨hprod input_size output_size inputs outputs, ?_, by decide⟩
  rw [hprod]
  apply List.prod_eq_one
  intro x hx
  simp only [List.mem_map, getD_replicate_zero] at hx
  obtain ⟨i, _, rfl⟩ := hx
  decide

/-! ## Claim C4: the MODADD CP reduction chain for more than three operands -/

/-- C4: at operand count 4, `MODADD.cp_constraints` does not chain the pairwise
reductions: the reduction after the first takes `pre_3` (the last raw operand)
as its left operand instead of the previous reduction's result `pre_4`, and
`pre_4` is consumed by no later reduction at all, so the emitted encoding is
not the left-associative composition of 2-operand encodings the claim states. -/
theorem c4_modadd_cp_chain_drops_accumulator :
    modadd_cp_calls "modadd_0_1" 4 =
      [("pre_modadd_0_1_3", "pre_modadd_0_1_1", "pre_modadd_0_1_4"),
       ("pre_modadd_0_1_3", "pre_modadd_0_1_2", "pre_modadd_0_1_5"),
       ("pre_modadd_0_1_5", "pre_modadd_0_1_0", "modadd_0_1")] ∧
    ((modadd_cp_calls "modadd_0_1" 4).drop 1).all
      (fun c => (c.1 != "pre_modadd_0_1_4") && (c.2.1 != "pre_modadd_0_1_4")) = true := by
  decide

/-! ## Claim C5: the MODSUB CP reduction chain at exactly three operands -/

/-- C5: at operand count 3, `MODSUB.cp_constraints` emits exactly one pairwise
reduction (not `k - 1 = 2`), and no emitted reduction produces the component
output array, so the output is left unconstrained: the `cp_twoterms` call that
should produce the output sits inside the `for i in range(1, num_add - 2)`
loop, whose range is empty for `num_add = 3`. -/
theorem c5_modsub_cp_k3_output_unconstrained :
    modsub_cp_calls "modsub_0_7" 3 =
      [("pre_modsub_0_7_0", "pre_modsub_0_7_1", "temp_modsub_0_7_0")] ∧
    (modsub_cp_calls "modsub_0_7" 3).all (fun c => c.2.2 != "modsub_0_7") = true ∧
    (modsub_cp_calls "modsub_0_7" 3).length ≠ 2 := by
  decide

/-! ## Claim C6: the OR algebraic polynomials -/

/-- C6: because `OR.algebraic_polynomials` seeds its fold with the ring
constant one and `OR(1, v) = 1` over GF(2), the emitted system for a 2-operand
1-bit OR is satisfied exactly when the output variable is `1`, independently of
the inputs; in particular the all-zero assignment (inputs 0, output 0), which
iterated boolean OR satisfies, is not a common zero. -/
theorem c6_or_algebraic_polynomials_force_output_one :
    (∀ σ : String → Bool,
      polySats σ (OR_algebraic_polynomials "or_0_4" 2 1) = true ↔ σ "or_0_4_y0" = true) ∧
    polySats (fun _ => false) (OR_algebraic_polynomials "or_0_4" 2 1) = false := by
  constructor
  · intro σ
    have hy : ("or_0_4_y" ++ toString 0 : String) = "or_0_4_y0" := by decide
    simp [OR_algebraic_polynomials, or_polynomial, polySats, Poly.evalB, List.range_succ, hy]
  · decide

/-! ## Claim C7: the width-1 modular encoders -/

/-- C7: at width 1 and operand count 2 every CMS/SAT/SMT encoder of MODADD and
MODSUB fails (the source evaluates `carry_ids[-1]`, resp.
`twocomp_carry_ids[-1]`, on an empty list and raises `IndexError`, modelled as
`none`): no artifact with a degenerate single-XOR chain is returned. -/
theorem c7_width_one_modular_encoders_fail :
    MODADD_cms_constraints ["a_0", "b_0"] ["modadd_0_1_0"] 2 = none ∧
    MODADD_sat_constraints ["a_0", "b_0"] ["modadd_0_1_0"] 2 = none ∧
    MODADD_smt_constraints ["a_0", "b_0"] ["modadd_0_1_0"] 2 = none ∧
    MODSUB_cms_constraints ["a_0", "b_0"] ["modsub_0_7_0"] = none ∧
    MODSUB_sat_constraints ["a_0", "b_0"] ["modsub_0_7_0"] = none ∧
    MODSUB_smt_constraints ["a_0", "b_0"] ["modsub_0_7_0"] = none := by
  decide

/-! ## Claim C8: variable-name collisions between distinct components -/

/-- C8 counterexample: two MODSUB components with different component ids
(`modsub_0_7` and `modsub_1_1`) but the same input wiring both introduce the
auxiliary variable `twocomp_carry_b_0`, so their sets of auxiliary names are
not disjoint. -/
theorem c8_twocomp_name_collision :
    (Option.map (fun r => r.1.contains "twocomp_carry_b_0")
      (MODSUB_sat_constraints (generate_input_ids ["a", "b"] [[0, 1], [0, 1]])
        (generate_output_ids "modsub_0_7" 2)) = some true) ∧
    (Option.map (fun r => r.1.contains "twocomp_carry_b_0")
      (MODSUB_sat_constraints (generate_input_ids ["a", "b"] [[0, 1], [0, 1]])
        (generate_output_ids "modsub_1_1" 2)) = some true) ∧
    "modsub_0_7" ≠ "modsub_1_1" := by
  decide

/-- C8 amended: MODSUB's `twocomp_carry_*`/`twocomp_result_*` names (the first
`2w - 1` returned ids) are derived from the input ids alone and therefore
coincide for every pair of component ids sharing the same input wiring, while
the names derived from the component's own output ids (`carry_*`,
`intermediate_*` and the output ids) are disjoint between the two concrete
distinct components. -/
theorem c8_twocomp_names_depend_only_on_inputs :
    (∀ outIdA outIdB : String,
      Option.map (fun r => r.1.take 3)
        (MODSUB_sat_constraints (generate_input_ids ["a", "b"] [[0, 1], [0, 1]])
          (generate_output_ids outIdA 2)) =
      Option.map (fun r => r.1.take 3)
        (MODSUB_sat_constraints (generate_input_ids ["a", "b"] [[0, 1], [0, 1]])
          (generate_output_ids outIdB 2))) ∧
    Option.map (fun r => (r.1.drop 3).all fun s =>
        !(["carry_modsub_1_1_0", "intermediate_modsub_1_1_0", "intermediate_modsub_1_1_1",
           "modsub_1_1_0", "modsub_1_1_1"].contains s))
      (MODSUB_sat_constraints (generate_input_ids ["a", "b"] [[0, 1], [0, 1]])
        (generate_output_ids "modsub_0_7" 2)) = some true := by
  constructor
  · intro outIdA outIdB
    unfold MODSUB_sat_constraints two_complement_sat_constraints generate_input_ids
      generate_output_ids
    simp [List.range_succ, sat_modadd, zip3, zip4, zip5]
  · decide

/-! ## Claim C9: the id list returned by `OR.sat_constraints` -/

/-- C9 counterexample: for a 3-operand 1-bit OR component, `OR.sat_constraints`
returns nothing at all (the source raises `TypeError` on
`intermediate_ids + output_bit_ids[i]`), so no returned variable-id list
contains the Tseitin intermediates. -/
theorem c9_or_sat_returns_nothing :
    OR_sat_constraints ["x_0", "x_1", "x_2"] ["or_0_4_0"] = none := by
  decide

/-- C9 amended: for every OR component with at least one output bit,
`OR.sat_constraints` fails with a `TypeError` (list-with-string concatenation)
before returning, so no variable-id list is produced at all. -/
theorem c9_or_sat_always_fails (input_bit_ids output_bit_ids : List String)
    (h : output_bit_ids ≠ []) :
    OR_sat_constraints input_bit_ids output_bit_ids = none := by
  unfold OR_sat_constraints
  simp [List.length_eq_zero, h]

/-- Witness for `c9_or_sat_always_fails` at a concrete 3-operand component. -/
theorem c9_or_sat_always_fails_witness :
    (["or_0_4_0"] : List String) ≠ [] ∧
      OR_sat_constraints ["x_0", "x_1", "x_2"] ["or_0_4_0"] = none :=
  ⟨by decide, c9_or_sat_always_fails ["x_0", "x_1", "x_2"] ["or_0_4_0"] (by decide)⟩

/-! ## Claim C2: the stated carry-chain relations (counterexample part) -/

/-- The carry and output relations exactly as claim C2 states them, transcribed
onto the emitted arrays (inputs `X`, `Y` and outputs `Z` of length `w`, the
emitted carry array `C` of length `w - 1`; the claim's `c_{w-1}` is read as the
last emitted carry): the literal recurrence is
`c_i = MAJ(x_i, y_i, c_{i+1})`. -/
def claimedChainRelC2 (Z X Y C : List Bool) : Bool :=
  let w := X.length
  (C.getD (w - 2) false == (X.getD (w - 1) false && Y.getD (w - 1) false))
  && ((List.range (w - 2)).all fun i =>
      C.getD i false == maj (X.getD i false) (Y.getD i false) (C.getD (i + 1) false))
  && ((List.range (w - 1)).all fun i =>
      Z.getD i false == (X.getD i false ^^ (Y.getD i false ^^ C.getD i false)))
  && (Z.getD (w - 1) false == (X.getD (w - 1) false ^^ Y.getD (w - 1) false))

/-- The assignment refuting C2's literal carry recurrence: both operands are
`100` (most significant bit first), all other variables `0`. -/
def sigmaC2 : String → Bool := fun s => s == "x0" || s == "y0"

/-- C2 counterexample: at width 3 the assignment `sigmaC2` satisfies every
constraint emitted by `cms_modadd`, yet violates the relation set as literally
stated by the claim (which demands `c_0 = MAJ(x_0, y_0, c_1) = 1`, while the
emitted constraints force `c_0 = MAJ(x_1, y_1, c_1) = 0`). -/
theorem c2_stated_relations_refuted :
    (Option.map (sats sigmaC2)
      (cms_modadd ["z0", "z1", "z2"] ["x0", "x1", "x2"] ["y0", "y1", "y2"] ["c0", "c1"])
      = some true) ∧
    claimedChainRelC2 (["z0", "z1", "z2"].map sigmaC2) (["x0", "x1", "x2"].map sigmaC2)
      (["y0", "y1", "y2"].map sigmaC2) (["c0", "c1"].map sigmaC2) = false := by
  decide

/-! ## Indexing helpers and the indexed chain relation -/

theorem getD_tail {α : Type} (l : List α) (i : Nat) (d : α) :
    l.tail.getD i d = l.getD (i + 1) d := by
  cases l <;> simp [List.getD]

theorem getD_map_bool (f : String → Bool) (l : List String) (i : Nat) (h : i < l.length) :
    (l.map f).getD i false = f (l.getD i "") := by
  rw [List.getD_eq_getElem _ _ (by simpa using h), List.getD_eq_getElem _ _ h, List.getElem_map]

theorem drop_eq_getD_cons {α : Type} (l : List α) (i : Nat) (d : α) (h : i < l.length) :
    l.drop i = l.getD i d :: l.drop (i + 1) := by
  rw [List.getD_eq_getElem _ _ h]
  exact List.drop_eq_getElem_cons h

/-- The carry out of the suffix of the operands starting at position `i`;
`cin X Y (i + 1)` is the carry into position `i`. -/
def cin (X Y : List Bool) (i : Nat) : Bool := (addMSB (X.drop i) (Y.drop i)).2

theorem maj_false (a b : Bool) : maj a b false = (a && b) := by cases a <;> cases b <;> decide

theorem cin_of_le (X Y : List Bool) (i : Nat) (h : X.length ≤ i) : cin X Y i = false := by
  unfold cin
  rw [List.drop_eq_nil_of_le h]
  rfl

theorem cin_succ (X Y : List Bool) (i : Nat) (h : X.length = Y.length)
    (hi : i + 1 < X.length) :
    cin X Y (i + 1) = maj (X.getD (i + 1) false) (Y.getD (i + 1) false) (cin X Y (i + 2)) := by
  unfold cin
  rw [drop_eq_getD_cons X (i + 1) false hi, drop_eq_getD_cons Y (i + 1) false (by omega)]
  simp [addMSB]

theorem addMSB_fst_getD : ∀ (X Y : List Bool), X.length = Y.length → ∀ i, i < X.length →
    (addMSB X Y).1.getD i false =
      (X.getD i false ^^ (Y.getD i false ^^ cin X Y (i + 1))) := by
  intro X
  induction X with
  | nil => intro Y h i hi; simp at hi
  | cons a as ih =>
      intro Y h i hi
      cases Y with
      | nil => simp at h
      | cons b bs =>
          simp only [List.length_cons, Nat.succ_inj] at h
          cases i with
          | zero => simp [addMSB, cin, List.getD]
          | succ i =>
              have hi2 : i < as.length := by simpa using hi
              have := ih bs h i hi2
              simpa [addMSB, cin, List.getD] using this

theorem length_carriesMSB (X Y : List Bool) : (carriesMSB X Y).length = X.length - 1 := by
  simp [carriesMSB]

theorem carriesMSB_getD (X Y : List Bool) (i : Nat) (hi : i < X.length - 1) :
    (carriesMSB X Y).getD i false = cin X Y (i + 1) := by
  rw [List.getD_eq_getElem _ _ (by simpa [carriesMSB] using hi)]
  simp [carriesMSB, cin]

/-- The relations emitted by the 2-operand carry chain, in indexed form:
inputs `X`, `Y` and outputs `Z` of length `w`, carries `C` of length `w - 1`
with entry `i` the carry into position `i`. -/
def chainRel (Z X Y C : List Bool) : Bool :=
  let w := X.length
  (C.getD (w - 2) false == (X.getD (w - 1) false && Y.getD (w - 1) false))
  && ((List.range (w - 2)).all fun i =>
      C.getD i false == maj (X.getD (i + 1) false) (Y.getD (i + 1) false) (C.getD (i + 1) false))
  && ((List.range (w - 1)).all fun i =>
      Z.getD i false == (X.getD i false ^^ (Y.getD i false ^^ C.getD i false)))
  && (Z.getD (w - 1) false == (X.getD (w - 1) false ^^ Y.getD (w - 1) false))

theorem chainRel_iff (w : Nat) (hw : 2 ≤ w) (X Y Z C : List Bool)
    (hx : X.length = w) (hy : Y.length = w) (hz : Z.length = w) (hc : C.length = w - 1) :
    chainRel Z X Y C = true ↔ (Z = (addMSB X Y).1 ∧ C = carriesMSB X Y) := by
  have hxy : X.length = Y.length := by omega
  have hcin_pred : cin X Y (w - 1) = (X.getD (w - 1) false && Y.getD (w - 1) false) := by
    have h1 : w - 2 + 1 = w - 1 := by omega
    have h2 : w - 2 + 2 = w := by omega
    have := cin_succ X Y (w - 2) hxy (by omega)
    rw [h1, h2] at this
    rw [this, cin_of_le X Y w (by omega), maj_false]
  constructor
  · intro hrel
    simp only [chainRel, Bool.and_eq_true, List.all_eq_true, List.mem_range,
      beq_iff_eq] at hrel
    obtain ⟨⟨⟨h1, h2⟩, h3⟩, h4⟩ := hrel
    rw [hx] at h1 h2 h3 h4
    -- carries are forced, from the least significant end upwards
    have hC : ∀ j i, i < w - 1 → w - 2 - i ≤ j → C.getD i false = cin X Y (i + 1) := by
      intro j
      induction j with
      | zero =>
          intro i hi hj
          have hie : i = w - 2 := by omega
          subst hie
          rw [h1, ← hcin_pred]
          congr 1
          omega
      | succ j ih =>
          intro i hi hj
          by_cases hcase : w - 2 - i ≤ j
          · exact ih i hi hcase
          · have hie : i < w - 2 := by omega
            rw [h2 i hie, ih (i + 1) (by omega) (by omega),
              ← cin_succ X Y i hxy (by omega)]
    have hCfin : ∀ i, i < w - 1 → C.getD i false = cin X Y (i + 1) := fun i hi =>
      hC w i hi (by omega)
    constructor
    · apply List.ext_getElem (by rw [hz, length_addMSB X Y hxy, hx])
      intro i hi1 hi2
      rw [← List.getD_eq_getElem Z false hi1, ← List.getD_eq_getElem _ false hi2]
      have hiw : i < w := by omega
      rw [addMSB_fst_getD X Y hxy i (by omega)]
      by_cases hlast : i < w - 1
      · rw [h3 i hlast, hCfin i hlast]
      · have hie : i = w - 1 := by omega
        subst hie
        rw [h4, cin_of_le X Y (w - 1 + 1) (by omega)]
        simp
    · apply List.ext_getElem (by rw [hc, length_carriesMSB, hx])
      intro i hi1 hi2
      rw [← List.getD_eq_getElem C false hi1, ← List.getD_eq_getElem _ false hi2]
      have hiw : i < w - 1 := by omega
      rw [carriesMSB_getD X Y i (by omega), hCfin i hiw]
  · rintro ⟨rfl, rfl⟩
    simp only [chainRel, Bool.and_eq_true, List.all_eq_true, List.mem_range, beq_iff_eq, hx]
    refine ⟨⟨⟨?_, ?_⟩, ?_⟩, ?_⟩
    · rw [carriesMSB_getD X Y (w - 2) (by omega)]
      rw [show w - 2 + 1 = w - 1 by omega, hcin_pred]
    · intro i hi
      rw [carriesMSB_getD X Y i (by omega), carriesMSB_getD X Y (i + 1) (by omega),
        cin_succ X Y i hxy (by omega)]
    · intro i hi
      rw [addMSB_fst_getD X Y hxy i (by omega), carriesMSB_getD X Y i (by omega)]
    · rw [addMSB_fst_getD X Y hxy (w - 1) (by omega),
        cin_of_le X Y (w - 1 + 1) (by omega)]
      simp

theorem zip4_all {α β γ δ : Type} (f : α × β × γ × δ → Bool) (da : α) (db : β) (dc : γ)
    (dd : δ) : ∀ (as : List α) (bs : List β) (cs : List γ) (ds : List δ),
    (zip4 as bs cs ds).all f =
      (List.range (min (min as.length bs.length) (min cs.length ds.length))).all
        (fun i => f (as.getD i da, bs.getD i db, cs.getD i dc, ds.getD i dd)) := by
  intro as
  induction as with
  | nil => intro bs cs ds; simp [zip4]
  | cons a as ih =>
      intro bs cs ds
      cases bs with
      | nil => simp [zip4]
      | cons b bs =>
          cases cs with
          | nil => simp [zip4]
          | cons c cs =>
              cases ds with
              | nil => simp [zip4]
              | cons d ds =>
                  simp [zip4, Nat.succ_min_succ, List.range_succ_eq_map, List.all_map,
                    Function.comp_def, ih, List.getD_cons_succ, List.getD_cons_zero]

theorem zip3_all {α β γ : Type} (f : α × β × γ → Bool) (da : α) (db : β) (dc : γ) :
    ∀ (as : List α) (bs : List β) (cs : List γ),
    (zip3 as bs cs).all f =
      (List.range (min as.length (min bs.length cs.length))).all
        (fun i => f (as.getD i da, bs.getD i db, cs.getD i dc)) := by
  intro as
  induction as with
  | nil => intro bs cs; simp [zip3]
  | cons a as ih =>
      intro bs cs
      cases bs with
      | nil => simp [zip3]
      | cons b bs =>
          cases cs with
          | nil => simp [zip3]
          | cons c cs =>
              simp [zip3, Nat.succ_min_succ, List.range_succ_eq_map, List.all_map,
                Function.comp_def, ih, List.getD_cons_succ, List.getD_cons_zero]

theorem zip5_all {α β γ δ ε : Type} (f : α × β × γ × δ × ε → Bool) (da : α) (db : β)
    (dc : γ) (dd : δ) (de : ε) :
    ∀ (as : List α) (bs : List β) (cs : List γ) (ds : List δ) (es : List ε),
    (zip5 as bs cs ds es).all f =
      (List.range (min (min as.length bs.length)
          (min cs.length (min ds.length es.length)))).all
        (fun i => f (as.getD i da, bs.getD i db, cs.getD i dc, ds.getD i dd, es.getD i de)) := by
  intro as
  induction as with
  | nil => intro bs cs ds es; simp [zip5]
  | cons a as ih =>
      intro bs cs ds es
      cases bs with
      | nil => simp [zip5]
      | cons b bs =>
          cases cs with
          | nil => simp [zip5]
          | cons c cs =>
              cases ds with
              | nil => simp [zip5]
              | cons d ds =>
                  cases es with
                  | nil => simp [zip5]
                  | cons e es =>
                      simp [zip5, Nat.succ_min_succ, List.range_succ_eq_map, List.all_map,
                        Function.comp_def, ih, List.getD_cons_succ, List.getD_cons_zero]

theorem getLast?_eq_getD {α : Type} (l : List α) (d : α) (h : l ≠ []) :
    l.getLast? = some (l.getD (l.length - 1) d) := by
  rw [List.getLast?_eq_getElem?, List.getD_eq_getElem _ _ (by
    cases l with
    | nil => exact absurd rfl h
    | cons a as => simp)]
  exact List.getElem?_eq_getElem _


/-! ## Satisfaction of the 2-operand chains, in indexed form -/

theorem xorfold4 (o a b c : Bool) :
    ((!o) ^^ (a ^^ (b ^^ (c ^^ false)))) = (o == (a ^^ (b ^^ c))) := by
  cases o <;> cases a <;> cases b <;> cases c <;> rfl

theorem xorfold3 (o a b : Bool) :
    ((!o) ^^ (a ^^ (b ^^ false))) = (o == (a ^^ b)) := by
  cases o <;> cases a <;> cases b <;> rfl

theorem all_congr_mem {α : Type} (l : List α) (f g : α → Bool)
    (h : ∀ a ∈ l, f a = g a) : l.all f = l.all g := by
  induction l with
  | nil => rfl
  | cons a l ih =>
      simp only [List.all_cons, h a (by simp)]
      rw [ih fun b hb => h b (by simp [hb])]

theorem all_map_eq {α β : Type} (l : List α) (f : α → β) (p : β → Bool) :
    (l.map f).all p = l.all fun a => p (f a) := by
  induction l <;> simp_all

theorem litv_pos (σ : String → Bool) (s : String) : litv σ (true, s) = σ s := rfl

theorem litv_neg (σ : String → Bool) (s : String) : litv σ (false, s) = !(σ s) := rfl

theorem sats_cms_modadd (σ : String → Bool) (w : Nat) (hw : 2 ≤ w)
    (z x y c : List String) (hz : z.length = w) (hx : x.length = w) (hy : y.length = w)
    (hc : c.length = w - 1) :
    Option.map (sats σ) (cms_modadd z x y c) =
      some (chainRel (z.map σ) (x.map σ) (y.map σ) (c.map σ)) := by
  have hcne : c ≠ [] := List.length_pos.mp (by omega)
  have hxne : x ≠ [] := List.length_pos.mp (by omega)
  have hyne : y ≠ [] := List.length_pos.mp (by omega)
  have hzne : z ≠ [] := List.length_pos.mp (by omega)
  unfold cms_modadd
  rw [getLast?_eq_getD c "" hcne, getLast?_eq_getD x "" hxne, getLast?_eq_getD y "" hyne,
    getLast?_eq_getD z "" hzne]
  show Option.map (sats σ) (some _) = some _
  rw [Option.map_some']
  congr 1
  have S1 : ((zip4 c x.tail y.tail c.tail).flatMap
        fun q => cnf_carry q.1 q.2.1 q.2.2.1 q.2.2.2).all (Constr.evalB σ)
      = (List.range (w - 2)).all fun i =>
          (c.map σ).getD i false ==
            maj ((x.map σ).getD (i + 1) false) ((y.map σ).getD (i + 1) false)
              ((c.map σ).getD (i + 1) false) := by
    rw [List.all_flatMap]
    simp only [cnf_carry, List.all_cons, List.all_nil, Bool.and_true]
    rw [zip4_all _ "" "" "" ""]
    simp only [List.length_tail, hx, hy, hc]
    rw [show min (min (w - 1) (w - 1)) (min (w - 1) (w - 1 - 1)) = w - 2 by omega]
    apply all_congr_mem
    intro i hi
    rw [List.mem_range] at hi
    simp only [Constr.evalB, BE.evalB, maj]
    rw [getD_tail, getD_tail, getD_tail,
      getD_map_bool σ c i (by omega), getD_map_bool σ x (i + 1) (by omega),
      getD_map_bool σ y (i + 1) (by omega), getD_map_bool σ c (i + 1) (by omega)]
  have S2 : (cnf_and (c.getD (c.length - 1) "") (x.getD (x.length - 1) "")
        (y.getD (y.length - 1) "")).all (Constr.evalB σ)
      = ((c.map σ).getD (w - 2) false ==
          ((x.map σ).getD (w - 1) false && (y.map σ).getD (w - 1) false)) := by
    simp only [cnf_and, List.all_cons, List.all_nil, Bool.and_true, Constr.evalB, BE.evalB]
    rw [hc, hx, hy, show w - 1 - 1 = w - 2 by omega,
      getD_map_bool σ c (w - 2) (by omega), getD_map_bool σ x (w - 1) (by omega),
      getD_map_bool σ y (w - 1) (by omega)]
  have S3 : ((zip4 z x y c).map fun q =>
        Constr.xclause [(false, q.1), (true, q.2.1), (true, q.2.2.1), (true, q.2.2.2)]).all
          (Constr.evalB σ)
      = (List.range (w - 1)).all fun i =>
          (z.map σ).getD i false ==
            ((x.map σ).getD i false ^^ ((y.map σ).getD i false ^^ (c.map σ).getD i false)) := by
    rw [all_map_eq]
    rw [zip4_all _ "" "" "" ""]
    simp only [hz, hx, hy, hc]
    rw [show min (min w w) (min w (w - 1)) = w - 1 by omega]
    apply all_congr_mem
    intro i hi
    rw [List.mem_range] at hi
    simp only [Function.comp_def, Constr.evalB, litv_pos, litv_neg, List.map_cons,
      List.map_nil, List.foldr_cons, List.foldr_nil]
    rw [xorfold4, getD_map_bool σ z i (by omega), getD_map_bool σ x i (by omega),
      getD_map_bool σ y i (by omega), getD_map_bool σ c i (by omega)]
  have S4 : (Constr.evalB σ
        (Constr.xclause [(false, z.getD (z.length - 1) ""), (true, x.getD (x.length - 1) ""),
          (true, y.getD (y.length - 1) "")]))
      = ((z.map σ).getD (w - 1) false ==
          ((x.map σ).getD (w - 1) false ^^ (y.map σ).getD (w - 1) false)) := by
    simp only [Constr.evalB, litv_pos, litv_neg, List.map_cons, List.map_nil,
      List.foldr_cons, List.foldr_nil]
    rw [xorfold3, hz, hx, hy, getD_map_bool σ z (w - 1) (by omega),
      getD_map_bool σ x (w - 1) (by omega), getD_map_bool σ y (w - 1) (by omega)]
  simp only [sats, List.all_append, List.all_cons, List.all_nil, Bool.and_true]
  rw [S1, S2, S3, S4]
  simp only [chainRel, List.length_map, hx]
  ac_rfl

theorem all_and_split {α : Type} (l : List α) (p q : α → Bool) :
    (l.all fun a => p a && q a) = (l.all p && l.all q) := by
  induction l with
  | nil => rfl
  | cons a l ih =>
      simp only [List.all_cons, ih]
      cases p a <;> cases q a <;> cases l.all p <;> cases l.all q <;> rfl

theorem result_pair_rewrite (t x y z c : Bool) :
    ((t == (x ^^ y)) && (z == (t ^^ c))) = ((t == (x ^^ y)) && (z == (x ^^ (y ^^ c)))) := by
  cases t <;> cases x <;> cases y <;> cases z <;> cases c <;> rfl

/-- The maj-carry section shared by `cms_modadd`, `sat_modadd` (via
`cnf_carry`) in indexed form. -/
theorem carry_section_all (σ : String → Bool) (w : Nat) (x y c : List String)
    (hx : x.length = w) (hy : y.length = w) (hc : c.length = w - 1) :
    ((zip4 c x.tail y.tail c.tail).flatMap
        fun q => cnf_carry q.1 q.2.1 q.2.2.1 q.2.2.2).all (Constr.evalB σ)
      = (List.range (w - 2)).all fun i =>
          (c.map σ).getD i false ==
            maj ((x.map σ).getD (i + 1) false) ((y.map σ).getD (i + 1) false)
              ((c.map σ).getD (i + 1) false) := by
  rw [List.all_flatMap]
  simp only [cnf_carry, List.all_cons, List.all_nil, Bool.and_true]
  rw [zip4_all _ "" "" "" ""]
  simp only [List.length_tail, hx, hy, hc]
  rw [show min (min (w - 1) (w - 1)) (min (w - 1) (w - 1 - 1)) = w - 2 by omega]
  apply all_congr_mem
  intro i hi
  rw [List.mem_range] at hi
  simp only [Constr.evalB, BE.evalB, maj]
  rw [getD_tail, getD_tail, getD_tail,
    getD_map_bool σ c i (by omega), getD_map_bool σ x (i + 1) (by omega),
    getD_map_bool σ y (i + 1) (by omega), getD_map_bool σ c (i + 1) (by omega)]

/-- The final AND-carry constraint in indexed form. -/
theorem and_clause_eval (σ : String → Bool) (w : Nat) (hw : 2 ≤ w) (x y c : List String)
    (hx : x.length = w) (hy : y.length = w) (hc : c.length = w - 1) :
    (cnf_and (c.getD (c.length - 1) "") (x.getD (x.length - 1) "")
        (y.getD (y.length - 1) "")).all (Constr.evalB σ)
      = ((c.map σ).getD (w - 2) false ==
          ((x.map σ).getD (w - 1) false && (y.map σ).getD (w - 1) false)) := by
  simp only [cnf_and, List.all_cons, List.all_nil, Bool.and_true, Constr.evalB, BE.evalB]
  rw [hc, hx, hy, show w - 1 - 1 = w - 2 by omega,
    getD_map_bool σ c (w - 2) (by omega), getD_map_bool σ x (w - 1) (by omega),
    getD_map_bool σ y (w - 1) (by omega)]

/-- The intermediate variables of the SAT backend: entry `i < w - 1` equals
the XOR of the operand bits at position `i`. -/
def interRel (T X Y : List Bool) : Bool :=
  (List.range (X.length - 1)).all fun i =>
    T.getD i false == (X.getD i false ^^ Y.getD i false)

theorem sats_sat_modadd (σ : String → Bool) (w : Nat) (hw : 2 ≤ w)
    (z x y c t : List String) (hz : z.length = w) (hx : x.length = w) (hy : y.length = w)
    (hc : c.length = w - 1) (ht : t.length = w) :
    Option.map (sats σ) (sat_modadd z x y c t) =
      some (chainRel (z.map σ) (x.map σ) (y.map σ) (c.map σ) &&
        interRel (t.map σ) (x.map σ) (y.map σ)) := by
  have hcne : c ≠ [] := List.length_pos.mp (by omega)
  have hxne : x ≠ [] := List.length_pos.mp (by omega)
  have hyne : y ≠ [] := List.length_pos.mp (by omega)
  have hzne : z ≠ [] := List.length_pos.mp (by omega)
  unfold sat_modadd
  rw [getLast?_eq_getD c "" hcne, getLast?_eq_getD x "" hxne, getLast?_eq_getD y "" hyne,
    getLast?_eq_getD z "" hzne]
  show Option.map (sats σ) (some _) = some _
  rw [Option.map_some']
  congr 1
  have S3 : ((zip5 z x y c t).flatMap
        fun q => cnf_result q.1 q.2.1 q.2.2.1 q.2.2.2.1 q.2.2.2.2).all (Constr.evalB σ)
      = (((List.range (w - 1)).all fun i =>
          (z.map σ).getD i false ==
            ((x.map σ).getD i false ^^ ((y.map σ).getD i false ^^ (c.map σ).getD i false)))
        && ((List.range (w - 1)).all fun i =>
          (t.map σ).getD i false == ((x.map σ).getD i false ^^ (y.map σ).getD i false))) := by
    rw [List.all_flatMap]
    simp only [cnf_result, List.all_cons, List.all_nil, Bool.and_true]
    rw [zip5_all _ "" "" "" "" ""]
    simp only [hz, hx, hy, hc, ht]
    rw [show min (min w w) (min w (min (w - 1) w)) = w - 1 by omega]
    have hpt := all_congr_mem (List.range (w - 1))
      (fun i =>
        Constr.evalB σ (Constr.eqv (t.getD i "")
          (BE.xor2 (BE.var (x.getD i "")) (BE.var (y.getD i "")))) &&
        Constr.evalB σ (Constr.eqv (z.getD i "")
          (BE.xor2 (BE.var (t.getD i "")) (BE.var (c.getD i "")))))
      (fun i =>
        ((t.map σ).getD i false == ((x.map σ).getD i false ^^ (y.map σ).getD i false)) &&
        ((z.map σ).getD i false ==
          ((x.map σ).getD i false ^^ ((y.map σ).getD i false ^^ (c.map σ).getD i false))))
      (by
        intro i hi
        rw [List.mem_range] at hi
        simp only [Constr.evalB, BE.evalB]
        rw [getD_map_bool σ t i (by omega), getD_map_bool σ x i (by omega),
          getD_map_bool σ y i (by omega), getD_map_bool σ z i (by omega),
          getD_map_bool σ c i (by omega)]
        exact result_pair_rewrite _ _ _ _ _)
    rw [hpt, all_and_split, Bool.and_comm]
  have S4 : (cnf_xor (z.getD (z.length - 1) "") (x.getD (x.length - 1) "")
        (y.getD (y.length - 1) "")).all (Constr.evalB σ)
      = ((z.map σ).getD (w - 1) false ==
          ((x.map σ).getD (w - 1) false ^^ (y.map σ).getD (w - 1) false)) := by
    simp only [cnf_xor, List.all_cons, List.all_nil, Bool.and_true, Constr.evalB, BE.evalB]
    rw [hz, hx, hy, getD_map_bool σ z (w - 1) (by omega),
      getD_map_bool σ x (w - 1) (by omega), getD_map_bool σ y (w - 1) (by omega)]
  simp only [sats, List.all_append]
  rw [carry_section_all σ w x y c hx hy hc, and_clause_eval σ w hw x y c hx hy hc, S3, S4]
  simp only [chainRel, interRel, List.length_map, hx]
  ac_rfl

theorem sats_smt_modadd (σ : String → Bool) (w : Nat) (hw : 2 ≤ w)
    (z x y c : List String) (hz : z.length = w) (hx : x.length = w) (hy : y.length = w)
    (hc : c.length = w - 1) :
    Option.map (sats σ) (smt_modadd z x y c) =
      some (chainRel (z.map σ) (x.map σ) (y.map σ) (c.map σ)) := by
  have hcne : c ≠ [] := List.length_pos.mp (by omega)
  have hxne : x ≠ [] := List.length_pos.mp (by omega)
  have hyne : y ≠ [] := List.length_pos.mp (by omega)
  have hzne : z ≠ [] := List.length_pos.mp (by omega)
  unfold smt_modadd
  rw [getLast?_eq_getD c "" hcne, getLast?_eq_getD x "" hxne, getLast?_eq_getD y "" hyne,
    getLast?_eq_getD z "" hzne]
  show Option.map (sats σ) (some _) = some _
  rw [Option.map_some']
  congr 1
  have S1 : ((zip4 c x.tail y.tail c.tail).map
        fun q => smt_assert_equivalent q.1 (smt_carry q.2.1 q.2.2.1 q.2.2.2)).all
          (Constr.evalB σ)
      = (List.range (w - 2)).all fun i =>
          (c.map σ).getD i false ==
            maj ((x.map σ).getD (i + 1) false) ((y.map σ).getD (i + 1) false)
              ((c.map σ).getD (i + 1) false) := by
    rw [all_map_eq, zip4_all _ "" "" "" ""]
    simp only [List.length_tail, hx, hy, hc]
    rw [show min (min (w - 1) (w - 1)) (min (w - 1) (w - 1 - 1)) = w - 2 by omega]
    apply all_congr_mem
    intro i hi
    rw [List.mem_range] at hi
    simp only [smt_assert_equivalent, smt_carry, Constr.evalB, BE.evalB, maj]
    rw [getD_tail, getD_tail, getD_tail,
      getD_map_bool σ c i (by omega), getD_map_bool σ x (i + 1) (by omega),
      getD_map_bool σ y (i + 1) (by omega), getD_map_bool σ c (i + 1) (by omega)]
  have S2 : Constr.evalB σ (smt_assert_equivalent (c.getD (c.length - 1) "")
        (BE.conj (BE.var (x.getD (x.length - 1) "")) (BE.var (y.getD (y.length - 1) ""))))
      = ((c.map σ).getD (w - 2) false ==
          ((x.map σ).getD (w - 1) false && (y.map σ).getD (w - 1) false)) := by
    simp only [smt_assert_equivalent, Constr.evalB, BE.evalB]
    rw [hc, hx, hy, show w - 1 - 1 = w - 2 by omega,
      getD_map_bool σ c (w - 2) (by omega), getD_map_bool σ x (w - 1) (by omega),
      getD_map_bool σ y (w - 1) (by omega)]
  have S3 : ((zip4 z x y c).map fun q => smt_assert_equivalent q.1
        (BE.xor3 (BE.var q.2.1) (BE.var q.2.2.1) (BE.var q.2.2.2))).all (Constr.evalB σ)
      = (List.range (w - 1)).all fun i =>
          (z.map σ).getD i false ==
            ((x.map σ).getD i false ^^ ((y.map σ).getD i false ^^ (c.map σ).getD i false)) := by
    rw [all_map_eq, zip4_all _ "" "" "" ""]
    simp only [hz, hx, hy, hc]
    rw [show min (min w w) (min w (w - 1)) = w - 1 by omega]
    apply all_congr_mem
    intro i hi
    rw [List.mem_range] at hi
    simp only [smt_assert_equivalent, Constr.evalB, BE.evalB]
    rw [getD_map_bool σ z i (by omega), getD_map_bool σ x i (by omega),
      getD_map_bool σ y i (by omega), getD_map_bool σ c i (by omega)]
  have S4 : Constr.evalB σ (smt_assert_equivalent (z.getD (z.length - 1) "")
        (BE.xor2 (BE.var (x.getD (x.length - 1) "")) (BE.var (y.getD (y.length - 1) ""))))
      = ((z.map σ).getD (w - 1) false ==
          ((x.map σ).getD (w - 1) false ^^ (y.map σ).getD (w - 1) false)) := by
    simp only [smt_assert_equivalent, Constr.evalB, BE.evalB]
    rw [hz, hx, hy, getD_map_bool σ z (w - 1) (by omega),
      getD_map_bool σ x (w - 1) (by omega), getD_map_bool σ y (w - 1) (by omega)]
  simp only [sats, List.all_append, List.all_cons, List.all_nil, Bool.and_true]
  rw [S1, S2, S3, S4]
  simp only [chainRel, List.length_map, hx]
  ac_rfl

/-- C2 (amended): for every width `w ≥ 2`, the 2-operand carry chains emitted
by the CMS, SAT and SMT backends are satisfied exactly by the assignments
obeying the code's relations: the last emitted carry (the carry into position
`w - 2`) equals `AND(x_{w-1}, y_{w-1})`; for `i` from `w - 3` down to `0`,
`c_i = MAJ(x_{i+1}, y_{i+1}, c_{i+1})`; each output bit `i < w - 1` equals
`XOR(x_i, y_i, c_i)`; the least-significant output bit equals
`XOR(x_{w-1}, y_{w-1})` with no carry term; and, for the SAT backend, each of
the first `w - 1` intermediate variables equals `XOR(x_i, y_i)`. -/
theorem c2_chain_relations (σ : String → Bool) (w : Nat) (hw : 2 ≤ w)
    (z x y c t : List String) (hz : z.length = w) (hx : x.length = w) (hy : y.length = w)
    (hc : c.length = w - 1) (ht : t.length = w) :
    Option.map (sats σ) (cms_modadd z x y c) =
      some (chainRel (z.map σ) (x.map σ) (y.map σ) (c.map σ)) ∧
    Option.map (sats σ) (sat_modadd z x y c t) =
      some (chainRel (z.map σ) (x.map σ) (y.map σ) (c.map σ) &&
        interRel (t.map σ) (x.map σ) (y.map σ)) ∧
    Option.map (sats σ) (smt_modadd z x y c) =
      some (chainRel (z.map σ) (x.map σ) (y.map σ) (c.map σ)) :=
  ⟨sats_cms_modadd σ w hw z x y c hz hx hy hc,
   sats_sat_modadd σ w hw z x y c t hz hx hy hc ht,
   sats_smt_modadd σ w hw z x y c hz hx hy hc⟩

theorem c2_chain_relations_witness :
    (2 ≤ 2 ∧ (["z0", "z1"] : List String).length = 2 ∧
      (["x0", "x1"] : List String).length = 2 ∧ (["y0", "y1"] : List String).length = 2 ∧
      (["c0"] : List String).length = 2 - 1 ∧ (["t0", "t1"] : List String).length = 2) ∧
    (Option.map (sats sigmaC2) (cms_modadd ["z0", "z1"] ["x0", "x1"] ["y0", "y1"] ["c0"]) =
      some (chainRel (["z0", "z1"].map sigmaC2) (["x0", "x1"].map sigmaC2)
        (["y0", "y1"].map sigmaC2) (["c0"].map sigmaC2)) ∧
    Option.map (sats sigmaC2)
        (sat_modadd ["z0", "z1"] ["x0", "x1"] ["y0", "y1"] ["c0"] ["t0", "t1"]) =
      some (chainRel (["z0", "z1"].map sigmaC2) (["x0", "x1"].map sigmaC2)
          (["y0", "y1"].map sigmaC2) (["c0"].map sigmaC2) &&
        interRel (["t0", "t1"].map sigmaC2) (["x0", "x1"].map sigmaC2)
          (["y0", "y1"].map sigmaC2)) ∧
    Option.map (sats sigmaC2) (smt_modadd ["z0", "z1"] ["x0", "x1"] ["y0", "y1"] ["c0"]) =
      some (chainRel (["z0", "z1"].map sigmaC2) (["x0", "x1"].map sigmaC2)
        (["y0", "y1"].map sigmaC2) (["c0"].map sigmaC2))) :=
  ⟨⟨by decide, by decide, by decide, by decide, by decide, by decide⟩,
   c2_chain_relations sigmaC2 2 (by decide) ["z0", "z1"] ["x0", "x1"] ["y0", "y1"]
     ["c0"] ["t0", "t1"] (by decide) (by decide) (by decide) (by decide) (by decide)⟩

/-! ## Word values, chained sums and assignments from association lists -/

theorem valMSB_inj : ∀ as bs : List Bool, as.length = bs.length →
    valMSB as = valMSB bs → as = bs := by
  intro as
  induction as with
  | nil => intro bs h _; cases bs <;> simp_all
  | cons a as ih =>
      intro bs h hv
      cases bs with
      | nil => simp at h
      | cons b bs =>
          simp only [List.length_cons, Nat.succ_inj] at h
          have h1 := valMSB_lt as
          have h2 := valMSB_lt bs
          rw [h] at h1
          simp only [valMSB, h] at hv
          have hab : a = b := by
            cases a <;> cases b <;> simp [bitv] at hv ⊢ <;> omega
          subst hab
          have : valMSB as = valMSB bs := by
            cases a <;> simp [bitv] at hv <;> omega
          exact congrArg _ (ih bs h this)

/-- Left fold of the ripple-carry sum over a list of operand words. -/
def chainLast (acc : List Bool) : List (List Bool) → List Bool
  | [] => acc
  | xw :: rest => chainLast (addMSB acc xw).1 rest

theorem length_chainLast : ∀ (ws : List (List Bool)) (acc : List Bool),
    (∀ w' ∈ ws, w'.length = acc.length) → (chainLast acc ws).length = acc.length := by
  intro ws
  induction ws with
  | nil => intro acc _; rfl
  | cons xw rest ih =>
      intro acc h
      have hxw : xw.length = acc.length := h xw (by simp)
      have hl : (addMSB acc xw).1.length = acc.length := length_addMSB acc xw hxw.symm
      simp only [chainLast]
      rw [ih _ (by intro u hu; rw [hl]; exact h u (by simp [hu])), hl]

theorem valMSB_chainLast : ∀ (ws : List (List Bool)) (acc : List Bool),
    (∀ w' ∈ ws, w'.length = acc.length) →
    valMSB (chainLast acc ws) = (valMSB acc + (ws.map valMSB).sum) % 2 ^ acc.length := by
  intro ws
  induction ws with
  | nil =>
      intro acc _
      simp [chainLast, Nat.mod_eq_of_lt (valMSB_lt acc)]
  | cons xw rest ih =>
      intro acc h
      have hxw : xw.length = acc.length := h xw (by simp)
      have hl : (addMSB acc xw).1.length = acc.length := length_addMSB acc xw hxw.symm
      simp only [chainLast, List.map_cons, List.sum_cons]
      rw [ih _ (by intro u hu; rw [hl]; exact h u (by simp [hu])), hl,
        valMSB_addMSB acc xw hxw.symm]
      rw [Nat.mod_add_mod]
      ring_nf

/-! ### Assignments built from association lists -/

/-- Finite assignment: look a key up in an association list, defaulting to
`false`. -/
def alookup {κ : Type} [DecidableEq κ] : List (κ × Bool) → κ → Bool
  | [], _ => false
  | (k, v) :: ps, s => if s = k then v else alookup ps s

theorem alookup_append_of_not_mem {κ : Type} [DecidableEq κ] (ps qs : List (κ × Bool))
    (s : κ) (h : s ∉ ps.map Prod.fst) : alookup (ps ++ qs) s = alookup qs s := by
  induction ps with
  | nil => rfl
  | cons p ps ih =>
      obtain ⟨k, v⟩ := p
      simp only [List.map_cons, List.mem_cons] at h
      push_neg at h
      simp only [List.cons_append, alookup, if_neg h.1]
      exact ih h.2

theorem alookup_cons_self {κ : Type} [DecidableEq κ] (k : κ) (v : Bool)
    (ps : List (κ × Bool)) : alookup ((k, v) :: ps) k = v := by
  simp [alookup]

theorem alookup_cons_ne {κ : Type} [DecidableEq κ] (k s : κ) (v : Bool)
    (ps : List (κ × Bool)) (h : s ≠ k) : alookup ((k, v) :: ps) s = alookup ps s := by
  simp [alookup, h]

theorem map_alookup_zip {κ : Type} [DecidableEq κ] :
    ∀ (ks : List κ) (vs : List Bool) (rest : List (κ × Bool)), ks.Nodup →
    ks.length = vs.length → ks.map (alookup (ks.zip vs ++ rest)) = vs := by
  intro ks
  induction ks with
  | nil => intro vs rest _ h; cases vs <;> simp_all
  | cons k ks ih =>
      intro vs rest hnd h
      cases vs with
      | nil => simp at h
      | cons v vs =>
          simp only [List.length_cons, Nat.succ_inj] at h
          simp only [List.nodup_cons] at hnd
          simp only [List.zip_cons_cons, List.cons_append, List.map_cons]
          rw [alookup_cons_self]
          congr 1
          have hstep : ∀ s ∈ ks, alookup ((k, v) :: (ks.zip vs ++ rest)) s =
              alookup (ks.zip vs ++ rest) s := by
            intro s hs
            exact alookup_cons_ne k s v _ fun he => hnd.1 (he ▸ hs)
          rw [List.map_congr_left hstep]
          exact ih vs rest hnd.2 h

theorem map_alookup_mid {κ : Type} [DecidableEq κ] (pre : List (κ × Bool)) (ks : List κ)
    (vs : List Bool) (post : List (κ × Bool))
    (hnd : (pre.map Prod.fst ++ ks).Nodup) (h : ks.length = vs.length) :
    ks.map (alookup (pre ++ (ks.zip vs ++ post))) = vs := by
  rw [List.nodup_append] at hnd
  have hstep : ∀ s ∈ ks, alookup (pre ++ (ks.zip vs ++ post)) s =
      alookup (ks.zip vs ++ post) s := by
    intro s hs
    exact alookup_append_of_not_mem pre _ s fun hmem => hnd.2.2 hmem hs
  rw [List.map_congr_left hstep]
  exact map_alookup_zip ks vs post hnd.2.1 h

theorem chainRel_eq_decide (w : Nat) (hw : 2 ≤ w) (X Y Z C : List Bool)
    (hx : X.length = w) (hy : Y.length = w) (hz : Z.length = w) (hc : C.length = w - 1) :
    chainRel Z X Y C =
      (decide (Z = (addMSB X Y).1) && decide (C = carriesMSB X Y)) := by
  rw [Bool.eq_iff_iff]
  rw [chainRel_iff w hw X Y Z C hx hy hz hc]
  simp [Bool.and_eq_true, decide_eq_true_eq]

theorem getD_zipWith_xor (A B : List Bool) (i : Nat) (hi : i < A.length)
    (hib : i < B.length) :
    (A.zipWith (fun a b : Bool => a ^^ b) B).getD i false = (A.getD i false ^^ B.getD i false) := by
  rw [List.getD_eq_getElem _ _ (by rw [List.length_zipWith]; omega),
    List.getD_eq_getElem _ _ hi, List.getD_eq_getElem _ _ hib, List.getElem_zipWith]

theorem interRel_zipWith (A B : List Bool) (h : A.length = B.length) :
    interRel (A.zipWith (fun a b : Bool => a ^^ b) B) A B = true := by
  simp only [interRel, List.all_eq_true, List.mem_range, beq_iff_eq]
  intro i hi
  exact getD_zipWith_xor A B i (by omega) (by omega)

/-- Concatenating the word slices recovers the flat id list. -/
theorem slices_flatten : ∀ (k : Nat) (l : List String) (w : Nat), l.length = k * w →
    ((List.range k).map fun i => (l.drop (i * w)).take w).flatten = l := by
  intro k
  induction k with
  | zero =>
      intro l w h
      rw [Nat.zero_mul] at h
      have hl : l = [] := List.length_eq_zero.mp h
      simp [hl]
  | succ k ih =>
      intro l w h
      rw [List.range_succ_eq_map]
      simp only [List.map_cons, List.map_map, List.flatten_cons, Nat.zero_mul,
        List.drop_zero]
      have hrw : ∀ i : Nat, ((l.drop ((i + 1) * w)).take w) =
          (((l.drop w).drop (i * w)).take w) := by
        intro i
        rw [List.drop_drop]
        have hiw : w + i * w = (i + 1) * w := by rw [Nat.succ_mul]; omega
        rw [hiw]
      have : (List.map ((fun i => (l.drop (i * w)).take w) ∘ (· + 1)) (List.range k)) =
          (List.range k).map fun i => ((l.drop w).drop (i * w)).take w := by
        apply List.map_congr_left
        intro i _
        simp only [Function.comp_def]
        exact hrw i
      rw [this, ih (l.drop w) w (by
        rw [List.length_drop, h]
        have hkw : (k + 1) * w = k * w + w := Nat.succ_mul k w
        omega)]
      exact List.take_append_drop w l

/-! ## The k-operand SAT chain -/

/-- Semantic content of the SAT stage chain: each stage's output word is the
ripple-carry sum of the accumulator and the next operand word, its carries and
intermediates are the canonical ones, and the accumulator advances. -/
def seqOk (σ : String → Bool) : List Bool → List (List String) → List (List String) →
    List (List String) → List (List String) → Bool
  | _, [], _, _, _ => true
  | acc, o :: os, iw :: irest, cw :: cs, tw :: ts =>
      decide (o.map σ = (addMSB acc (iw.map σ)).1) &&
      (decide (cw.map σ = carriesMSB acc (iw.map σ)) &&
      (interRel (tw.map σ) acc (iw.map σ) &&
      seqOk σ (addMSB acc (iw.map σ)).1 os irest cs ts))
  | _, _ :: _, _, _, _ => false

theorem sats_seqRest5 (σ : String → Bool) (w : Nat) (hw : 2 ≤ w) :
    ∀ (os irest cs ts : List (List String)) (prev : List String) (CS : List Constr),
    prev.length = w → (∀ u ∈ os, u.length = w) → (∀ u ∈ irest, u.length = w) →
    (∀ u ∈ cs, u.length = w - 1) → (∀ u ∈ ts, u.length = w) →
    seqRest5 sat_modadd prev os irest cs ts = some CS →
    sats σ CS = seqOk σ (prev.map σ) os irest cs ts := by
  intro os
  induction os with
  | nil =>
      intro irest cs ts prev CS _ _ _ _ _ hsome
      simp only [seqRest5] at hsome
      obtain rfl : ([] : List Constr) = CS := by injection hsome
      rfl
  | cons o os ih =>
      intro irest cs ts prev CS hprev hos hirest hcs hts hsome
      cases irest with
      | nil => simp [seqRest5] at hsome
      | cons iw irest =>
          cases cs with
          | nil => simp [seqRest5] at hsome
          | cons cw cs =>
              cases ts with
              | nil => simp [seqRest5] at hsome
              | cons tw ts =>
                  simp only [seqRest5] at hsome
                  cases hfirst : sat_modadd o prev iw cw tw with
                  | none => rw [hfirst] at hsome; simp at hsome
                  | some f =>
                      rw [hfirst] at hsome
                      cases hrest : seqRest5 sat_modadd o os irest cs ts with
                      | none => rw [hrest] at hsome; simp at hsome
                      | some r =>
                          rw [hrest] at hsome
                          obtain rfl : f ++ r = CS := by injection hsome
                          have hfs := sats_sat_modadd σ w hw o prev iw cw tw
                            (hos o (by simp)) hprev (hirest iw (by simp))
                            (hcs cw (by simp)) (hts tw (by simp))
                          rw [hfirst, Option.map_some'] at hfs
                          have hf : sats σ f = (chainRel (o.map σ) (prev.map σ) (iw.map σ)
                              (cw.map σ) && interRel (tw.map σ) (prev.map σ) (iw.map σ)) :=
                            Option.some.inj hfs
                          have hr : sats σ r = seqOk σ (o.map σ) os irest cs ts :=
                            ih irest cs ts o r (hos o (by simp))
                              (fun u hu => hos u (by simp [hu]))
                              (fun u hu => hirest u (by simp [hu]))
                              (fun u hu => hcs u (by simp [hu]))
                              (fun u hu => hts u (by simp [hu])) hrest
                          have hch : chainRel (o.map σ) (prev.map σ) (iw.map σ) (cw.map σ) =
                              (decide (o.map σ = (addMSB (prev.map σ) (iw.map σ)).1) &&
                               decide (cw.map σ = carriesMSB (prev.map σ) (iw.map σ))) :=
                            chainRel_eq_decide w hw (prev.map σ) (iw.map σ) (o.map σ)
                              (cw.map σ) (by simp [hprev]) (by simp [hirest iw (by simp)])
                              (by simp [hos o (by simp)]) (by simp [hcs cw (by simp)])
                          have hsplit : sats σ (f ++ r) = (sats σ f && sats σ r) := by
                            simp [sats, List.all_append]
                          rw [hsplit, hf, hr, hch]
                          by_cases hA : o.map σ = (addMSB (prev.map σ) (iw.map σ)).1
                          · rw [seqOk, ← hA]
                            simp only [hA, decide_eq_true_eq, decide_eq_true_iff, eq_self_iff_true, decide_True, Bool.true_and]
                            ac_rfl
                          · rw [seqOk]
                            simp [hA]
  termination_by os => os.length

/-- The canonical stage output words of the left-associative addition chain. -/
def stageWords (acc : List Bool) : List (List Bool) → List (List Bool)
  | [] => []
  | xw :: rest => (addMSB acc xw).1 :: stageWords (addMSB acc xw).1 rest

/-- The canonical carry words of each stage. -/
def stageCarries (acc : List Bool) : List (List Bool) → List (List Bool)
  | [] => []
  | xw :: rest => carriesMSB acc xw :: stageCarries (addMSB acc xw).1 rest

/-- The canonical intermediate (xor) words of each stage. -/
def stageInters (acc : List Bool) : List (List Bool) → List (List Bool)
  | [] => []
  | xw :: rest =>
      (acc.zipWith (fun a b : Bool => a ^^ b) xw) :: stageInters (addMSB acc xw).1 rest

theorem stageWords_last : ∀ (XW : List (List Bool)) (acc : List Bool) (v : List Bool),
    (stageWords acc XW).getLast? = some v → v = chainLast acc XW := by
  intro XW
  induction XW with
  | nil => intro acc v h; simp [stageWords] at h
  | cons xw rest ih =>
      intro acc v h
      cases hr : rest with
      | nil =>
          subst hr
          simp only [stageWords, List.getLast?_singleton] at h
          obtain rfl := Option.some.inj h
          simp [chainLast]
      | cons b bs =>
          subst hr
          simp only [stageWords, chainLast] at h ⊢
          rw [List.getLast?_cons_cons] at h
          exact ih _ v (by simpa [stageWords] using h)

theorem sat_modadd_isSome (w : Nat) (hw : 2 ≤ w) (z x y c t : List String)
    (hz : z.length = w) (hx : x.length = w) (hy : y.length = w)
    (hc : c.length = w - 1) (ht : t.length = w) :
    ∃ f, sat_modadd z x y c t = some f := by
  have := sats_sat_modadd (fun _ => false) w hw z x y c t hz hx hy hc ht
  cases h : sat_modadd z x y c t with
  | none => rw [h] at this; simp at this
  | some f => exact ⟨f, rfl⟩

theorem seqRest5_isSome (w : Nat) (hw : 2 ≤ w) :
    ∀ (os irest cs ts : List (List String)) (prev : List String), prev.length = w →
    (∀ u ∈ os, u.length = w) → (∀ u ∈ irest, u.length = w) →
    (∀ u ∈ cs, u.length = w - 1) → (∀ u ∈ ts, u.length = w) →
    os.length = irest.length → os.length = cs.length → os.length = ts.length →
    ∃ CS, seqRest5 sat_modadd prev os irest cs ts = some CS := by
  intro os
  induction os with
  | nil => intro irest cs ts prev _ _ _ _ _ _ _ _; exact ⟨[], rfl⟩
  | cons o os ih =>
      intro irest cs ts prev hprev hos hirest hcs hts h1 h2 h3
      cases irest with
      | nil => simp at h1
      | cons iw irest =>
          cases cs with
          | nil => simp at h2
          | cons cw cs =>
              cases ts with
              | nil => simp at h3
              | cons tw ts =>
                  obtain ⟨f, hf⟩ := sat_modadd_isSome w hw o prev iw cw tw
                    (hos o (by simp)) hprev (hirest iw (by simp)) (hcs cw (by simp))
                    (hts tw (by simp))
                  obtain ⟨r, hr⟩ := ih irest cs ts o (hos o (by simp))
                    (fun u hu => hos u (by simp [hu])) (fun u hu => hirest u (by simp [hu]))
                    (fun u hu => hcs u (by simp [hu])) (fun u hu => hts u (by simp [hu]))
                    (by simpa using h1) (by simpa using h2) (by simpa using h3)
                  refine ⟨f ++ r, ?_⟩
                  simp only [seqRest5, hf, hr]
                  rfl

theorem seqOk_of_canonical (σ : String → Bool) :
    ∀ (os irest cs ts : List (List String)) (acc : List Bool) (XW : List (List Bool)),
    irest.map (fun u => u.map σ) = XW →
    os.map (fun u => u.map σ) = stageWords acc XW →
    cs.map (fun u => u.map σ) = stageCarries acc XW →
    ts.map (fun u => u.map σ) = stageInters acc XW →
    (∀ xw ∈ XW, xw.length = acc.length) →
    seqOk σ acc os irest cs ts = true := by
  intro os
  induction os with
  | nil => intro irest cs ts acc XW _ _ _ _ _; rfl
  | cons o os ih =>
      intro irest cs ts acc XW hXW hos hcs hts hlen
      cases XW with
      | nil => simp [stageWords] at hos
      | cons xv XWrest =>
          cases irest with
          | nil => simp at hXW
          | cons iw irest =>
              cases cs with
              | nil => simp [stageCarries] at hcs
              | cons cw cs =>
                  cases ts with
                  | nil => simp [stageInters] at hts
                  | cons tw ts =>
                      simp only [List.map_cons, List.cons.injEq, stageWords, stageCarries,
                        stageInters] at hXW hos hcs hts
                      have hxv : xv.length = acc.length := hlen xv (by simp)
                      have hacc : (addMSB acc xv).1.length = acc.length :=
                        length_addMSB acc xv hxv.symm
                      rw [seqOk, hXW.1]
                      simp only [hos.1, hcs.1, hts.1, hXW.1]
                      rw [interRel_zipWith acc xv hxv.symm]
                      simp only [decide_eq_true_eq, eq_self_iff_true, decide_True,
                        Bool.true_and, Bool.and_true]
                      exact ih irest cs ts (addMSB acc xv).1 XWrest hXW.2 hos.2 hcs.2 hts.2
                        (fun u hu => by rw [hacc]; exact hlen u (by simp [hu]))

theorem seqOk_last (σ : String → Bool) :
    ∀ (os irest cs ts : List (List String)) (acc : List Bool) (olast : List String),
    seqOk σ acc os irest cs ts = true → os.length = irest.length →
    os.getLast? = some olast →
    olast.map σ = chainLast acc (irest.map fun u => u.map σ) := by
  intro os
  induction os with
  | nil => intro irest cs ts acc olast _ _ h; simp at h
  | cons o os ih =>
      intro irest cs ts acc olast hok hlen hlast
      cases irest with
      | nil => simp at hlen
      | cons iw irest =>
          cases cs with
          | nil => simp [seqOk] at hok
          | cons cw cs =>
              cases ts with
              | nil => simp [seqOk] at hok
              | cons tw ts =>
                  rw [seqOk] at hok
                  simp only [Bool.and_eq_true, decide_eq_true_eq] at hok
                  obtain ⟨hA, hB, hI, hrec⟩ := hok
                  cases os with
                  | nil =>
                      simp only [List.getLast?_singleton] at hlast
                      obtain rfl := Option.some.inj hlast
                      obtain rfl : irest = [] := by
                        cases irest with
                        | nil => rfl
                        | cons a b => simp at hlen
                      simp [chainLast, hA]
                  | cons o2 os2 =>
                      rw [List.getLast?_cons_cons] at hlast
                      simp only [List.map_cons, chainLast]
                      exact ih irest cs ts (addMSB acc (iw.map σ)).1 olast hrec
                        (by simpa using hlen) hlast

theorem map_alookup_blocks {κ : Type} [DecidableEq κ] :
    ∀ (blocks : List (List κ × List Bool)),
    ((blocks.map Prod.fst).flatten).Nodup →
    (∀ b ∈ blocks, b.1.length = b.2.length) →
    ∀ b ∈ blocks, b.1.map (alookup (blocks.flatMap fun p => p.1.zip p.2)) = b.2 := by
  intro blocks
  induction blocks with
  | nil => intro _ _ b hb; simp at hb
  | cons hd rest ih =>
      intro hnd hlen b hb
      simp only [List.map_cons, List.flatten_cons, List.flatMap_cons] at hnd ⊢
      rw [List.nodup_append] at hnd
      rcases List.mem_cons.mp hb with rfl | hb
      · exact map_alookup_zip b.1 b.2 _ hnd.1 (hlen b (by simp))
      · have hreads := ih hnd.2.1 (fun u hu => hlen u (by simp [hu])) b hb
        have hstep : ∀ s ∈ b.1, alookup (hd.1.zip hd.2 ++ rest.flatMap fun p => p.1.zip p.2) s
            = alookup (rest.flatMap fun p => p.1.zip p.2) s := by
          intro s hs
          apply alookup_append_of_not_mem
          intro hmem
          have hsub : (hd.1.zip hd.2).map Prod.fst ⊆ hd.1 := by
            intro a ha
            simp only [List.mem_map] at ha
            obtain ⟨p, hp, rfl⟩ := ha
            exact List.of_mem_zip hp |>.1
          have hs2 : s ∈ (rest.map Prod.fst).flatten := by
            rw [List.mem_flatten]
            exact ⟨b.1, by simp only [List.mem_map]; exact ⟨b, hb, rfl⟩, hs⟩
          exact hnd.2.2 (hsub hmem) hs2
        rw [List.map_congr_left hstep]
        exact hreads

theorem zip_forall_map (σ : String → Bool) :
    ∀ (A : List (List String)) (B : List (List Bool)), A.length = B.length →
    (∀ p ∈ A.zip B, p.1.map σ = p.2) → A.map (fun u => u.map σ) = B := by
  intro A
  induction A with
  | nil => intro B h _; cases B <;> simp_all
  | cons a A ih =>
      intro B h hall
      cases B with
      | nil => simp at h
      | cons b B =>
          simp only [List.length_cons, Nat.succ_inj] at h
          simp only [List.map_cons]
          rw [hall (a, b) (by simp [List.zip_cons_cons]), ih B h]
          intro p hp
          exact hall p (by simp [List.zip_cons_cons, hp])

theorem length_stageWords : ∀ (XW : List (List Bool)) (acc : List Bool),
    (stageWords acc XW).length = XW.length := by
  intro XW
  induction XW with
  | nil => intro acc; rfl
  | cons xw rest ih => intro acc; simp [stageWords, ih]

theorem length_stageCarries : ∀ (XW : List (List Bool)) (acc : List Bool),
    (stageCarries acc XW).length = XW.length := by
  intro XW
  induction XW with
  | nil => intro acc; rfl
  | cons xw rest ih => intro acc; simp [stageCarries, ih]

theorem length_stageInters : ∀ (XW : List (List Bool)) (acc : List Bool),
    (stageInters acc XW).length = XW.length := by
  intro XW
  induction XW with
  | nil => intro acc; rfl
  | cons xw rest ih => intro acc; simp [stageInters, ih]

theorem mem_stageWords_length : ∀ (XW : List (List Bool)) (acc : List Bool),
    (∀ u ∈ XW, u.length = acc.length) →
    ∀ v ∈ stageWords acc XW, v.length = acc.length := by
  intro XW
  induction XW with
  | nil => intro acc _ v hv; simp [stageWords] at hv
  | cons xw rest ih =>
      intro acc h v hv
      have hxw : xw.length = acc.length := h xw (by simp)
      have hacc : (addMSB acc xw).1.length = acc.length := length_addMSB acc xw hxw.symm
      simp only [stageWords, List.mem_cons] at hv
      rcases hv with rfl | hv
      · exact hacc
      · rw [← hacc]
        exact ih (addMSB acc xw).1 (fun u hu => by rw [hacc]; exact h u (by simp [hu])) v hv

theorem mem_stageCarries_length : ∀ (XW : List (List Bool)) (acc : List Bool),
    (∀ u ∈ XW, u.length = acc.length) →
    ∀ v ∈ stageCarries acc XW, v.length = acc.length - 1 := by
  intro XW
  induction XW with
  | nil => intro acc _ v hv; simp [stageCarries] at hv
  | cons xw rest ih =>
      intro acc h v hv
      have hxw : xw.length = acc.length := h xw (by simp)
      have hacc : (addMSB acc xw).1.length = acc.length := length_addMSB acc xw hxw.symm
      simp only [stageCarries, List.mem_cons] at hv
      rcases hv with rfl | hv
      · rw [length_carriesMSB]
      · rw [show acc.length = (addMSB acc xw).1.length from hacc.symm]
        exact ih (addMSB acc xw).1 (fun u hu => by rw [hacc]; exact h u (by simp [hu])) v hv

theorem mem_stageInters_length : ∀ (XW : List (List Bool)) (acc : List Bool),
    (∀ u ∈ XW, u.length = acc.length) →
    ∀ v ∈ stageInters acc XW, v.length = acc.length := by
  intro XW
  induction XW with
  | nil => intro acc _ v hv; simp [stageInters] at hv
  | cons xw rest ih =>
      intro acc h v hv
      have hxw : xw.length = acc.length := h xw (by simp)
      have hacc : (addMSB acc xw).1.length = acc.length := length_addMSB acc xw hxw.symm
      simp only [stageInters, List.mem_cons] at hv
      rcases hv with rfl | hv
      · rw [List.length_zipWith]; omega
      · rw [← hacc]
        exact ih (addMSB acc xw).1 (fun u hu => by rw [hacc]; exact h u (by simp [hu])) v hv

/-! ## The chained SAT encoding computes the modular sum -/

theorem sat_modadd_seq_eq (o0 i0 i1 c0 t0 : List String)
    (os irest cs ts : List (List String)) :
    sat_modadd_seq (o0 :: os) (i0 :: i1 :: irest) (c0 :: cs) (t0 :: ts) =
      seqRest5 sat_modadd i0 (o0 :: os) (i1 :: irest) (c0 :: cs) (t0 :: ts) := rfl

/-- Correctness of the chained SAT modular addition: the emitted constraint
set exists, and an assignment with prescribed operand words `XS` and final
output word `Z` satisfying it exists exactly when `Z` is the modular sum of
the operand words. -/
theorem sat_seq_correct (w : Nat) (hw : 2 ≤ w)
    (outputs inputs carries inters : List (List String))
    (houts : ∀ u ∈ outputs, u.length = w) (hins : ∀ u ∈ inputs, u.length = w)
    (hcar : ∀ u ∈ carries, u.length = w - 1) (hint : ∀ u ∈ inters, u.length = w)
    (hlen1 : inputs.length = outputs.length + 1) (hlen2 : carries.length = outputs.length)
    (hlen3 : inters.length = outputs.length) (hone : 1 ≤ outputs.length)
    (hnd : (inputs.flatten ++ (carries.flatten ++ inters.flatten ++ outputs.flatten)).Nodup)
    (zword : List String) (hzlast : outputs.getLast? = some zword) :
    (∃ CS, sat_modadd_seq outputs inputs carries inters = some CS) ∧
    ∀ (XS : List (List Bool)) (Z : List Bool),
      XS.length = inputs.length → (∀ xw ∈ XS, xw.length = w) → Z.length = w →
      ((∃ σ : String → Bool, inputs.map (fun u => u.map σ) = XS ∧ zword.map σ = Z ∧
          (∀ CS, sat_modadd_seq outputs inputs carries inters = some CS → sats σ CS = true))
        ↔ valMSB Z = (XS.map valMSB).sum % 2 ^ w) := by
  obtain ⟨o0, os, rfl⟩ : ∃ o0 os, outputs = o0 :: os := by
    cases outputs with
    | nil => simp at hone
    | cons a b => exact ⟨a, b, rfl⟩
  obtain ⟨i0, i1, irest, rfl⟩ : ∃ i0 i1 irest, inputs = i0 :: i1 :: irest := by
    cases inputs with
    | nil => simp at hlen1
    | cons a rest =>
        cases rest with
        | nil => simp at hlen1
        | cons b c => exact ⟨a, b, c, rfl⟩
  obtain ⟨c0, cs, rfl⟩ : ∃ c0 cs, carries = c0 :: cs := by
    cases carries with
    | nil => simp at hlen2
    | cons a b => exact ⟨a, b, rfl⟩
  obtain ⟨t0, ts, rfl⟩ : ∃ t0 ts, inters = t0 :: ts := by
    cases inters with
    | nil => simp at hlen3
    | cons a b => exact ⟨a, b, rfl⟩
  have hsome : ∃ CS, sat_modadd_seq (o0 :: os) (i0 :: i1 :: irest) (c0 :: cs) (t0 :: ts)
      = some CS := by
    rw [sat_modadd_seq_eq]
    exact seqRest5_isSome w hw (o0 :: os) (i1 :: irest) (c0 :: cs) (t0 :: ts) i0
      (hins i0 (by simp)) houts (fun u hu => hins u (by simp [hu])) hcar hint
      (by simp at hlen1 ⊢; omega) (by simp at hlen2 ⊢; omega) (by simp at hlen3 ⊢; omega)
  refine ⟨hsome, ?_⟩
  intro XS Z hXSl hXSw hZl
  obtain ⟨CS0, hCS0⟩ := hsome
  have hchar : ∀ σ : String → Bool, sats σ CS0 =
      seqOk σ (i0.map σ) (o0 :: os) (i1 :: irest) (c0 :: cs) (t0 :: ts) := by
    intro σ
    refine sats_seqRest5 σ w hw (o0 :: os) (i1 :: irest) (c0 :: cs) (t0 :: ts) i0 CS0
      (hins i0 (by simp)) houts (fun u hu => hins u (by simp [hu])) hcar hint ?_
    rw [← sat_modadd_seq_eq]
    exact hCS0
  obtain ⟨X0, Xrest, rfl⟩ : ∃ X0 Xrest, XS = X0 :: Xrest := by
    cases XS with
    | nil => simp at hXSl
    | cons a b => exact ⟨a, b, rfl⟩
  have hX0w : X0.length = w := hXSw X0 (by simp)
  have hXrw : ∀ u ∈ Xrest, u.length = X0.length := by
    intro u hu; rw [hX0w]; exact hXSw u (by simp [hu])
  have hvalchain : valMSB (chainLast X0 Xrest) =
      ((X0 :: Xrest).map valMSB).sum % 2 ^ w := by
    rw [valMSB_chainLast Xrest X0 hXrw, hX0w]
    simp
  have hchainlen : (chainLast X0 Xrest).length = w := by
    rw [length_chainLast Xrest X0 hXrw, hX0w]
  constructor
  · rintro ⟨σ, hread, hzread, hsat⟩
    have hok := hsat CS0 hCS0
    rw [hchar σ] at hok
    have hz := seqOk_last σ (o0 :: os) (i1 :: irest) (c0 :: cs) (t0 :: ts) (i0.map σ)
      zword hok (by simp at hlen1 ⊢; omega) hzlast
    simp only [List.map_cons, List.cons.injEq] at hread
    rw [hread.1, hzread, List.map_cons, hread.2] at hz
    rw [hz, hvalchain]
  · intro hval
    have hlenXr : Xrest.length = (o0 :: os).length := by
      simp at hXSl hlen1 ⊢
      omega
    have hSWlen : (stageWords X0 Xrest).length = (o0 :: os).length := by
      rw [length_stageWords, hlenXr]
    have hSClen : (stageCarries X0 Xrest).length = (c0 :: cs).length := by
      rw [length_stageCarries, hlenXr, hlen2]
    have hSIlen : (stageInters X0 Xrest).length = (t0 :: ts).length := by
      rw [length_stageInters, hlenXr, hlen3]
    have hINlen : (i0 :: i1 :: irest).length = (X0 :: Xrest).length := hXSl.symm
    -- the association-list assignment with canonical values
    have hblocks :
        ∀ b ∈ ((i0 :: i1 :: irest).zip (X0 :: Xrest) ++
            ((c0 :: cs).zip (stageCarries X0 Xrest) ++
              ((t0 :: ts).zip (stageInters X0 Xrest) ++
                (o0 :: os).zip (stageWords X0 Xrest)))), b.1.length = b.2.length := by
      intro b hb
      simp only [List.mem_append] at hb
      rcases hb with hb | hb | hb | hb
      · obtain ⟨h1, h2⟩ := List.of_mem_zip hb
        rw [hins b.1 h1, hXSw b.2 h2]
      · obtain ⟨h1, h2⟩ := List.of_mem_zip hb
        rw [hcar b.1 h1, mem_stageCarries_length Xrest X0 hXrw b.2 h2, hX0w]
      · obtain ⟨h1, h2⟩ := List.of_mem_zip hb
        rw [hint b.1 h1, mem_stageInters_length Xrest X0 hXrw b.2 h2, hX0w]
      · obtain ⟨h1, h2⟩ := List.of_mem_zip hb
        rw [houts b.1 h1, mem_stageWords_length Xrest X0 hXrw b.2 h2, hX0w]
    have hkeys :
        ((((i0 :: i1 :: irest).zip (X0 :: Xrest) ++
            ((c0 :: cs).zip (stageCarries X0 Xrest) ++
              ((t0 :: ts).zip (stageInters X0 Xrest) ++
                (o0 :: os).zip (stageWords X0 Xrest)))).map Prod.fst).flatten) =
          ((i0 :: i1 :: irest).flatten ++
            ((c0 :: cs).flatten ++ (t0 :: ts).flatten ++ (o0 :: os).flatten)) := by
      simp only [List.map_append, List.flatten_append]
      rw [List.map_fst_zip _ _ (le_of_eq hINlen),
        List.map_fst_zip _ _ (le_of_eq hSClen.symm),
        List.map_fst_zip _ _ (le_of_eq hSIlen.symm),
        List.map_fst_zip _ _ (le_of_eq hSWlen.symm)]
      simp [List.append_assoc]
    have hndb :
        ((((i0 :: i1 :: irest).zip (X0 :: Xrest) ++
            ((c0 :: cs).zip (stageCarries X0 Xrest) ++
              ((t0 :: ts).zip (stageInters X0 Xrest) ++
                (o0 :: os).zip (stageWords X0 Xrest)))).map Prod.fst).flatten).Nodup := by
      rw [hkeys]
      simpa [List.append_assoc] using hnd
    have hreads := map_alookup_blocks _ hndb hblocks
    have hreadIN : (i0 :: i1 :: irest).map
        (fun u => u.map (alookup
          (((i0 :: i1 :: irest).zip (X0 :: Xrest) ++
            ((c0 :: cs).zip (stageCarries X0 Xrest) ++
              ((t0 :: ts).zip (stageInters X0 Xrest) ++
                (o0 :: os).zip (stageWords X0 Xrest)))).flatMap fun p => p.1.zip p.2)))
        = X0 :: Xrest := by
      apply zip_forall_map _ _ _ hINlen
      intro p hp
      exact hreads p (by simp only [List.mem_append]; exact Or.inl hp)
    have hreadC : (c0 :: cs).map
        (fun u => u.map (alookup
          (((i0 :: i1 :: irest).zip (X0 :: Xrest) ++
            ((c0 :: cs).zip (stageCarries X0 Xrest) ++
              ((t0 :: ts).zip (stageInters X0 Xrest) ++
                (o0 :: os).zip (stageWords X0 Xrest)))).flatMap fun p => p.1.zip p.2)))
        = stageCarries X0 Xrest := by
      apply zip_forall_map _ _ _ hSClen.symm
      intro p hp
      exact hreads p (by simp only [List.mem_append]; exact Or.inr (Or.inl hp))
    have hreadT : (t0 :: ts).map
        (fun u => u.map (alookup
          (((i0 :: i1 :: irest).zip (X0 :: Xrest) ++
            ((c0 :: cs).zip (stageCarries X0 Xrest) ++
              ((t0 :: ts).zip (stageInters X0 Xrest) ++
                (o0 :: os).zip (stageWords X0 Xrest)))).flatMap fun p => p.1.zip p.2)))
        = stageInters X0 Xrest := by
      apply zip_forall_map _ _ _ hSIlen.symm
      intro p hp
      exact hreads p (by simp only [List.mem_append]; exact Or.inr (Or.inr (Or.inl hp)))
    have hreadO : (o0 :: os).map
        (fun u => u.map (alookup
          (((i0 :: i1 :: irest).zip (X0 :: Xrest) ++
            ((c0 :: cs).zip (stageCarries X0 Xrest) ++
              ((t0 :: ts).zip (stageInters X0 Xrest) ++
                (o0 :: os).zip (stageWords X0 Xrest)))).flatMap fun p => p.1.zip p.2)))
        = stageWords X0 Xrest := by
      apply zip_forall_map _ _ _ hSWlen.symm
      intro p hp
      exact hreads p (by simp only [List.mem_append]; exact Or.inr (Or.inr (Or.inr hp)))
    have hzmem : zword ∈ o0 :: os := List.mem_of_getLast?_eq_some hzlast
    have hzw : zword.length = w := houts zword hzmem
    have hzread : zword.map (alookup
          (((i0 :: i1 :: irest).zip (X0 :: Xrest) ++
            ((c0 :: cs).zip (stageCarries X0 Xrest) ++
              ((t0 :: ts).zip (stageInters X0 Xrest) ++
                (o0 :: os).zip (stageWords X0 Xrest)))).flatMap fun p => p.1.zip p.2))
        = chainLast X0 Xrest := by
      have hlastSW := congrArg List.getLast? hreadO
      rw [List.getLast?_map, hzlast, Option.map_some'] at hlastSW
      exact stageWords_last Xrest X0 _ hlastSW.symm
    have hZeq : zword.map (alookup
          (((i0 :: i1 :: irest).zip (X0 :: Xrest) ++
            ((c0 :: cs).zip (stageCarries X0 Xrest) ++
              ((t0 :: ts).zip (stageInters X0 Xrest) ++
                (o0 :: os).zip (stageWords X0 Xrest)))).flatMap fun p => p.1.zip p.2))
        = Z := by
      rw [hzread]
      apply valMSB_inj _ _ (by rw [hchainlen, hZl])
      rw [hvalchain, hval]
    refine ⟨_, hreadIN, hZeq, ?_⟩
    intro CS hCS
    rw [hCS0] at hCS
    obtain rfl := Option.some.inj hCS.symm
    rw [hchar]
    have hhead : i0.map (alookup
          (((i0 :: i1 :: irest).zip (X0 :: Xrest) ++
            ((c0 :: cs).zip (stageCarries X0 Xrest) ++
              ((t0 :: ts).zip (stageInters X0 Xrest) ++
                (o0 :: os).zip (stageWords X0 Xrest)))).flatMap fun p => p.1.zip p.2))
        = X0 := by
      have := hreadIN
      simp only [List.map_cons, List.cons.injEq] at this
      exact this.1
    rw [hhead]
    apply seqOk_of_canonical _ _ _ _ _ X0 Xrest
    · have := hreadIN
      simp only [List.map_cons, List.cons.injEq] at this
      simp only [List.map_cons]
      exact this.2
    · exact hreadO
    · exact hreadC
    · exact hreadT
    · exact hXrw


/-- All variable names occurring in the constraint set emitted by
`MODADD.sat_constraints`: the sliced operand words followed by the generated
carry, intermediate and stage-output words. -/
def MODADD_sat_vars (input_ids output_ids : List String) (num_of_addenda : Nat) :
    List String :=
  let output_len := output_ids.length
  (((List.range num_of_addenda).map
    fun i => (input_ids.drop (i * output_len)).take output_len).flatten) ++
  ((((List.range (num_of_addenda - 1)).map
    fun i => output_ids.dropLast.map fun oid => "carry_" ++ pad3 i ++ "_" ++ oid).flatten) ++
   (((List.range (num_of_addenda - 1)).map
    fun i => output_ids.map
      fun oid => "modadd_intermediate_" ++ pad3 i ++ "_" ++ oid).flatten) ++
   ((((List.range (num_of_addenda - 2)).map
    fun i => output_ids.map fun oid => "modadd_output_" ++ pad3 i ++ "_" ++ oid)
      ++ [output_ids]).flatten))

/-- Component-level correctness of `MODADD.sat_constraints` for `k` operands of
width `w ≥ 2`: the emitter succeeds, and an assignment giving the sliced
operand words the values `XS` and the output word the value `Z` and satisfying
the emitted constraints exists exactly when `Z` is the modular sum of `XS`. -/
theorem modadd_sat_correct (k w : Nat) (hk : 2 ≤ k) (hw : 2 ≤ w)
    (input_ids output_ids : List String)
    (hil : input_ids.length = k * w) (hol : output_ids.length = w)
    (hnd : (MODADD_sat_vars input_ids output_ids k).Nodup) :
    ∃ ids CS, MODADD_sat_constraints input_ids output_ids k = some (ids, CS) ∧
      ∀ (XS : List (List Bool)) (Z : List Bool),
        XS.length = k → (∀ xw ∈ XS, xw.length = w) → Z.length = w →
        ((∃ σ : String → Bool,
            ((List.range k).map fun i => ((input_ids.drop (i * w)).take w).map σ) = XS ∧
            output_ids.map σ = Z ∧ sats σ CS = true)
          ↔ valMSB Z = (XS.map valMSB).sum % 2 ^ w) := by
  subst hol
  have hseq := sat_seq_correct output_ids.length hw
    (((List.range (k - 2)).map
      fun i => output_ids.map fun oid => "modadd_output_" ++ pad3 i ++ "_" ++ oid)
      ++ [output_ids])
    ((List.range k).map
      fun i => (input_ids.drop (i * output_ids.length)).take output_ids.length)
    ((List.range (k - 1)).map
      fun i => output_ids.dropLast.map fun oid => "carry_" ++ pad3 i ++ "_" ++ oid)
    ((List.range (k - 1)).map
      fun i => output_ids.map fun oid => "modadd_intermediate_" ++ pad3 i ++ "_" ++ oid)
    (by
      intro u hu
      rcases List.mem_append.mp hu with hu | hu
      · obtain ⟨i, _, rfl⟩ := List.mem_map.mp hu
        exact List.length_map _ _
      · rw [List.mem_singleton.mp hu])
    (by
      intro u hu
      obtain ⟨i, hi, rfl⟩ := List.mem_map.mp hu
      rw [List.mem_range] at hi
      have h2 : (i + 1) * output_ids.length ≤ k * output_ids.length :=
        Nat.mul_le_mul_right _ hi
      rw [Nat.succ_mul] at h2
      rw [List.length_take, List.length_drop, hil]
      omega)
    (by
      intro u hu
      obtain ⟨i, _, rfl⟩ := List.mem_map.mp hu
      rw [List.length_map, List.length_dropLast])
    (by
      intro u hu
      obtain ⟨i, _, rfl⟩ := List.mem_map.mp hu
      exact List.length_map _ _)
    (by simp; omega)
    (by simp; omega)
    (by simp; omega)
    (by simp)
    hnd
    output_ids
    (List.getLast?_concat _)
  obtain ⟨⟨CS0, hCS0⟩, hiff⟩ := hseq
  refine ⟨((List.range (k - 1)).map
      (fun i => output_ids.dropLast.map fun oid => "carry_" ++ pad3 i ++ "_" ++ oid)).flatten
    ++ ((List.range (k - 1)).map
      (fun i => output_ids.map
        fun oid => "modadd_intermediate_" ++ pad3 i ++ "_" ++ oid)).flatten
    ++ (((List.range (k - 2)).map
      (fun i => output_ids.map fun oid => "modadd_output_" ++ pad3 i ++ "_" ++ oid)
      ++ [output_ids]).flatten), CS0, ?_, ?_⟩
  · show (match sat_modadd_seq _ _ _ _ with
      | none => none
      | some constraints => some (_, constraints)) = _
    rw [hCS0]
  · intro XS Z hXSl hXSw hZl
    have := hiff XS Z (by simp [hXSl]) hXSw hZl
    rw [← this]
    constructor
    · rintro ⟨σ, hread, hzread, hsat⟩
      refine ⟨σ, ?_, hzread, ?_⟩
      · rw [List.map_map]
        simpa [Function.comp_def] using hread
      · intro CS hCS
        rw [hCS0] at hCS
        obtain rfl := Option.some.inj hCS
        exact hsat
    · rintro ⟨σ, hread, hzread, hsat⟩
      refine ⟨σ, ?_, hzread, hsat CS0 hCS0⟩
      rw [List.map_map] at hread
      simpa [Function.comp_def] using hread


/-! ## The CP backend computes the modular sum (2 and 3 operands) -/

/-- The word read from a CP 0/1 array: bit `i` is element `i`, index 0 the
most significant bit. -/
def cpWord (σ : String → Nat → Bool) (a : String) (w : Nat) : List Bool :=
  (List.range w).map (σ a)

/-- The carry word read from a `carry_*` CP array: the array is indexed
`1 .. w - 1`, entry `i + 1` holding the carry into position `i`. -/
def cpCarryWord (σ : String → Nat → Bool) (a : String) (w : Nat) : List Bool :=
  (List.range' 1 (w - 1)).map (σ a)

/-- The flat `(link, position)` pairs selected by a component's input wiring,
as enumerated by `MODADD.cp_constraints` and `MODSUB.cp_constraints`. -/
def cp_all_inputs (input_id_links : List String) (input_bit_positions : List (List Nat)) :
    List (String × Nat) :=
  (input_id_links.zip input_bit_positions).flatMap fun lp => lp.2.map fun p => (lp.1, p)

/-- Operand word `n` read through the input wiring pairs. -/
def cpInputWord (all_inputs : List (String × Nat)) (σ : String → Nat → Bool)
    (n w : Nat) : List Bool :=
  (List.range w).map fun j =>
    σ (all_inputs.getD (n * w + j) ("", 0)).1 (all_inputs.getD (n * w + j) ("", 0)).2

theorem cpWord_length (σ : String → Nat → Bool) (a : String) (w : Nat) :
    (cpWord σ a w).length = w := by simp [cpWord]

theorem cpCarryWord_length (σ : String → Nat → Bool) (a : String) (w : Nat) :
    (cpCarryWord σ a w).length = w - 1 := by simp [cpCarryWord]

theorem getD_range_map (f : Nat → Bool) (w i : Nat) (h : i < w) :
    ((List.range w).map f).getD i false = f i := by
  rw [List.getD_eq_getElem _ _ (by simpa using h)]
  simp

theorem getD_range'_map (f : Nat → Bool) (s n i : Nat) (h : i < n) :
    ((List.range' s n).map f).getD i false = f (s + i) := by
  rw [List.getD_eq_getElem _ _ (by simpa using h)]
  simp

theorem cpWord_getD (σ : String → Nat → Bool) (a : String) (w i : Nat) (h : i < w) :
    (cpWord σ a w).getD i false = σ a i := getD_range_map _ w i h

theorem cpCarryWord_getD (σ : String → Nat → Bool) (a : String) (w i : Nat)
    (h : i < w - 1) : (cpCarryWord σ a w).getD i false = σ a (1 + i) :=
  getD_range'_map _ 1 (w - 1) i h

theorem cp_mod2_maj (u x y v : Bool) :
    (bitv u == (bitv x * bitv y + (bitv x * bitv v + bitv v * bitv y)) % 2) =
      (u == maj x y v) := by
  cases u <;> cases x <;> cases y <;> cases v <;> rfl

theorem cp_mod2_and (u x y : Bool) :
    (bitv u == bitv x * bitv y % 2) = (u == (x && y)) := by
  cases u <;> cases x <;> cases y <;> rfl

theorem cp_mod2_xor3 (u x y v : Bool) :
    (bitv u == (bitv x + (bitv y + bitv v)) % 2) = (u == (x ^^ (y ^^ v))) := by
  cases u <;> cases x <;> cases y <;> cases v <;> rfl

theorem cp_mod2_xor2 (u x y : Bool) :
    (bitv u == (bitv x + bitv y) % 2) = (u == (x ^^ y)) := by
  cases u <;> cases x <;> cases y <;> rfl

/-- Satisfaction of one emitted `cp_twoterms` call is exactly the indexed
carry-chain relation on the words read from the three arrays and the carry
array. -/
theorem cpSats_cp_twoterms (σ : String → Nat → Bool) (w : Nat) (hw : 2 ≤ w)
    (a b o : String) :
    cpSats σ (cp_twoterms_add a b o w).2 =
      chainRel (cpWord σ o w) (cpWord σ a w) (cpWord σ b w)
        (cpCarryWord σ ("carry_" ++ o) w) := by
  simp only [cp_twoterms_add, cpSats, List.all_append, List.all_cons, List.all_nil,
    Bool.and_true]
  have S1 : ((List.range' 1 (w - 2)).map fun i =>
        CpC.eqMod2 ("carry_" ++ o, i)
          (CpExpr.addm (CpExpr.mulm (CpExpr.v a i) (CpExpr.v b i))
            (CpExpr.addm (CpExpr.mulm (CpExpr.v a i) (CpExpr.v ("carry_" ++ o) (i + 1)))
              (CpExpr.mulm (CpExpr.v ("carry_" ++ o) (i + 1)) (CpExpr.v b i))))).all
          (CpC.evalB σ)
      = (List.range ((cpWord σ a w).length - 2)).all fun i =>
          (cpCarryWord σ ("carry_" ++ o) w).getD i false ==
            maj ((cpWord σ a w).getD (i + 1) false) ((cpWord σ b w).getD (i + 1) false)
              ((cpCarryWord σ ("carry_" ++ o) w).getD (i + 1) false) := by
    rw [List.range'_eq_map_range, List.map_map, all_map_eq, cpWord_length]
    apply all_congr_mem
    intro i hi
    rw [List.mem_range] at hi
    simp only [Function.comp_def, CpC.evalB, CpExpr.evalN]
    rw [cp_mod2_maj, cpCarryWord_getD σ _ w i (by omega),
      cpWord_getD σ a w (i + 1) (by omega), cpWord_getD σ b w (i + 1) (by omega),
      cpCarryWord_getD σ _ w (i + 1) (by omega), Nat.add_comm 1 i,
      Nat.add_comm 1 (i + 1)]
  have S2 : CpC.evalB σ (CpC.eqMod2 ("carry_" ++ o, w - 1)
        (CpExpr.mulm (CpExpr.v a (w - 1)) (CpExpr.v b (w - 1))))
      = ((cpCarryWord σ ("carry_" ++ o) w).getD ((cpWord σ a w).length - 2) false ==
          ((cpWord σ a w).getD ((cpWord σ a w).length - 1) false &&
           (cpWord σ b w).getD ((cpWord σ a w).length - 1) false)) := by
    simp only [CpC.evalB, CpExpr.evalN, cpWord_length]
    rw [cp_mod2_and, cpCarryWord_getD σ _ w (w - 2) (by omega),
      cpWord_getD σ a w (w - 1) (by omega), cpWord_getD σ b w (w - 1) (by omega),
      show 1 + (w - 2) = w - 1 by omega]
  have S3 : ((List.range (w - 1)).map fun i =>
        CpC.eqMod2 (o, i)
          (CpExpr.addm (CpExpr.v a i)
            (CpExpr.addm (CpExpr.v b i) (CpExpr.v ("carry_" ++ o) (i + 1))))).all
          (CpC.evalB σ)
      = (List.range ((cpWord σ a w).length - 1)).all fun i =>
          (cpWord σ o w).getD i false ==
            ((cpWord σ a w).getD i false ^^ ((cpWord σ b w).getD i false ^^
              (cpCarryWord σ ("carry_" ++ o) w).getD i false)) := by
    rw [all_map_eq, cpWord_length]
    apply all_congr_mem
    intro i hi
    rw [List.mem_range] at hi
    simp only [CpC.evalB, CpExpr.evalN]
    rw [cp_mod2_xor3, cpWord_getD σ o w i (by omega), cpWord_getD σ a w i (by omega),
      cpWord_getD σ b w i (by omega), cpCarryWord_getD σ _ w i (by omega),
      Nat.add_comm 1 i]
  have S4 : CpC.evalB σ (CpC.eqMod2 (o, w - 1)
        (CpExpr.addm (CpExpr.v a (w - 1)) (CpExpr.v b (w - 1))))
      = ((cpWord σ o w).getD ((cpWord σ a w).length - 1) false ==
          ((cpWord σ a w).getD ((cpWord σ a w).length - 1) false ^^
           (cpWord σ b w).getD ((cpWord σ a w).length - 1) false)) := by
    simp only [CpC.evalB, CpExpr.evalN, cpWord_length]
    rw [cp_mod2_xor2, cpWord_getD σ o w (w - 1) (by omega),
      cpWord_getD σ a w (w - 1) (by omega), cpWord_getD σ b w (w - 1) (by omega)]
  rw [S1, S2, S3, S4]
  simp only [chainRel]
  ac_rfl

/-- One wiring block of `cp_constraints` forces one staging array to copy one
selected operand word. -/
theorem cp_wiring_block (σ : String → Nat → Bool) (name : String)
    (A : List (String × Nat)) (n w : Nat) :
    ((((List.range w).map fun j => CpC.ceq (name, j) (A.getD (n * w + j) ("", 0))).all
      (CpC.evalB σ)) = true) ↔ cpWord σ name w = cpInputWord A σ n w := by
  rw [all_map_eq]
  simp only [CpC.evalB, List.all_eq_true, List.mem_range, beq_iff_eq, cpWord, cpInputWord,
    List.map_inj_left]


theorem cpSats_append (σ : String → Nat → Bool) (A B : List CpC) :
    cpSats σ (A ++ B) = (cpSats σ A && cpSats σ B) := by
  simp [cpSats]

theorem cpInputWord_length (A : List (String × Nat)) (σ : String → Nat → Bool)
    (n w : Nat) : (cpInputWord A σ n w).length = w := by simp [cpInputWord]

theorem cp_wiring_sats (σ : String → Nat → Bool) (name : String)
    (A : List (String × Nat)) (n w : Nat) :
    cpSats σ ((List.range w).map fun j =>
        CpC.ceq (name, j) (A.getD (n * w + j) ("", 0))) = true ↔
      cpWord σ name w = cpInputWord A σ n w := by
  simp only [cpSats, all_map_eq]
  simp only [CpC.evalB, List.all_eq_true, List.mem_range, beq_iff_eq, cpWord, cpInputWord,
    List.map_inj_left]

/-- The 2-operand `MODADD.cp_constraints` set is satisfied exactly when the two
staging arrays copy the operand words and the output array with its carry array
form the canonical ripple-carry sum; in particular the output array reads as
the modular sum of the operand words. -/
theorem modadd_cp_two_correct (σ : String → Nat → Bool) (out : String)
    (links : List String) (poss : List (List Nat)) (w : Nat) (hw : 2 ≤ w)
    (hlen : (cp_all_inputs links poss).length = 2 * w) :
    (cpSats σ (MODADD_cp_constraints out links poss w 2).2 = true ↔
      (cpWord σ (pre_name out 0) w = cpInputWord (cp_all_inputs links poss) σ 0 w ∧
       cpWord σ (pre_name out 1) w = cpInputWord (cp_all_inputs links poss) σ 1 w ∧
       cpWord σ out w =
         (addMSB (cpWord σ (pre_name out 1) w) (cpWord σ (pre_name out 0) w)).1 ∧
       cpCarryWord σ ("carry_" ++ out) w =
         carriesMSB (cpWord σ (pre_name out 1) w) (cpWord σ (pre_name out 0) w))) ∧
    (cpSats σ (MODADD_cp_constraints out links poss w 2).2 = true →
      valMSB (cpWord σ out w) =
        (valMSB (cpInputWord (cp_all_inputs links poss) σ 0 w) +
         valMSB (cpInputWord (cp_all_inputs links poss) σ 1 w)) % 2 ^ w) := by
  have hfold : ((links.zip poss).flatMap fun lp => lp.2.map fun p => (lp.1, p)) =
      cp_all_inputs links poss := rfl
  have h2 : (MODADD_cp_constraints out links poss w 2).2 =
      ((List.range w).map fun j =>
        CpC.ceq (pre_name out 0, j) ((cp_all_inputs links poss).getD (0 * w + j) ("", 0)))
      ++ ((List.range w).map fun j =>
        CpC.ceq (pre_name out 1, j) ((cp_all_inputs links poss).getD (1 * w + j) ("", 0)))
      ++ (cp_twoterms_add (pre_name out 1) (pre_name out 0) out w).2 := by
    simp only [modadd_cp_calls, MODADD_cp_constraints, hfold, hlen,
      show 2 * w / 2 = w from by omega, show (2 : Nat) - 2 = 0 from rfl,
      show (2 : Nat) * 2 - 3 = 1 from rfl, List.range_zero,
      show List.range 2 = [0, 1] from rfl, List.flatMap_cons, List.flatMap_nil,
      List.map_nil, List.nil_append, List.append_nil]
  have hchain := cpSats_cp_twoterms σ w hw (pre_name out 1) (pre_name out 0) out
  have hiff : cpSats σ (MODADD_cp_constraints out links poss w 2).2 = true ↔
      (cpWord σ (pre_name out 0) w = cpInputWord (cp_all_inputs links poss) σ 0 w ∧
       cpWord σ (pre_name out 1) w = cpInputWord (cp_all_inputs links poss) σ 1 w ∧
       cpWord σ out w =
         (addMSB (cpWord σ (pre_name out 1) w) (cpWord σ (pre_name out 0) w)).1 ∧
       cpCarryWord σ ("carry_" ++ out) w =
         carriesMSB (cpWord σ (pre_name out 1) w) (cpWord σ (pre_name out 0) w)) := by
    rw [h2, cpSats_append, cpSats_append]
    simp only [Bool.and_eq_true]
    rw [hchain]
    rw [cp_wiring_sats σ (pre_name out 0) (cp_all_inputs links poss) 0 w,
      cp_wiring_sats σ (pre_name out 1) (cp_all_inputs links poss) 1 w]
    rw [show (chainRel (cpWord σ out w) (cpWord σ (pre_name out 1) w)
        (cpWord σ (pre_name out 0) w) (cpCarryWord σ ("carry_" ++ out) w) = true) ↔
        (cpWord σ out w =
          (addMSB (cpWord σ (pre_name out 1) w) (cpWord σ (pre_name out 0) w)).1 ∧
         cpCarryWord σ ("carry_" ++ out) w =
          carriesMSB (cpWord σ (pre_name out 1) w) (cpWord σ (pre_name out 0) w)) from
      chainRel_iff w hw _ _ _ _ (cpWord_length σ _ w) (cpWord_length σ _ w)
        (cpWord_length σ _ w) (cpCarryWord_length σ _ w)]
    exact ⟨fun h => ⟨h.1.1, h.1.2, h.2.1, h.2.2⟩, fun h => ⟨⟨h.1, h.2.1⟩, h.2.2.1, h.2.2.2⟩⟩
  refine ⟨hiff, ?_⟩
  intro hs
  obtain ⟨h0, h1, hz, _⟩ := hiff.mp hs
  rw [hz, h0, h1, valMSB_addMSB _ _ (by rw [cpInputWord_length, cpInputWord_length]),
    cpInputWord_length, Nat.add_comm]

/-- The 3-operand `MODADD.cp_constraints` set is satisfied exactly when the
staging arrays copy the operand words and the two reductions are canonical
ripple-carry sums; the output array reads as the modular sum of the three
operand words (the `k = 3` instance of the code's chain is correct). -/
theorem modadd_cp_three_correct (σ : String → Nat → Bool) (out : String)
    (links : List String) (poss : List (List Nat)) (w : Nat) (hw : 2 ≤ w)
    (hlen : (cp_all_inputs links poss).length = 3 * w) :
    (cpSats σ (MODADD_cp_constraints out links poss w 3).2 = true ↔
      (cpWord σ (pre_name out 0) w = cpInputWord (cp_all_inputs links poss) σ 0 w ∧
       cpWord σ (pre_name out 1) w = cpInputWord (cp_all_inputs links poss) σ 1 w ∧
       cpWord σ (pre_name out 2) w = cpInputWord (cp_all_inputs links poss) σ 2 w ∧
       (cpWord σ (pre_name out 3) w =
          (addMSB (cpWord σ (pre_name out 2) w) (cpWord σ (pre_name out 1) w)).1 ∧
        cpCarryWord σ ("carry_" ++ pre_name out 3) w =
          carriesMSB (cpWord σ (pre_name out 2) w) (cpWord σ (pre_name out 1) w)) ∧
       (cpWord σ out w =
          (addMSB (cpWord σ (pre_name out 3) w) (cpWord σ (pre_name out 0) w)).1 ∧
        cpCarryWord σ ("carry_" ++ out) w =
          carriesMSB (cpWord σ (pre_name out 3) w) (cpWord σ (pre_name out 0) w)))) ∧
    (cpSats σ (MODADD_cp_constraints out links poss w 3).2 = true →
      valMSB (cpWord σ out w) =
        (valMSB (cpInputWord (cp_all_inputs links poss) σ 0 w) +
         valMSB (cpInputWord (cp_all_inputs links poss) σ 1 w) +
         valMSB (cpInputWord (cp_all_inputs links poss) σ 2 w)) % 2 ^ w) := by
  have hfold : ((links.zip poss).flatMap fun lp => lp.2.map fun p => (lp.1, p)) =
      cp_all_inputs links poss := rfl
  have h2 : (MODADD_cp_constraints out links poss w 3).2 =
      ((List.range w).map fun j =>
        CpC.ceq (pre_name out 0, j) ((cp_all_inputs links poss).getD (0 * w + j) ("", 0)))
      ++ (((List.range w).map fun j =>
        CpC.ceq (pre_name out 1, j) ((cp_all_inputs links poss).getD (1 * w + j) ("", 0)))
      ++ ((List.range w).map fun j =>
        CpC.ceq (pre_name out 2, j) ((cp_all_inputs links poss).getD (2 * w + j) ("", 0))))
      ++ ((cp_twoterms_add (pre_name out 2) (pre_name out 1) (pre_name out 3) w).2
      ++ (cp_twoterms_add (pre_name out 3) (pre_name out 0) out w).2) := by
    simp only [modadd_cp_calls, MODADD_cp_constraints, hfold, hlen,
      show 3 * w / 3 = w from by omega, show (3 : Nat) - 2 = 1 from rfl,
      show (3 : Nat) - 1 = 2 from rfl, show (3 : Nat) * 2 - 3 = 3 from rfl,
      show (2 : Nat) * 3 - 3 = 3 from rfl, show (0 : Nat) + 1 = 1 from rfl,
      show (3 : Nat) + 0 = 3 from rfl,
      show List.range 3 = [0, 1, 2] from rfl, show List.range 1 = [0] from rfl,
      List.flatMap_cons, List.flatMap_nil, List.map_cons,
      List.map_nil, List.nil_append, List.append_nil, List.cons_append,
      List.append_assoc]
  have hchain1 := cpSats_cp_twoterms σ w hw (pre_name out 2) (pre_name out 1)
    (pre_name out 3)
  have hchain2 := cpSats_cp_twoterms σ w hw (pre_name out 3) (pre_name out 0) out
  have hiff : cpSats σ (MODADD_cp_constraints out links poss w 3).2 = true ↔
      (cpWord σ (pre_name out 0) w = cpInputWord (cp_all_inputs links poss) σ 0 w ∧
       cpWord σ (pre_name out 1) w = cpInputWord (cp_all_inputs links poss) σ 1 w ∧
       cpWord σ (pre_name out 2) w = cpInputWord (cp_all_inputs links poss) σ 2 w ∧
       (cpWord σ (pre_name out 3) w =
          (addMSB (cpWord σ (pre_name out 2) w) (cpWord σ (pre_name out 1) w)).1 ∧
        cpCarryWord σ ("carry_" ++ pre_name out 3) w =
          carriesMSB (cpWord σ (pre_name out 2) w) (cpWord σ (pre_name out 1) w)) ∧
       (cpWord σ out w =
          (addMSB (cpWord σ (pre_name out 3) w) (cpWord σ (pre_name out 0) w)).1 ∧
        cpCarryWord σ ("carry_" ++ out) w =
          carriesMSB (cpWord σ (pre_name out 3) w) (cpWord σ (pre_name out 0) w))) := by
    rw [h2, cpSats_append, cpSats_append, cpSats_append, cpSats_append]
    simp only [Bool.and_eq_true]
    rw [hchain1, hchain2]
    rw [cp_wiring_sats σ (pre_name out 0) (cp_all_inputs links poss) 0 w,
      cp_wiring_sats σ (pre_name out 1) (cp_all_inputs links poss) 1 w,
      cp_wiring_sats σ (pre_name out 2) (cp_all_inputs links poss) 2 w]
    rw [show (chainRel (cpWord σ (pre_name out 3) w) (cpWord σ (pre_name out 2) w)
        (cpWord σ (pre_name out 1) w) (cpCarryWord σ ("carry_" ++ pre_name out 3) w)
          = true) ↔ _ from
      chainRel_iff w hw _ _ _ _ (cpWord_length σ _ w) (cpWord_length σ _ w)
        (cpWord_length σ _ w) (cpCarryWord_length σ _ w)]
    rw [show (chainRel (cpWord σ out w) (cpWord σ (pre_name out 3) w)
        (cpWord σ (pre_name out 0) w) (cpCarryWord σ ("carry_" ++ out) w) = true) ↔ _ from
      chainRel_iff w hw _ _ _ _ (cpWord_length σ _ w) (cpWord_length σ _ w)
        (cpWord_length σ _ w) (cpCarryWord_length σ _ w)]
    exact ⟨fun h => ⟨h.1.1, h.1.2.1, h.1.2.2, h.2.1, h.2.2⟩,
      fun h => ⟨⟨h.1, h.2.1, h.2.2.1⟩, h.2.2.2.1, h.2.2.2.2⟩⟩
  refine ⟨hiff, ?_⟩
  intro hs
  obtain ⟨h0, h1, hx2, ⟨h3, _⟩, hz, _⟩ := hiff.mp hs
  rw [hz, h3, h1, hx2, h0]
  rw [valMSB_addMSB _ _ (by
    rw [length_addMSB _ _ (by rw [cpInputWord_length, cpInputWord_length]),
      cpInputWord_length, cpInputWord_length])]
  rw [length_addMSB _ _ (by rw [cpInputWord_length, cpInputWord_length]),
    cpInputWord_length]
  rw [valMSB_addMSB _ _ (by rw [cpInputWord_length, cpInputWord_length]),
    cpInputWord_length]
  rw [Nat.mod_add_mod]
  ring_nf


/-! ## The algebraic backend: least-significant-first ripple carry -/

/-- Carry into position `i` of the least-significant-first ripple carry with
seed carry `c`. -/
def cinLs (c : Bool) (X Y : List Bool) : Nat → Bool
  | 0 => c
  | i + 1 => maj (X.getD i false) (Y.getD i false) (cinLs c X Y i)

theorem cinLs_cons (c a b : Bool) (as bs : List Bool) :
    ∀ i, cinLs c (a :: as) (b :: bs) (i + 1) = cinLs (maj a b c) as bs i := by
  intro i
  induction i with
  | zero => rfl
  | succ i ih =>
      rw [show cinLs c (a :: as) (b :: bs) (i + 1 + 1) =
          maj ((a :: as).getD (i + 1) false) ((b :: bs).getD (i + 1) false)
            (cinLs c (a :: as) (b :: bs) (i + 1)) from rfl, ih,
        List.getD_cons_succ, List.getD_cons_succ]
      rfl

theorem length_addLSB : ∀ (X Y : List Bool) (c : Bool),
    (addLSB X Y c).length = min X.length Y.length := by
  intro X
  induction X with
  | nil => intro Y c; cases Y <;> simp [addLSB]
  | cons a as ih =>
      intro Y c
      cases Y with
      | nil => simp [addLSB]
      | cons b bs => simp [addLSB, ih, Nat.succ_min_succ]

theorem length_carriesLSB : ∀ (X Y : List Bool) (c : Bool),
    (carriesLSB X Y c).length = min X.length Y.length := by
  intro X
  induction X with
  | nil => intro Y c; cases Y <;> simp [carriesLSB]
  | cons a as ih =>
      intro Y c
      cases Y with
      | nil => simp [carriesLSB]
      | cons b bs => simp [carriesLSB, ih, Nat.succ_min_succ]

theorem addLSB_getD : ∀ (X Y : List Bool) (c : Bool), X.length = Y.length →
    ∀ i, i < X.length →
    (addLSB X Y c).getD i false = (X.getD i false ^^ (Y.getD i false ^^ cinLs c X Y i)) := by
  intro X
  induction X with
  | nil => intro Y c _ i hi; simp at hi
  | cons a as ih =>
      intro Y c h i hi
      cases Y with
      | nil => simp at h
      | cons b bs =>
          simp only [List.length_cons, Nat.succ_inj] at h
          cases i with
          | zero => simp [addLSB, cinLs, List.getD]
          | succ i =>
              have hi2 : i < as.length := by simpa using hi
              simp only [addLSB, List.getD_cons_succ, cinLs_cons]
              exact ih bs (maj a b c) h i hi2

theorem carriesLSB_getD : ∀ (X Y : List Bool) (c : Bool), X.length = Y.length →
    ∀ i, i < X.length → (carriesLSB X Y c).getD i false = cinLs c X Y i := by
  intro X
  induction X with
  | nil => intro Y c _ i hi; simp at hi
  | cons a as ih =>
      intro Y c h i hi
      cases Y with
      | nil => simp at h
      | cons b bs =>
          simp only [List.length_cons, Nat.succ_inj] at h
          cases i with
          | zero => simp [carriesLSB, cinLs, List.getD]
          | succ i =>
              have hi2 : i < as.length := by simpa using hi
              simp only [carriesLSB, List.getD_cons_succ, cinLs_cons]
              exact ih bs (maj a b c) h i hi2

/-- The relations emitted by one algebraic addition stage, in indexed form
with index 0 the least significant bit: `C` has `w` entries, entry `i` being
the carry into position `i`, seeded with zero. -/
def lsbRel (Z X Y C : List Bool) : Bool :=
  (C.getD 0 false == false)
  && ((List.range' 1 (X.length - 1)).all fun i =>
      C.getD i false ==
        maj (X.getD (i - 1) false) (Y.getD (i - 1) false) (C.getD (i - 1) false))
  && ((List.range X.length).all fun i =>
      Z.getD i false == (X.getD i false ^^ (Y.getD i false ^^ C.getD i false)))

theorem lsbRel_iff (w : Nat) (hw : 1 ≤ w) (X Y Z C : List Bool)
    (hx : X.length = w) (hy : Y.length = w) (hz : Z.length = w) (hc : C.length = w) :
    lsbRel Z X Y C = true ↔ (Z = addLSB X Y false ∧ C = carriesLSB X Y false) := by
  have hxy : X.length = Y.length := by omega
  constructor
  · intro hrel
    simp only [lsbRel, Bool.and_eq_true, List.all_eq_true, beq_iff_eq] at hrel
    obtain ⟨⟨h1, h2⟩, h3⟩ := hrel
    rw [hx] at h2 h3
    have hC : ∀ i, i < w → C.getD i false = cinLs false X Y i := by
      intro i
      induction i with
      | zero => intro _; exact h1
      | succ i ih =>
          intro hi
          have hmem : (i + 1) ∈ List.range' 1 (w - 1) := by
            rw [List.mem_range']
            exact ⟨i, by omega, by omega⟩
          have := h2 (i + 1) hmem
          simp only [Nat.add_sub_cancel] at this
          rw [this, ih (by omega)]
          rfl
    constructor
    · apply List.ext_getElem (by rw [hz, length_addLSB, hx, hy]; omega)
      intro i hi1 hi2
      rw [← List.getD_eq_getElem Z false hi1, ← List.getD_eq_getElem _ false hi2]
      have hiw : i < w := by omega
      rw [addLSB_getD X Y false hxy i (by omega), h3 i (List.mem_range.mpr hiw),
        hC i hiw]
    · apply List.ext_getElem (by rw [hc, length_carriesLSB, hx, hy]; omega)
      intro i hi1 hi2
      rw [← List.getD_eq_getElem C false hi1, ← List.getD_eq_getElem _ false hi2]
      have hiw : i < w := by omega
      rw [carriesLSB_getD X Y false hxy i (by omega), hC i hiw]
  · rintro ⟨rfl, rfl⟩
    simp only [lsbRel, Bool.and_eq_true, List.all_eq_true, beq_iff_eq]
    refine ⟨⟨?_, ?_⟩, ?_⟩
    · rw [carriesLSB_getD X Y false hxy 0 (by omega)]
      rfl
    · intro i hmem
      rw [List.mem_range'] at hmem
      obtain ⟨j, hj, rfl⟩ := hmem
      have he : 1 + 1 * j = j + 1 := by omega
      rw [he, Nat.add_sub_cancel,
        carriesLSB_getD X Y false hxy (j + 1) (by omega),
        carriesLSB_getD X Y false hxy j (by omega)]
      rfl
    · intro i hmem
      rw [List.mem_range] at hmem
      rw [addLSB_getD X Y false hxy i (by omega),
        carriesLSB_getD X Y false hxy i (by omega)]


theorem polySats_append (σ : String → Bool) (A B : List Poly) :
    polySats σ (A ++ B) = (polySats σ A && polySats σ B) := by
  simp [polySats, List.all_append]

theorem xor_shuffle4 (x y z c : Bool) :
    ((x ^^ (y ^^ (z ^^ c))) == false) = (z == (x ^^ (y ^^ c))) := by
  cases x <;> cases y <;> cases z <;> cases c <;> rfl

theorem xor_eq_false (a b : Bool) : ((a ^^ b) == false) = (a == b) := by
  cases a <;> cases b <;> rfl

theorem maj_gf2 (a b c : Bool) : ((a && b) ^^ ((a && c) ^^ (b && c))) = maj a b c := by
  cases a <;> cases b <;> cases c <;> rfl

/-- Satisfaction of one algebraic addition stage is exactly the indexed
least-significant-first carry-chain relation on the variable reads. -/
theorem polySats_algStage (σ : String → Bool) (w : Nat) (hw : 1 ≤ w)
    (x y z c : List String) (hx : x.length = w) (hy : y.length = w)
    (hz : z.length = w) (hc : c.length = w) :
    polySats σ (algStage x y z c w) =
      lsbRel (z.map σ) (x.map σ) (y.map σ) (c.map σ) := by
  simp only [algStage, polySats, List.all_append, List.all_cons, List.all_nil,
    Bool.and_true, List.all_flatMap]
  have P1 : (Poly.evalB σ (Poly.padd (Poly.pvar (c.getD 0 "")) Poly.zero) == false)
      = ((c.map σ).getD 0 false == false) := by
    simp only [Poly.evalB, Bool.xor_false]
    rw [getD_map_bool σ c 0 (by omega)]
  have P2 : (Poly.evalB σ (Poly.padd (Poly.pvar (x.getD 0 ""))
        (Poly.padd (Poly.pvar (y.getD 0 ""))
          (Poly.padd (Poly.pvar (z.getD 0 "")) (Poly.pvar (c.getD 0 ""))))) == false)
      = ((z.map σ).getD 0 false ==
          ((x.map σ).getD 0 false ^^ ((y.map σ).getD 0 false ^^ (c.map σ).getD 0 false))) := by
    simp only [Poly.evalB]
    rw [xor_shuffle4, getD_map_bool σ z 0 (by omega), getD_map_bool σ x 0 (by omega),
      getD_map_bool σ y 0 (by omega), getD_map_bool σ c 0 (by omega)]
  have P3 : ((List.range' 1 (w - 1)).all (fun i =>
        ((Poly.evalB σ (Poly.padd (Poly.pvar (c.getD i ""))
            (majPoly (Poly.pvar (x.getD (i - 1) "")) (Poly.pvar (y.getD (i - 1) ""))
              (Poly.pvar (c.getD (i - 1) "")))) == false) &&
         ((Poly.evalB σ (Poly.padd (Poly.pvar (x.getD i ""))
            (Poly.padd (Poly.pvar (y.getD i ""))
              (Poly.padd (Poly.pvar (z.getD i "")) (Poly.pvar (c.getD i ""))))) == false))))
      = (((List.range' 1 ((x.map σ).length - 1)).all fun i =>
          (c.map σ).getD i false ==
            maj ((x.map σ).getD (i - 1) false) ((y.map σ).getD (i - 1) false)
              ((c.map σ).getD (i - 1) false)) &&
         ((List.range' 1 (w - 1)).all fun i =>
          (z.map σ).getD i false ==
            ((x.map σ).getD i false ^^
              ((y.map σ).getD i false ^^ (c.map σ).getD i false))))) := by
    simp only [List.length_map, hx]
    rw [← all_and_split]
    apply all_congr_mem
    intro i hmem
    rw [List.mem_range'] at hmem
    obtain ⟨j, hj, rfl⟩ := hmem
    have hi1 : 1 + 1 * j < w := by omega
    have hi0 : 1 + 1 * j - 1 < w := by omega
    simp only [Poly.evalB, majPoly]
    rw [maj_gf2, xor_eq_false, xor_shuffle4,
      getD_map_bool σ c (1 + 1 * j) (by omega), getD_map_bool σ x (1 + 1 * j - 1) (by omega),
      getD_map_bool σ y (1 + 1 * j - 1) (by omega),
      getD_map_bool σ c (1 + 1 * j - 1) (by omega),
      getD_map_bool σ z (1 + 1 * j) (by omega), getD_map_bool σ x (1 + 1 * j) (by omega),
      getD_map_bool σ y (1 + 1 * j) (by omega)]
  have hsplit : (List.range (x.map σ).length).all (fun i =>
        (z.map σ).getD i false ==
          ((x.map σ).getD i false ^^ ((y.map σ).getD i false ^^ (c.map σ).getD i false)))
      = (((z.map σ).getD 0 false ==
          ((x.map σ).getD 0 false ^^ ((y.map σ).getD 0 false ^^ (c.map σ).getD 0 false))) &&
         ((List.range' 1 (w - 1)).all fun i =>
          (z.map σ).getD i false ==
            ((x.map σ).getD i false ^^
              ((y.map σ).getD i false ^^ (c.map σ).getD i false)))) := by
    simp only [List.length_map, hx]
    obtain ⟨v, rfl⟩ : (∃ v, w = v + 1) := ⟨w - 1, by omega⟩
    rw [List.range_eq_range', List.range'_succ]
    simp only [List.all_cons, Nat.add_sub_cancel]
  rw [P1, P2, P3]
  simp only [lsbRel, hsplit]
  ac_rfl

theorem lsbRel_eq_decide (w : Nat) (hw : 1 ≤ w) (X Y Z C : List Bool)
    (hx : X.length = w) (hy : Y.length = w) (hz : Z.length = w) (hc : C.length = w) :
    lsbRel Z X Y C =
      (decide (Z = addLSB X Y false) && decide (C = carriesLSB X Y false)) := by
  rw [Bool.eq_iff_iff, lsbRel_iff w hw X Y Z C hx hy hz hc]
  simp [Bool.and_eq_true, decide_eq_true_eq]

/-- The polynomial systems of the successive algebraic stages, driven by the
stage-output words: each stage's left operand is the previous stage's output
word. -/
def algStagesRec (w : Nat) (xw : List String) :
    List (List String) → List (List String) → List (List String) → List Poly
  | z :: zs, y :: ys, c :: cs => algStage xw y z c w ++ algStagesRec w z zs ys cs
  | _, _, _ => []

/-- Semantic content of the algebraic stage chain: each stage's output word
reads as the least-significant-first ripple-carry sum of the accumulator and
the operand word, the carries are canonical, and the accumulator advances. -/
def algOk (σ : String → Bool) (w : Nat) :
    List Bool → List (List String) → List (List String) → List (List String) → Bool
  | _, [], _, _ => true
  | acc, z :: zs, y :: ys, c :: cs =>
      decide (z.map σ = addLSB acc (y.map σ) false) &&
      (decide (c.map σ = carriesLSB acc (y.map σ) false) &&
       algOk σ w (addLSB acc (y.map σ) false) zs ys cs)
  | _, _ :: _, _, _ => false

theorem polySats_algStagesRec (σ : String → Bool) (w : Nat) (hw : 1 ≤ w) :
    ∀ (zs ys cs : List (List String)) (xw : List String), xw.length = w →
    (∀ u ∈ zs, u.length = w) → (∀ u ∈ ys, u.length = w) → (∀ u ∈ cs, u.length = w) →
    zs.length = ys.length → zs.length = cs.length →
    polySats σ (algStagesRec w xw zs ys cs) = algOk σ w (xw.map σ) zs ys cs := by
  intro zs
  induction zs with
  | nil =>
      intro ys cs xw _ _ _ _ _ _
      cases ys <;> cases cs <;> rfl
  | cons z zs ih =>
      intro ys cs xw hxw hzs hys hcs h1 h2
      cases ys with
      | nil => simp at h1
      | cons y ys =>
          cases cs with
          | nil => simp at h2
          | cons c cs =>
              rw [show algStagesRec w xw (z :: zs) (y :: ys) (c :: cs) =
                  algStage xw y z c w ++ algStagesRec w z zs ys cs from rfl,
                polySats_append,
                polySats_algStage σ w hw xw y z c hxw (hys y (by simp))
                  (hzs z (by simp)) (hcs c (by simp)),
                lsbRel_eq_decide w hw (xw.map σ) (y.map σ) (z.map σ) (c.map σ)
                  (by simp [hxw]) (by simp [hys y (by simp)])
                  (by simp [hzs z (by simp)]) (by simp [hcs c (by simp)]),
                ih ys cs z (hzs z (by simp)) (fun u hu => hzs u (by simp [hu]))
                  (fun u hu => hys u (by simp [hu])) (fun u hu => hcs u (by simp [hu]))
                  (by simpa using h1) (by simpa using h2)]
              by_cases hA : z.map σ = addLSB (xw.map σ) (y.map σ) false
              · rw [show algOk σ w (xw.map σ) (z :: zs) (y :: ys) (c :: cs) =
                    (decide (z.map σ = addLSB (xw.map σ) (y.map σ) false) &&
                     (decide (c.map σ = carriesLSB (xw.map σ) (y.map σ) false) &&
                      algOk σ w (addLSB (xw.map σ) (y.map σ) false) zs ys cs)) from rfl,
                  ← hA]
                simp only [hA, decide_True, Bool.true_and]
              · rw [show algOk σ w (xw.map σ) (z :: zs) (y :: ys) (c :: cs) =
                    (decide (z.map σ = addLSB (xw.map σ) (y.map σ) false) &&
                     (decide (c.map σ = carriesLSB (xw.map σ) (y.map σ) false) &&
                      algOk σ w (addLSB (xw.map σ) (y.map σ) false) zs ys cs)) from rfl]
                simp [hA]


theorem valLSB_lt : ∀ bs : List Bool, valLSB bs < 2 ^ bs.length := by
  intro bs
  induction bs with
  | nil => simp [valLSB]
  | cons b bs ih =>
      simp only [valLSB, List.length_cons, pow_succ]
      cases b <;> simp [bitv] <;> omega

/-- Carry out of the least-significant-first ripple carry with seed `c`. -/
def coutLSB : List Bool → List Bool → Bool → Bool
  | a :: as, b :: bs, c => coutLSB as bs (maj a b c)
  | _, _, c => c

theorem addLSB_spec : ∀ (X Y : List Bool) (c : Bool), X.length = Y.length →
    valLSB (addLSB X Y c) + 2 ^ X.length * bitv (coutLSB X Y c) =
      valLSB X + valLSB Y + bitv c := by
  intro X
  induction X with
  | nil => intro Y c h; cases Y <;> simp_all [addLSB, coutLSB, valLSB]
  | cons a as ih =>
      intro Y c h
      cases Y with
      | nil => simp at h
      | cons b bs =>
          simp only [List.length_cons, Nat.succ_inj] at h
          have hv := ih bs (maj a b c) h
          have hb := bit_add_identity a b c
          simp only [addLSB, coutLSB, valLSB, List.length_cons, pow_succ]
          linarith [hv, hb]

theorem valLSB_addLSB (X Y : List Bool) (c : Bool) (h : X.length = Y.length) :
    valLSB (addLSB X Y c) = (valLSB X + valLSB Y + bitv c) % 2 ^ X.length := by
  have hs := addLSB_spec X Y c h
  have hlt : valLSB (addLSB X Y c) < 2 ^ X.length := by
    have := valLSB_lt (addLSB X Y c)
    rwa [length_addLSB, ← h, Nat.min_self] at this
  rcases Bool.eq_false_or_eq_true (coutLSB X Y c) with h2 | h2 <;>
    rw [h2] at hs
  · simp only [show bitv true = 1 from rfl, Nat.mul_one] at hs
    have hv2 : valLSB X + valLSB Y + bitv c =
        valLSB (addLSB X Y c) + 2 ^ X.length := by omega
    rw [hv2, Nat.add_mod_right, Nat.mod_eq_of_lt hlt]
  · simp only [show bitv false = 0 from rfl, Nat.mul_zero, Nat.add_zero] at hs
    rw [← hs, Nat.mod_eq_of_lt hlt]

/-- Left fold of the least-significant-first ripple-carry sum with zero seed
carries over a list of operand words. -/
def chainLastL (acc : List Bool) : List (List Bool) → List Bool
  | [] => acc
  | y :: ys => chainLastL (addLSB acc y false) ys

theorem length_chainLastL : ∀ (ws : List (List Bool)) (acc : List Bool),
    (∀ u ∈ ws, u.length = acc.length) → (chainLastL acc ws).length = acc.length := by
  intro ws
  induction ws with
  | nil => intro acc _; rfl
  | cons y rest ih =>
      intro acc h
      have hy : y.length = acc.length := h y (by simp)
      have hl : (addLSB acc y false).length = acc.length := by
        rw [length_addLSB, hy, Nat.min_self]
      simp only [chainLastL]
      rw [ih _ (by intro u hu; rw [hl]; exact h u (by simp [hu])), hl]

theorem valLSB_chainLastL : ∀ (ws : List (List Bool)) (acc : List Bool),
    (∀ u ∈ ws, u.length = acc.length) →
    valLSB (chainLastL acc ws) = (valLSB acc + (ws.map valLSB).sum) % 2 ^ acc.length := by
  intro ws
  induction ws with
  | nil =>
      intro acc _
      simp [chainLastL, Nat.mod_eq_of_lt (valLSB_lt acc)]
  | cons y rest ih =>
      intro acc h
      have hy : y.length = acc.length := h y (by simp)
      have hl : (addLSB acc y false).length = acc.length := by
        rw [length_addLSB, hy, Nat.min_self]
      simp only [chainLastL, List.map_cons, List.sum_cons]
      rw [ih _ (by intro u hu; rw [hl]; exact h u (by simp [hu])), hl,
        valLSB_addLSB acc y false hy.symm]
      simp only [bitv, Bool.false_eq_true, ite_false, Nat.add_zero]
      rw [Nat.mod_add_mod]
      ring_nf

theorem algOk_last (σ : String → Bool) :
    ∀ (zs ys cs : List (List String)) (acc : List Bool) (zlast : List String),
    algOk σ w' acc zs ys cs = true → zs.length = ys.length →
    zs.getLast? = some zlast →
    zlast.map σ = chainLastL acc (ys.map fun u => u.map σ) := by
  intro zs
  induction zs with
  | nil => intro ys cs acc zlast _ _ h; simp at h
  | cons z zs ih =>
      intro ys cs acc zlast hok hlen hlast
      cases ys with
      | nil => simp at hlen
      | cons y ys =>
          cases cs with
          | nil => simp [algOk] at hok
          | cons c cs =>
              rw [show algOk σ w' acc (z :: zs) (y :: ys) (c :: cs) =
                  (decide (z.map σ = addLSB acc (y.map σ) false) &&
                   (decide (c.map σ = carriesLSB acc (y.map σ) false) &&
                    algOk σ w' (addLSB acc (y.map σ) false) zs ys cs)) from rfl] at hok
              simp only [Bool.and_eq_true, decide_eq_true_eq] at hok
              obtain ⟨hA, _, hrec⟩ := hok
              cases zs with
              | nil =>
                  simp only [List.getLast?_singleton] at hlast
                  obtain rfl := Option.some.inj hlast
                  obtain rfl : ys = [] := by
                    cases ys with
                    | nil => rfl
                    | cons a b => simp at hlen
                  simp [chainLastL, hA]
              | cons z2 zs2 =>
                  rw [List.getLast?_cons_cons] at hlast
                  simp only [List.map_cons, chainLastL]
                  exact ih ys cs (addLSB acc (y.map σ) false) zlast hrec
                    (by simpa using hlen) hlast


theorem getD_range_map_gen {α : Type} (f : Nat → α) (d : α) (w i : Nat) (h : i < w) :
    ((List.range w).map f).getD i d = f i := by
  rw [List.getD_eq_getElem _ _ (by simpa using h)]
  simp

theorem alg_emit (w : Nat) : ∀ (A Ys Cl : List (List String)) (I0 out : List String),
    Ys.length = A.length + 1 → Cl.length = A.length + 1 →
    ((List.range (A.length + 1)).map fun n =>
      algStage (if n = 0 then I0 else A.getD (n - 1) []) (Ys.getD n [])
        (if n = A.length then out else A.getD n []) (Cl.getD n []) w).flatten
    = algStagesRec w I0 (A ++ [out]) Ys Cl := by
  intro A
  induction A with
  | nil =>
      intro Ys Cl I0 out hY hC
      obtain ⟨y0, rfl⟩ : (∃ y0, Ys = [y0]) := by
        cases Ys with
        | nil => simp at hY
        | cons a b =>
            cases b with
            | nil => exact ⟨a, rfl⟩
            | cons _ _ => simp at hY
      obtain ⟨c0, rfl⟩ : (∃ c0, Cl = [c0]) := by
        cases Cl with
        | nil => simp at hC
        | cons a b =>
            cases b with
            | nil => exact ⟨a, rfl⟩
            | cons _ _ => simp at hC
      simp [algStagesRec, show List.range 1 = [0] from rfl]
  | cons a A ih =>
      intro Ys Cl I0 out hY hC
      obtain ⟨y0, Ys, rfl⟩ : (∃ y0 Ys', Ys = y0 :: Ys') := by
        cases Ys with
        | nil => simp at hY
        | cons p q => exact ⟨p, q, rfl⟩
      obtain ⟨c0, Cl, rfl⟩ : (∃ c0 Cl', Cl = c0 :: Cl') := by
        cases Cl with
        | nil => simp at hC
        | cons p q => exact ⟨p, q, rfl⟩
      have hY' : Ys.length = A.length + 1 := by simpa using hY
      have hC' : Cl.length = A.length + 1 := by simpa using hC
      rw [show (a :: A).length + 1 = (A.length + 1) + 1 from by simp,
        List.range_succ_eq_map]
      simp only [List.map_cons, List.flatten_cons, List.map_map]
      rw [show algStagesRec w I0 ((a :: A) ++ [out]) (y0 :: Ys) (c0 :: Cl) =
          algStage I0 y0 a c0 w ++ algStagesRec w a (A ++ [out]) Ys Cl from rfl]
      congr 1
      rw [List.map_congr_left (g := fun n =>
          algStage (if n = 0 then a else A.getD (n - 1) []) (Ys.getD n [])
            (if n = A.length then out else A.getD n []) (Cl.getD n []) w) (by
          intro n hn
          simp only [Function.comp_def]
          have hx : (if Nat.succ n = 0 then I0 else (a :: A).getD (Nat.succ n - 1) []) =
              (if n = 0 then a else A.getD (n - 1) []) := by
            rw [if_neg (by omega)]
            cases n with
            | zero => simp
            | succ m => simp
          have hzz : (if Nat.succ n = (a :: A).length then out
                else (a :: A).getD (Nat.succ n) []) =
              (if n = A.length then out else A.getD n []) := by
            by_cases hn2 : n = A.length
            · rw [if_pos (by simp [hn2]), if_pos hn2]
            · rw [if_neg (by simp [hn2]), if_neg hn2]
              simp
          rw [hx, hzz]
          simp)]
      exact ih Ys Cl a out hY' hC'


/-- The input-bit variables `{id}_x{i}` of the algebraic model. -/
def alg_input_vars (cid : String) (nbits : Nat) : List String :=
  (List.range nbits).map fun i => cid ++ "_x" ++ toString i

/-- The output-bit variables `{id}_y{i}` of the algebraic model. -/
def alg_output_vars (cid : String) (nbits : Nat) : List String :=
  (List.range nbits).map fun i => cid ++ "_y" ++ toString i

/-- The per-stage carry variables `{id}_c{n}_{i}` of the algebraic model. -/
def alg_carries_vars (cid : String) (nadd w : Nat) : List (List String) :=
  (List.range nadd).map fun n =>
    (List.range w).map fun i => cid ++ "_c" ++ toString n ++ "_" ++ toString i

/-- The auxiliary stage-output variables `{id}_o{n}_{i}` of the algebraic
model. -/
def alg_aux_vars (cid : String) (nadd w : Nat) : List (List String) :=
  (List.range (nadd - 1)).map fun n =>
    (List.range w).map fun i => cid ++ "_o" ++ toString n ++ "_" ++ toString i

/-- Component-level characterization of `MODADD.algebraic_polynomials` for `k`
operand words of width `w`: the polynomial system vanishes exactly when every
stage is a canonical least-significant-first ripple-carry sum of the reads, and
then the output word reads as the modular sum of the operand word reads in the
least-significant-first value. -/
theorem modadd_algebraic_correct (σ : String → Bool) (cid : String) (k w : Nat)
    (hk : 2 ≤ k) (hw : 1 ≤ w) :
    (polySats σ (MODADD_algebraic_polynomials cid k (k * w) w) = true ↔
      algOk σ w (((alg_input_vars cid (k * w)).take w).map σ)
        (alg_aux_vars cid (k - 1) w ++ [alg_output_vars cid w])
        ((List.range (k - 1)).map fun n =>
          ((alg_input_vars cid (k * w)).drop ((n + 1) * w)).take w)
        (alg_carries_vars cid (k - 1) w) = true) ∧
    (polySats σ (MODADD_algebraic_polynomials cid k (k * w) w) = true →
      valLSB ((alg_output_vars cid w).map σ) =
        (valLSB (((alg_input_vars cid (k * w)).take w).map σ) +
          ((List.range (k - 1)).map fun n =>
            valLSB ((((alg_input_vars cid (k * w)).drop ((n + 1) * w)).take w).map σ)).sum)
          % 2 ^ w) := by
  have hwk : w ≤ k * w := by
    have := Nat.mul_le_mul_right w (show 1 ≤ k by omega)
    omega
  have hslice : ∀ n, n < k - 1 →
      (((alg_input_vars cid (k * w)).drop ((n + 1) * w)).take w).length = w := by
    intro n hn
    have h2 : (n + 2) * w ≤ k * w := Nat.mul_le_mul_right w (by omega)
    have h3 : (n + 2) * w = (n + 1) * w + w := by ring
    rw [List.length_take, List.length_drop]
    simp only [alg_input_vars, List.length_map, List.length_range]
    omega
  have htake : ((alg_input_vars cid (k * w)).take w).length = w := by
    rw [List.length_take]
    simp only [alg_input_vars, List.length_map, List.length_range]
    omega
  have hauxlen : (alg_aux_vars cid (k - 1) w).length = k - 1 - 1 := by
    simp [alg_aux_vars]
  have hemit : MODADD_algebraic_polynomials cid k (k * w) w =
      algStagesRec w ((alg_input_vars cid (k * w)).take w)
        (alg_aux_vars cid (k - 1) w ++ [alg_output_vars cid w])
        ((List.range (k - 1)).map fun n =>
          ((alg_input_vars cid (k * w)).drop ((n + 1) * w)).take w)
        (alg_carries_vars cid (k - 1) w) := by
    have h0 : MODADD_algebraic_polynomials cid k (k * w) w =
        ((List.range (k - 1)).map fun n =>
          algStage
            (if n = 0 then (alg_input_vars cid (k * w)).take w
             else (alg_aux_vars cid (k - 1) w).getD (n - 1) [])
            (((alg_input_vars cid (k * w)).drop ((n + 1) * w)).take w)
            (if n = k - 1 - 1 then alg_output_vars cid w
             else (alg_aux_vars cid (k - 1) w).getD n [])
            ((alg_carries_vars cid (k - 1) w).getD n []) w).flatten := rfl
    rw [h0]
    have hk1 : k - 1 = (alg_aux_vars cid (k - 1) w).length + 1 := by
      rw [hauxlen]; omega
    rw [show ((List.range (k - 1)).map fun n =>
          algStage
            (if n = 0 then (alg_input_vars cid (k * w)).take w
             else (alg_aux_vars cid (k - 1) w).getD (n - 1) [])
            (((alg_input_vars cid (k * w)).drop ((n + 1) * w)).take w)
            (if n = k - 1 - 1 then alg_output_vars cid w
             else (alg_aux_vars cid (k - 1) w).getD n [])
            ((alg_carries_vars cid (k - 1) w).getD n []) w).flatten =
        ((List.range ((alg_aux_vars cid (k - 1) w).length + 1)).map fun n =>
          algStage
            (if n = 0 then (alg_input_vars cid (k * w)).take w
             else (alg_aux_vars cid (k - 1) w).getD (n - 1) [])
            ((((List.range (k - 1)).map fun m =>
              ((alg_input_vars cid (k * w)).drop ((m + 1) * w)).take w)).getD n [])
            (if n = (alg_aux_vars cid (k - 1) w).length then alg_output_vars cid w
             else (alg_aux_vars cid (k - 1) w).getD n [])
            ((alg_carries_vars cid (k - 1) w).getD n []) w).flatten from by
      rw [← hk1]
      apply congrArg
      apply List.map_congr_left
      intro n hn
      rw [List.mem_range] at hn
      rw [getD_range_map_gen _ [] (k - 1) n hn,
        show (alg_aux_vars cid (k - 1) w).length = k - 1 - 1 from hauxlen]]
    rw [alg_emit w (alg_aux_vars cid (k - 1) w)
      ((List.range (k - 1)).map fun m =>
        ((alg_input_vars cid (k * w)).drop ((m + 1) * w)).take w)
      (alg_carries_vars cid (k - 1) w)
      ((alg_input_vars cid (k * w)).take w) (alg_output_vars cid w)
      (by simp [hauxlen]; omega) (by simp [alg_carries_vars, hauxlen]; omega)]
  have hchar : polySats σ (MODADD_algebraic_polynomials cid k (k * w) w) =
      algOk σ w (((alg_input_vars cid (k * w)).take w).map σ)
        (alg_aux_vars cid (k - 1) w ++ [alg_output_vars cid w])
        ((List.range (k - 1)).map fun n =>
          ((alg_input_vars cid (k * w)).drop ((n + 1) * w)).take w)
        (alg_carries_vars cid (k - 1) w) := by
    rw [hemit]
    exact polySats_algStagesRec σ w hw _ _ _ _ htake
      (by
        intro u hu
        rcases List.mem_append.mp hu with hu | hu
        · obtain ⟨n, _, rfl⟩ := List.mem_map.mp (by
            simpa only [alg_aux_vars] using hu)
          simp
        · rw [List.mem_singleton.mp hu]
          simp [alg_output_vars])
      (by
        intro u hu
        obtain ⟨n, hn, rfl⟩ := List.mem_map.mp hu
        rw [List.mem_range] at hn
        exact hslice n hn)
      (by
        intro u hu
        obtain ⟨n, _, rfl⟩ := List.mem_map.mp (by
          simpa only [alg_carries_vars] using hu)
        simp)
      (by simp [hauxlen]; omega)
      (by simp [alg_carries_vars, hauxlen]; omega)
  constructor
  · rw [hchar]
  · intro hs
    rw [hchar] at hs
    have hlast := algOk_last σ
      (alg_aux_vars cid (k - 1) w ++ [alg_output_vars cid w])
      ((List.range (k - 1)).map fun n =>
        ((alg_input_vars cid (k * w)).drop ((n + 1) * w)).take w)
      (alg_carries_vars cid (k - 1) w)
      (((alg_input_vars cid (k * w)).take w).map σ)
      (alg_output_vars cid w) hs (by simp [hauxlen]; omega)
      (List.getLast?_concat _)
    rw [hlast, valLSB_chainLastL _ _ (by
      intro u hu
      rw [List.map_map] at hu
      obtain ⟨n, hn, rfl⟩ := List.mem_map.mp hu
      rw [List.mem_range] at hn
      simp only [Function.comp_def, List.length_map, htake]
      rw [hslice n hn])]
    rw [List.length_map, htake, List.map_map, List.map_map]
    simp only [Function.comp_def]

/-! ## Claim C1: backend semantics of MODADD -/

/-- A concrete assignment of the algebraic variables of a 2-operand 2-bit
MODADD: both operand words read 01 in the model's own (least-significant-first)
order and the output reads their sum 10. -/
def sigmaC1alg : String → Bool := fun s =>
  s == "modadd_0_6_x0" || s == "modadd_0_6_x2" || s == "modadd_0_6_y1" ||
    s == "modadd_0_6_c0_1"

/-- A concrete CP assignment for a 4-operand 2-bit MODADD: the second operand
word is 01 (value 1), all other operand words are 00, and every emitted
constraint holds although the output word reads 00. -/
def sigmaC1cp : String → Nat → Bool := fun n j =>
  (n == "b" || n == "pre_modadd_0_6_1" || n == "pre_modadd_0_6_4") && j == 1

/-- C1 counterexample: the claimed uniform equivalence fails in three ways.
At width 1 `MODADD.sat_constraints` raises (returns nothing) instead of
encoding addition; the algebraic polynomials of a 2-operand 2-bit MODADD are
satisfied by an assignment whose words, read in the claimed
most-significant-first order, violate `z = x + y mod 4` (the algebraic backend
indexes bits least-significant-first); and the 4-operand 2-bit CP constraint
set is satisfied by an assignment whose output word is not the modular sum of
the four operand words (the CP reduction loop drops the accumulator). -/
theorem c1_single_msb_equivalence_refuted :
    MODADD_sat_constraints ["a_0", "b_0"] ["modadd_0_6_0"] 2 = none ∧
    (polySats sigmaC1alg (MODADD_algebraic_polynomials "modadd_0_6" 2 4 2) = true ∧
      ¬(valMSB ((alg_output_vars "modadd_0_6" 2).map sigmaC1alg) =
        (valMSB (((alg_input_vars "modadd_0_6" 4).take 2).map sigmaC1alg) +
         valMSB ((((alg_input_vars "modadd_0_6" 4).drop 2).take 2).map sigmaC1alg))
          % 2 ^ 2)) ∧
    (cpSats sigmaC1cp (MODADD_cp_constraints "modadd_0_6" ["a", "b", "c", "d"]
        [[0, 1], [0, 1], [0, 1], [0, 1]] 2 4).2 = true ∧
      ¬(valMSB (cpWord sigmaC1cp "modadd_0_6" 2) =
        (valMSB (cpInputWord (cp_all_inputs ["a", "b", "c", "d"]
            [[0, 1], [0, 1], [0, 1], [0, 1]]) sigmaC1cp 0 2) +
         valMSB (cpInputWord (cp_all_inputs ["a", "b", "c", "d"]
            [[0, 1], [0, 1], [0, 1], [0, 1]]) sigmaC1cp 1 2) +
         valMSB (cpInputWord (cp_all_inputs ["a", "b", "c", "d"]
            [[0, 1], [0, 1], [0, 1], [0, 1]]) sigmaC1cp 2 2) +
         valMSB (cpInputWord (cp_all_inputs ["a", "b", "c", "d"]
            [[0, 1], [0, 1], [0, 1], [0, 1]]) sigmaC1cp 3 2)) % 2 ^ 2)) :=
  ⟨by decide, ⟨by decide, by decide⟩, ⟨by decide, by decide⟩⟩

/-- C1 (amended): per-backend correctness of the MODADD encodings under each
backend's own conventions.  (1) For every operand count `k ≥ 2` and width
`w ≥ 2`, with pairwise distinct variable names, `sat_constraints` succeeds and
an assignment with operand words `XS` and output word `Z` satisfying it exists
exactly when `valMSB Z = sum XS mod 2^w` (most-significant-first).  (2)(3) For
`k = 2` and `k = 3`, `cp_constraints` is satisfied exactly by assignments whose
staging arrays copy the operands and whose reductions are canonical
most-significant-first ripple-carry sums, and then the output array reads as
the modular sum.  (4) For every `k ≥ 2` and `w ≥ 1`, `algebraic_polynomials`
vanishes exactly on canonical least-significant-first ripple-carry chains of
the reads, and then `valLSB` of the output reads is the modular sum of `valLSB`
of the operand reads: the SAT and CP backends are most-significant-first but
the algebraic backend is least-significant-first, and width 1 and CP operand
counts `k ≥ 4` are excluded. -/
theorem c1_backend_semantics :
    (∀ (k w : Nat), 2 ≤ k → 2 ≤ w → ∀ (input_ids output_ids : List String),
      input_ids.length = k * w → output_ids.length = w →
      (MODADD_sat_vars input_ids output_ids k).Nodup →
      ∃ ids CS, MODADD_sat_constraints input_ids output_ids k = some (ids, CS) ∧
        ∀ (XS : List (List Bool)) (Z : List Bool),
          XS.length = k → (∀ xw ∈ XS, xw.length = w) → Z.length = w →
          ((∃ σ : String → Bool,
              ((List.range k).map fun i => ((input_ids.drop (i * w)).take w).map σ) = XS ∧
              output_ids.map σ = Z ∧ sats σ CS = true)
            ↔ valMSB Z = (XS.map valMSB).sum % 2 ^ w)) ∧
    (∀ (σ : String → Nat → Bool) (out : String) (links : List String)
        (poss : List (List Nat)) (w : Nat), 2 ≤ w →
      (cp_all_inputs links poss).length = 2 * w →
      (cpSats σ (MODADD_cp_constraints out links poss w 2).2 = true ↔
        (cpWord σ (pre_name out 0) w = cpInputWord (cp_all_inputs links poss) σ 0 w ∧
         cpWord σ (pre_name out 1) w = cpInputWord (cp_all_inputs links poss) σ 1 w ∧
         cpWord σ out w =
           (addMSB (cpWord σ (pre_name out 1) w) (cpWord σ (pre_name out 0) w)).1 ∧
         cpCarryWord σ ("carry_" ++ out) w =
           carriesMSB (cpWord σ (pre_name out 1) w) (cpWord σ (pre_name out 0) w))) ∧
      (cpSats σ (MODADD_cp_constraints out links poss w 2).2 = true →
        valMSB (cpWord σ out w) =
          (valMSB (cpInputWord (cp_all_inputs links poss) σ 0 w) +
           valMSB (cpInputWord (cp_all_inputs links poss) σ 1 w)) % 2 ^ w)) ∧
    (∀ (σ : String → Nat → Bool) (out : String) (links : List String)
        (poss : List (List Nat)) (w : Nat), 2 ≤ w →
      (cp_all_inputs links poss).length = 3 * w →
      (cpSats σ (MODADD_cp_constraints out links poss w 3).2 = true ↔
        (cpWord σ (pre_name out 0) w = cpInputWord (cp_all_inputs links poss) σ 0 w ∧
         cpWord σ (pre_name out 1) w = cpInputWord (cp_all_inputs links poss) σ 1 w ∧
         cpWord σ (pre_name out 2) w = cpInputWord (cp_all_inputs links poss) σ 2 w ∧
         (cpWord σ (pre_name out 3) w =
            (addMSB (cpWord σ (pre_name out 2) w) (cpWord σ (pre_name out 1) w)).1 ∧
          cpCarryWord σ ("carry_" ++ pre_name out 3) w =
            carriesMSB (cpWord σ (pre_name out 2) w) (cpWord σ (pre_name out 1) w)) ∧
         (cpWord σ out w =
            (addMSB (cpWord σ (pre_name out 3) w) (cpWord σ (pre_name out 0) w)).1 ∧
          cpCarryWord σ ("carry_" ++ out) w =
            carriesMSB (cpWord σ (pre_name out 3) w) (cpWord σ (pre_name out 0) w)))) ∧
      (cpSats σ (MODADD_cp_constraints out links poss w 3).2 = true →
        valMSB (cpWord σ out w) =
          (valMSB (cpInputWord (cp_all_inputs links poss) σ 0 w) +
           valMSB (cpInputWord (cp_all_inputs links poss) σ 1 w) +
           valMSB (cpInputWord (cp_all_inputs links poss) σ 2 w)) % 2 ^ w)) ∧
    (∀ (σ : String → Bool) (cid : String) (k w : Nat), 2 ≤ k → 1 ≤ w →
      (polySats σ (MODADD_algebraic_polynomials cid k (k * w) w) = true ↔
        algOk σ w (((alg_input_vars cid (k * w)).take w).map σ)
          (alg_aux_vars cid (k - 1) w ++ [alg_output_vars cid w])
          ((List.range (k - 1)).map fun n =>
            ((alg_input_vars cid (k * w)).drop ((n + 1) * w)).take w)
          (alg_carries_vars cid (k - 1) w) = true) ∧
      (polySats σ (MODADD_algebraic_polynomials cid k (k * w) w) = true →
        valLSB ((alg_output_vars cid w).map σ) =
          (valLSB (((alg_input_vars cid (k * w)).take w).map σ) +
            ((List.range (k - 1)).map fun n =>
              valLSB ((((alg_input_vars cid (k * w)).drop ((n + 1) * w)).take w).map σ)).sum)
            % 2 ^ w)) :=
  ⟨fun k w hk hw input_ids output_ids hil hol hnd =>
    modadd_sat_correct k w hk hw input_ids output_ids hil hol hnd,
   fun σ out links poss w hw hlen => modadd_cp_two_correct σ out links poss w hw hlen,
   fun σ out links poss w hw hlen => modadd_cp_three_correct σ out links poss w hw hlen,
   fun σ cid k w hk hw => modadd_algebraic_correct σ cid k w hk hw⟩

theorem c1_backend_semantics_witness :
    (2 ≤ 2 ∧ 2 ≤ 2 ∧ (["a_0", "a_1", "b_0", "b_1"] : List String).length = 2 * 2 ∧
      (["modadd_0_6_0", "modadd_0_6_1"] : List String).length = 2 ∧
      (MODADD_sat_vars ["a_0", "a_1", "b_0", "b_1"]
        ["modadd_0_6_0", "modadd_0_6_1"] 2).Nodup) ∧
    (∃ ids CS, MODADD_sat_constraints ["a_0", "a_1", "b_0", "b_1"]
        ["modadd_0_6_0", "modadd_0_6_1"] 2 = some (ids, CS) ∧
      ∀ (XS : List (List Bool)) (Z : List Bool),
        XS.length = 2 → (∀ xw ∈ XS, xw.length = 2) → Z.length = 2 →
        ((∃ σ : String → Bool,
            ((List.range 2).map fun i =>
              (((["a_0", "a_1", "b_0", "b_1"] : List String).drop (i * 2)).take 2).map σ)
              = XS ∧
            (["modadd_0_6_0", "modadd_0_6_1"] : List String).map σ = Z ∧
            sats σ CS = true)
          ↔ valMSB Z = (XS.map valMSB).sum % 2 ^ 2)) :=
  ⟨⟨by decide, by decide, by decide, by decide, by decide⟩,
   c1_backend_semantics.1 2 2 (by decide) (by decide)
     ["a_0", "a_1", "b_0", "b_1"] ["modadd_0_6_0", "modadd_0_6_1"]
     (by decide) (by decide) (by decide)⟩


/-! ## The MODSUB two's-complement chains -/

/-- The carry out of the two's-complement chain on the suffix of `B` starting
at position `i`; `cinT B (i + 1)` is the carry into position `i`, and the seed
carry of the empty suffix is `1`. -/
def cinT (B : List Bool) (i : Nat) : Bool := (twcMSB (B.drop i)).2

theorem cinT_of_le (B : List Bool) (i : Nat) (h : B.length ≤ i) : cinT B i = true := by
  unfold cinT
  rw [List.drop_eq_nil_of_le h]
  rfl

theorem cinT_succ (B : List Bool) (i : Nat) (hi : i + 1 < B.length) :
    cinT B (i + 1) = (!(B.getD (i + 1) false) && cinT B (i + 2)) := by
  unfold cinT
  rw [drop_eq_getD_cons B (i + 1) false hi]
  simp [twcMSB]

theorem twcMSB_fst_getD : ∀ (B : List Bool) (i : Nat), i < B.length →
    (twcMSB B).1.getD i false = (!(B.getD i false) ^^ cinT B (i + 1)) := by
  intro B
  induction B with
  | nil => intro i hi; simp at hi
  | cons b bs ih =>
      intro i hi
      cases i with
      | zero => simp [twcMSB, cinT, List.getD]
      | succ i =>
          have hi2 : i < bs.length := by simpa using hi
          have := ih i hi2
          simpa [twcMSB, cinT, List.getD] using this

theorem length_twcCarries (B : List Bool) : (twcCarries B).length = B.length - 1 := by
  simp [twcCarries]

theorem twcCarries_getD (B : List Bool) (i : Nat) (hi : i < B.length - 1) :
    (twcCarries B).getD i false = cinT B (i + 1) := by
  rw [List.getD_eq_getElem _ _ (by simpa [twcCarries] using hi)]
  simp [twcCarries, cinT]

theorem not_xor_true (b : Bool) : (!b ^^ true) = b := by cases b <;> rfl

/-- The relations emitted by the two's-complement chain, in indexed form:
operand `B` and result `R` of length `w`, carries `C` of length `w - 1` with
entry `i` the carry into position `i`. -/
def twcRel (R B C : List Bool) : Bool :=
  let w := B.length
  (C.getD (w - 2) false == !(B.getD (w - 1) false))
  && ((List.range (w - 2)).all fun i =>
      C.getD i false == (!(B.getD (i + 1) false) && C.getD (i + 1) false))
  && ((List.range (w - 1)).all fun i =>
      R.getD i false == (!(B.getD i false) ^^ C.getD i false))
  && (R.getD (w - 1) false == B.getD (w - 1) false)

theorem twcRel_iff (w : Nat) (hw : 2 ≤ w) (B R C : List Bool)
    (hb : B.length = w) (hr : R.length = w) (hc : C.length = w - 1) :
    twcRel R B C = true ↔ (R = (twcMSB B).1 ∧ C = twcCarries B) := by
  have hcin_pred : cinT B (w - 1) = !(B.getD (w - 1) false) := by
    have h1 : w - 2 + 1 = w - 1 := by omega
    have h2 : w - 2 + 2 = w := by omega
    have := cinT_succ B (w - 2) (by omega)
    rw [h1, h2] at this
    rw [this, cinT_of_le B w (by omega), Bool.and_true]
  constructor
  · intro hrel
    simp only [twcRel, Bool.and_eq_true, List.all_eq_true, List.mem_range,
      beq_iff_eq] at hrel
    obtain ⟨⟨⟨h1, h2⟩, h3⟩, h4⟩ := hrel
    rw [hb] at h1 h2 h3 h4
    have hC : ∀ j i, i < w - 1 → w - 2 - i ≤ j → C.getD i false = cinT B (i + 1) := by
      intro j
      induction j with
      | zero =>
          intro i hi hj
          have hie : i = w - 2 := by omega
          subst hie
          rw [h1, ← hcin_pred]
          congr 1
          omega
      | succ j ih =>
          intro i hi hj
          by_cases hcase : w - 2 - i ≤ j
          · exact ih i hi hcase
          · have hie : i < w - 2 := by omega
            rw [h2 i hie, ih (i + 1) (by omega) (by omega),
              ← cinT_succ B i (by omega)]
    have hCfin : ∀ i, i < w - 1 → C.getD i false = cinT B (i + 1) := fun i hi =>
      hC w i hi (by omega)
    constructor
    · apply List.ext_getElem (by rw [hr, length_twcMSB, hb])
      intro i hi1 hi2
      rw [← List.getD_eq_getElem R false hi1, ← List.getD_eq_getElem _ false hi2]
      rw [twcMSB_fst_getD B i (by omega)]
      by_cases hlast : i < w - 1
      · rw [h3 i hlast, hCfin i hlast]
      · have hie : i = w - 1 := by omega
        subst hie
        rw [h4, cinT_of_le B (w - 1 + 1) (by omega), not_xor_true]
    · apply List.ext_getElem (by rw [hc, length_twcCarries, hb])
      intro i hi1 hi2
      rw [← List.getD_eq_getElem C false hi1, ← List.getD_eq_getElem _ false hi2]
      have hiw : i < w - 1 := by omega
      rw [twcCarries_getD B i (by omega), hCfin i hiw]
  · rintro ⟨rfl, rfl⟩
    simp only [twcRel, Bool.and_eq_true, List.all_eq_true, List.mem_range, beq_iff_eq,
      hb]
    refine ⟨⟨⟨?_, ?_⟩, ?_⟩, ?_⟩
    · rw [twcCarries_getD B (w - 2) (by omega), show w - 2 + 1 = w - 1 from by omega,
        hcin_pred]
    · intro i hi
      rw [twcCarries_getD B i (by omega), twcCarries_getD B (i + 1) (by omega),
        ← cinT_succ B i (by omega)]
    · intro i hi
      rw [twcMSB_fst_getD B i (by omega), twcCarries_getD B i (by omega)]
    · rw [twcMSB_fst_getD B (w - 1) (by omega), cinT_of_le B (w - 1 + 1) (by omega),
        not_xor_true]


theorem bne_eq_beq_not (a b : Bool) : (!(a == b)) = (a == !b) := by
  cases a <;> cases b <;> rfl

/-- Satisfaction of the clause set of `two_complement_sat_constraints` (with
the carry ids abstracted as `c`) is exactly the indexed two's-complement
relation on the reads. -/
theorem sats_twocomp_core (σ : String → Bool) (w : Nat) (hw : 2 ≤ w)
    (r b c : List String) (hr : r.length = w) (hb : b.length = w)
    (hc : c.length = w - 1) :
    sats σ ((zip3 c b.tail c.tail).flatMap
        (fun q => cnf_carry_comp2 q.1 q.2.1 q.2.2)
      ++ cnf_inequality (c.getD (c.length - 1) "") (b.getD (b.length - 1) "")
      ++ (zip3 r b c).flatMap (fun q => cnf_result_comp2 q.1 q.2.1 q.2.2)
      ++ cnf_equivalent (r.getD (r.length - 1) "") (b.getD (b.length - 1) "")) =
      twcRel (r.map σ) (b.map σ) (c.map σ) := by
  have S1 : ((zip3 c b.tail c.tail).flatMap
        (fun q => cnf_carry_comp2 q.1 q.2.1 q.2.2)).all (Constr.evalB σ)
      = (List.range (w - 2)).all fun i =>
          (c.map σ).getD i false ==
            (!((b.map σ).getD (i + 1) false) && (c.map σ).getD (i + 1) false) := by
    rw [List.all_flatMap]
    simp only [cnf_carry_comp2, List.all_cons, List.all_nil, Bool.and_true]
    rw [zip3_all _ "" "" ""]
    simp only [List.length_tail, hb, hc]
    rw [show min (w - 1) (min (w - 1) (w - 1 - 1)) = w - 2 from by omega]
    apply all_congr_mem
    intro i hi
    rw [List.mem_range] at hi
    simp only [Constr.evalB, BE.evalB]
    rw [getD_tail, getD_tail, getD_map_bool σ c i (by omega),
      getD_map_bool σ b (i + 1) (by omega), getD_map_bool σ c (i + 1) (by omega)]
  have S2 : (cnf_inequality (c.getD (c.length - 1) "")
        (b.getD (b.length - 1) "")).all (Constr.evalB σ)
      = ((c.map σ).getD (w - 2) false == !((b.map σ).getD (w - 1) false)) := by
    simp only [cnf_inequality, List.all_cons, List.all_nil, Bool.and_true, Constr.evalB]
    rw [hc, hb, show w - 1 - 1 = w - 2 from by omega,
      getD_map_bool σ c (w - 2) (by omega), getD_map_bool σ b (w - 1) (by omega),
      bne_eq_beq_not]
  have S3 : ((zip3 r b c).flatMap
        (fun q => cnf_result_comp2 q.1 q.2.1 q.2.2)).all (Constr.evalB σ)
      = (List.range (w - 1)).all fun i =>
          (r.map σ).getD i false ==
            (!((b.map σ).getD i false) ^^ (c.map σ).getD i false) := by
    rw [List.all_flatMap]
    simp only [cnf_result_comp2, List.all_cons, List.all_nil, Bool.and_true]
    rw [zip3_all _ "" "" ""]
    simp only [hr, hb, hc]
    rw [show min w (min w (w - 1)) = w - 1 from by omega]
    apply all_congr_mem
    intro i hi
    rw [List.mem_range] at hi
    simp only [Constr.evalB, BE.evalB]
    rw [getD_map_bool σ r i (by omega), getD_map_bool σ b i (by omega),
      getD_map_bool σ c i (by omega)]
  have S4 : (cnf_equivalent (r.getD (r.length - 1) "")
        (b.getD (b.length - 1) "")).all (Constr.evalB σ)
      = ((r.map σ).getD (w - 1) false == (b.map σ).getD (w - 1) false) := by
    simp only [cnf_equivalent, List.all_cons, List.all_nil, Bool.and_true, Constr.evalB,
      BE.evalB]
    rw [hr, hb, getD_map_bool σ r (w - 1) (by omega), getD_map_bool σ b (w - 1) (by omega)]
  simp only [sats, List.all_append]
  rw [S1, S2, S3, S4]
  simp only [twcRel, List.length_map, hb]
  ac_rfl

/-- The same for the inline two's-complement section of
`MODSUB.smt_constraints`. -/
theorem sats_twocomp_smt_core (σ : String → Bool) (w : Nat) (hw : 2 ≤ w)
    (r b c : List String) (hr : r.length = w) (hb : b.length = w)
    (hc : c.length = w - 1) :
    sats σ ((zip3 c b.tail c.tail).map
        (fun q => smt_assert_equivalent q.1 (BE.conj (BE.neg (BE.var q.2.1)) (BE.var q.2.2)))
      ++ [Constr.distinct (c.getD (c.length - 1) "") (b.getD (b.length - 1) "")]
      ++ (zip3 r b c).map
        (fun q => smt_assert_equivalent q.1 (BE.xor2 (BE.neg (BE.var q.2.1)) (BE.var q.2.2)))
      ++ [smt_assert_equivalent (r.getD (r.length - 1) "")
            (BE.var (b.getD (b.length - 1) ""))]) =
      twcRel (r.map σ) (b.map σ) (c.map σ) := by
  have S1 : ((zip3 c b.tail c.tail).map
        (fun q => smt_assert_equivalent q.1
          (BE.conj (BE.neg (BE.var q.2.1)) (BE.var q.2.2)))).all (Constr.evalB σ)
      = (List.range (w - 2)).all fun i =>
          (c.map σ).getD i false ==
            (!((b.map σ).getD (i + 1) false) && (c.map σ).getD (i + 1) false) := by
    rw [all_map_eq, zip3_all _ "" "" ""]
    simp only [List.length_tail, hb, hc]
    rw [show min (w - 1) (min (w - 1) (w - 1 - 1)) = w - 2 from by omega]
    apply all_congr_mem
    intro i hi
    rw [List.mem_range] at hi
    simp only [smt_assert_equivalent, Constr.evalB, BE.evalB]
    rw [getD_tail, getD_tail, getD_map_bool σ c i (by omega),
      getD_map_bool σ b (i + 1) (by omega), getD_map_bool σ c (i + 1) (by omega)]
  have S2 : Constr.evalB σ (Constr.distinct (c.getD (c.length - 1) "")
        (b.getD (b.length - 1) ""))
      = ((c.map σ).getD (w - 2) false == !((b.map σ).getD (w - 1) false)) := by
    simp only [Constr.evalB]
    rw [hc, hb, show w - 1 - 1 = w - 2 from by omega,
      getD_map_bool σ c (w - 2) (by omega), getD_map_bool σ b (w - 1) (by omega),
      bne_eq_beq_not]
  have S3 : ((zip3 r b c).map
        (fun q => smt_assert_equivalent q.1
          (BE.xor2 (BE.neg (BE.var q.2.1)) (BE.var q.2.2)))).all (Constr.evalB σ)
      = (List.range (w - 1)).all fun i =>
          (r.map σ).getD i false ==
            (!((b.map σ).getD i false) ^^ (c.map σ).getD i false) := by
    rw [all_map_eq, zip3_all _ "" "" ""]
    simp only [hr, hb, hc]
    rw [show min w (min w (w - 1)) = w - 1 from by omega]
    apply all_congr_mem
    intro i hi
    rw [List.mem_range] at hi
    simp only [smt_assert_equivalent, Constr.evalB, BE.evalB]
    rw [getD_map_bool σ r i (by omega), getD_map_bool σ b i (by omega),
      getD_map_bool σ c i (by omega)]
  have S4 : Constr.evalB σ (smt_assert_equivalent (r.getD (r.length - 1) "")
        (BE.var (b.getD (b.length - 1) "")))
      = ((r.map σ).getD (w - 1) false == (b.map σ).getD (w - 1) false) := by
    simp only [smt_assert_equivalent, Constr.evalB, BE.evalB]
    rw [hr, hb, getD_map_bool σ r (w - 1) (by omega), getD_map_bool σ b (w - 1) (by omega)]
  simp only [sats, List.all_append, List.all_cons, List.all_nil, Bool.and_true]
  rw [S1, S2, S3, S4]
  simp only [twcRel, List.length_map, hb]
  ac_rfl


theorem sats_append (σ : String → Bool) (A B : List Constr) :
    sats σ (A ++ B) = (sats σ A && sats σ B) := by
  simp [sats, List.all_append]

/-- All variable names of the constraint set emitted by
`MODSUB.sat_constraints`: the input bit ids followed by the derived auxiliary
names and the output ids. -/
def MODSUB_sat_vars (input_ids output_ids : List String) : List String :=
  let w := output_ids.length
  input_ids ++
  (((input_ids.drop w).dropLast.map fun iid => "twocomp_carry_" ++ iid) ++
   ((input_ids.drop w).map fun iid => "twocomp_result_" ++ iid) ++
   (output_ids.dropLast.map fun oid => "carry_" ++ oid) ++
   (output_ids.map fun oid => "intermediate_" ++ oid) ++
   output_ids)

/-- The canonical assignment blocks for a satisfying MODSUB assignment with
first operand `A` and second operand `B`. -/
def modsubBlocks (input_ids output_ids : List String) (A B : List Bool) :
    List (List String × List Bool) :=
  let w := output_ids.length
  let T := (twcMSB B).1
  [(input_ids.take w, A), (input_ids.drop w, B),
   ((input_ids.drop w).dropLast.map fun iid => "twocomp_carry_" ++ iid, twcCarries B),
   ((input_ids.drop w).map fun iid => "twocomp_result_" ++ iid, T),
   (output_ids.dropLast.map fun oid => "carry_" ++ oid, carriesMSB A T),
   (output_ids.map fun oid => "intermediate_" ++ oid,
     A.zipWith (fun a b : Bool => a ^^ b) T),
   (output_ids, (addMSB A T).1)]

/-- Component-level correctness of `MODSUB.sat_constraints` at width `w ≥ 2`:
the emitter succeeds, and an assignment with first operand word `A`, second
operand word `B` and output word `Z` satisfying the emitted constraints exists
exactly when `Z` reads as `A + (2^w - B) mod 2^w`, i.e. `A - B mod 2^w`. -/
theorem modsub_sat_correct (w : Nat) (hw : 2 ≤ w) (input_ids output_ids : List String)
    (hil : input_ids.length = 2 * w) (hol : output_ids.length = w)
    (hnd : (MODSUB_sat_vars input_ids output_ids).Nodup) :
    ∃ ids CS, MODSUB_sat_constraints input_ids output_ids = some (ids, CS) ∧
      ∀ (A B Z : List Bool), A.length = w → B.length = w → Z.length = w →
        ((∃ σ : String → Bool, (input_ids.take w).map σ = A ∧
            (input_ids.drop w).map σ = B ∧ output_ids.map σ = Z ∧ sats σ CS = true)
          ↔ valMSB Z = (valMSB A + (2 ^ w - valMSB B)) % 2 ^ w) := by
  subst hol
  have hBl : (input_ids.drop output_ids.length).length = output_ids.length := by
    rw [List.length_drop, hil]
    omega
  have hAl : (input_ids.take output_ids.length).length = output_ids.length := by
    rw [List.length_take, hil]
    omega
  have hTRl : ((input_ids.drop output_ids.length).map
      (fun iid => "twocomp_result_" ++ iid)).length = output_ids.length := by
    rw [List.length_map, hBl]
  have hTCl : ((input_ids.drop output_ids.length).dropLast.map
      (fun iid => "twocomp_carry_" ++ iid)).length = output_ids.length - 1 := by
    rw [List.length_map, List.length_dropLast, hBl]
  have hCAl : (output_ids.dropLast.map (fun oid => "carry_" ++ oid)).length =
      output_ids.length - 1 := by
    rw [List.length_map, List.length_dropLast]
  have hINl : (output_ids.map (fun oid => "intermediate_" ++ oid)).length =
      output_ids.length := List.length_map _ _
  have hTCne : ((input_ids.drop output_ids.length).dropLast.map
      (fun iid => "twocomp_carry_" ++ iid)) ≠ [] :=
    List.length_pos.mp (by omega)
  have hBne : input_ids.drop output_ids.length ≠ [] := List.length_pos.mp (by omega)
  have hTRne : ((input_ids.drop output_ids.length).map
      (fun iid => "twocomp_result_" ++ iid)) ≠ [] := List.length_pos.mp (by omega)
  obtain ⟨f, hf⟩ := sat_modadd_isSome output_ids.length hw output_ids
    (input_ids.take output_ids.length)
    ((input_ids.drop output_ids.length).map (fun iid => "twocomp_result_" ++ iid))
    (output_ids.dropLast.map (fun oid => "carry_" ++ oid))
    (output_ids.map (fun oid => "intermediate_" ++ oid))
    rfl hAl hTRl hCAl hINl
  have hemit : MODSUB_sat_constraints input_ids output_ids =
      some ((((input_ids.drop output_ids.length).dropLast.map
          (fun iid => "twocomp_carry_" ++ iid))
        ++ ((input_ids.drop output_ids.length).map (fun iid => "twocomp_result_" ++ iid))
        ++ (output_ids.dropLast.map (fun oid => "carry_" ++ oid))
        ++ (output_ids.map (fun oid => "intermediate_" ++ oid))
        ++ output_ids),
        (((zip3 ((input_ids.drop output_ids.length).dropLast.map
              (fun iid => "twocomp_carry_" ++ iid))
            (input_ids.drop output_ids.length).tail
            ((input_ids.drop output_ids.length).dropLast.map
              (fun iid => "twocomp_carry_" ++ iid)).tail).flatMap
          (fun q => cnf_carry_comp2 q.1 q.2.1 q.2.2)
        ++ cnf_inequality
            (((input_ids.drop output_ids.length).dropLast.map
              (fun iid => "twocomp_carry_" ++ iid)).getD
              (((input_ids.drop output_ids.length).dropLast.map
                (fun iid => "twocomp_carry_" ++ iid)).length - 1) "")
            ((input_ids.drop output_ids.length).getD
              ((input_ids.drop output_ids.length).length - 1) "")
        ++ (zip3 ((input_ids.drop output_ids.length).map
              (fun iid => "twocomp_result_" ++ iid))
            (input_ids.drop output_ids.length)
            ((input_ids.drop output_ids.length).dropLast.map
              (fun iid => "twocomp_carry_" ++ iid))).flatMap
          (fun q => cnf_result_comp2 q.1 q.2.1 q.2.2)
        ++ cnf_equivalent
            (((input_ids.drop output_ids.length).map
              (fun iid => "twocomp_result_" ++ iid)).getD
              (((input_ids.drop output_ids.length).map
                (fun iid => "twocomp_result_" ++ iid)).length - 1) "")
            ((input_ids.drop output_ids.length).getD
              ((input_ids.drop output_ids.length).length - 1) ""))
        ++ f)) := by
    simp only [two_complement_sat_constraints, MODSUB_sat_constraints]
    rw [getLast?_eq_getD _ "" hTCne, getLast?_eq_getD _ "" hBne,
      getLast?_eq_getD _ "" hTRne, hf]
    rfl
  refine ⟨_, _, hemit, ?_⟩
  intro A B Z hA hB hZ
  constructor
  · rintro ⟨σ, hArd, hBrd, hZrd, hsat⟩
    rw [sats_append, Bool.and_eq_true] at hsat
    obtain ⟨hs1, hs2⟩ := hsat
    rw [sats_twocomp_core σ output_ids.length hw _ _ _ hTRl hBl hTCl] at hs1
    obtain ⟨hR, _⟩ := (twcRel_iff output_ids.length hw _ _ _
      (by rw [List.length_map, hBl]) (by rw [List.length_map, hTRl])
      (by rw [List.length_map]; exact hTCl)).mp hs1
    have hfs := sats_sat_modadd σ output_ids.length hw output_ids
      (input_ids.take output_ids.length)
      ((input_ids.drop output_ids.length).map (fun iid => "twocomp_result_" ++ iid))
      (output_ids.dropLast.map (fun oid => "carry_" ++ oid))
      (output_ids.map (fun oid => "intermediate_" ++ oid))
      rfl hAl hTRl hCAl hINl
    rw [hf, Option.map_some'] at hfs
    have hf2 := Option.some.inj hfs
    rw [hf2, Bool.and_eq_true] at hs2
    obtain ⟨hZeq, _⟩ := (chainRel_iff output_ids.length hw _ _ _ _
      (by rw [List.length_map, hAl]) (by rw [List.length_map, hTRl])
      (by rw [List.length_map]) (by rw [List.length_map, hCAl])).mp hs2.1
    rw [← hZrd, hZeq, valMSB_addMSB _ _
      (by rw [List.length_map, hAl, List.length_map, hTRl]),
      hArd, hR, hBrd, valMSB_twcMSB B, hB, hA]
    rw [Nat.add_mod, Nat.mod_mod_of_dvd _ (dvd_refl _), ← Nat.add_mod]
  · intro hval
    have hT : (twcMSB B).1.length = output_ids.length := by rw [length_twcMSB, hB]
    have hndb : (((modsubBlocks input_ids output_ids A B).map Prod.fst).flatten).Nodup := by
      have he : ((modsubBlocks input_ids output_ids A B).map Prod.fst).flatten =
          MODSUB_sat_vars input_ids output_ids := by
        simp only [modsubBlocks, MODSUB_sat_vars, List.map_cons, List.map_nil,
          List.flatten_cons, List.flatten_nil, List.append_nil, List.append_assoc]
        rw [← List.append_assoc (input_ids.take output_ids.length)
          (input_ids.drop output_ids.length), List.take_append_drop]
      rw [he]
      exact hnd
    have hblens : ∀ p ∈ modsubBlocks input_ids output_ids A B,
        p.1.length = p.2.length := by
      intro p hp
      simp only [modsubBlocks, List.mem_cons, List.not_mem_nil, or_false] at hp
      rcases hp with rfl | rfl | rfl | rfl | rfl | rfl | rfl
      · rw [hAl, hA]
      · rw [hBl, hB]
      · rw [hTCl, length_twcCarries, hB]
      · rw [hTRl, length_twcMSB, hB]
      · rw [hCAl, length_carriesMSB, hA]
      · rw [hINl, List.length_zipWith, hA, hT, Nat.min_self]
      · rw [length_addMSB A _ (by rw [hA, hT]), hA]
    have hreads := map_alookup_blocks _ hndb hblens
    have h1 := hreads (input_ids.take output_ids.length, A) (by simp [modsubBlocks])
    have h2 := hreads (input_ids.drop output_ids.length, B) (by simp [modsubBlocks])
    have h3 := hreads ((input_ids.drop output_ids.length).dropLast.map
      (fun iid => "twocomp_carry_" ++ iid), twcCarries B) (by simp [modsubBlocks])
    have h4 := hreads ((input_ids.drop output_ids.length).map
      (fun iid => "twocomp_result_" ++ iid), (twcMSB B).1) (by simp [modsubBlocks])
    have h5 := hreads (output_ids.dropLast.map (fun oid => "carry_" ++ oid),
      carriesMSB A (twcMSB B).1) (by simp [modsubBlocks])
    have h6 := hreads (output_ids.map (fun oid => "intermediate_" ++ oid),
      A.zipWith (fun a b : Bool => a ^^ b) (twcMSB B).1) (by simp [modsubBlocks])
    have h7 := hreads (output_ids, (addMSB A (twcMSB B).1).1) (by simp [modsubBlocks])
    have hZv : (addMSB A (twcMSB B).1).1 = Z := by
      apply valMSB_inj _ _ (by rw [length_addMSB A _ (by rw [hA, hT]), hA, hZ])
      rw [valMSB_addMSB _ _ (by rw [hA, hT]), valMSB_twcMSB B, hB, hA,
        Nat.add_mod, Nat.mod_mod_of_dvd _ (dvd_refl _), ← Nat.add_mod, hval]
    refine ⟨_, h1, h2, by rw [h7, hZv], ?_⟩
    rw [sats_append, Bool.and_eq_true]
    constructor
    · rw [sats_twocomp_core _ output_ids.length hw _ _ _ hTRl hBl hTCl]
      apply (twcRel_iff output_ids.length hw _ _ _
        (by rw [List.length_map, hBl]) (by rw [List.length_map, hTRl])
        (by rw [List.length_map]; exact hTCl)).mpr
      constructor
      · rw [h2, h4]
      · rw [h2, h3]
    · have hfs := sats_sat_modadd (alookup
        ((modsubBlocks input_ids output_ids A B).flatMap fun p => p.1.zip p.2))
        output_ids.length hw output_ids
        (input_ids.take output_ids.length)
        ((input_ids.drop output_ids.length).map (fun iid => "twocomp_result_" ++ iid))
        (output_ids.dropLast.map (fun oid => "carry_" ++ oid))
        (output_ids.map (fun oid => "intermediate_" ++ oid))
        rfl hAl hTRl hCAl hINl
      rw [hf, Option.map_some'] at hfs
      rw [Option.some.inj hfs, Bool.and_eq_true]
      constructor
      · apply (chainRel_iff output_ids.length hw _ _ _ _
          (by rw [List.length_map, hAl]) (by rw [List.length_map, hTRl])
          (by rw [List.length_map]) (by rw [List.length_map, hCAl])).mpr
        constructor
        · rw [h7, h1, h4]
        · rw [h5, h1, h4]
      · rw [h6, h1, h4]
        exact interRel_zipWith A (twcMSB B).1 (by rw [hA, hT])


/-- All variable names of the constraint set emitted by
`MODSUB.smt_constraints`. -/
def MODSUB_smt_vars (input_ids output_ids : List String) : List String :=
  let w := output_ids.length
  input_ids ++
  (((input_ids.drop w).dropLast.map fun iid => "twocomp_carry_" ++ iid) ++
   ((input_ids.drop w).map fun iid => "twocomp_result_" ++ iid) ++
   (output_ids.dropLast.map fun oid => "carry_" ++ oid) ++
   output_ids)

/-- The canonical assignment blocks for a satisfying MODSUB SMT assignment. -/
def modsubSmtBlocks (input_ids output_ids : List String) (A B : List Bool) :
    List (List String × List Bool) :=
  let w := output_ids.length
  let T := (twcMSB B).1
  [(input_ids.take w, A), (input_ids.drop w, B),
   ((input_ids.drop w).dropLast.map fun iid => "twocomp_carry_" ++ iid, twcCarries B),
   ((input_ids.drop w).map fun iid => "twocomp_result_" ++ iid, T),
   (output_ids.dropLast.map fun oid => "carry_" ++ oid, carriesMSB A T),
   (output_ids, (addMSB A T).1)]

/-- Component-level correctness of `MODSUB.smt_constraints` at width `w ≥ 2`,
with the same reading as for the SAT backend. -/
theorem modsub_smt_correct (w : Nat) (hw : 2 ≤ w) (input_ids output_ids : List String)
    (hil : input_ids.length = 2 * w) (hol : output_ids.length = w)
    (hnd : (MODSUB_smt_vars input_ids output_ids).Nodup) :
    ∃ ids CS, MODSUB_smt_constraints input_ids output_ids = some (ids, CS) ∧
      ∀ (A B Z : List Bool), A.length = w → B.length = w → Z.length = w →
        ((∃ σ : String → Bool, (input_ids.take w).map σ = A ∧
            (input_ids.drop w).map σ = B ∧ output_ids.map σ = Z ∧ sats σ CS = true)
          ↔ valMSB Z = (valMSB A + (2 ^ w - valMSB B)) % 2 ^ w) := by
  subst hol
  have hBl : (input_ids.drop output_ids.length).length = output_ids.length := by
    rw [List.length_drop, hil]
    omega
  have hAl : (input_ids.take output_ids.length).length = output_ids.length := by
    rw [List.length_take, hil]
    omega
  have hTRl : ((input_ids.drop output_ids.length).map
      (fun iid => "twocomp_result_" ++ iid)).length = output_ids.length := by
    rw [List.length_map, hBl]
  have hTCl : ((input_ids.drop output_ids.length).dropLast.map
      (fun iid => "twocomp_carry_" ++ iid)).length = output_ids.length - 1 := by
    rw [List.length_map, List.length_dropLast, hBl]
  have hCAl : (output_ids.dropLast.map (fun oid => "carry_" ++ oid)).length =
      output_ids.length - 1 := by
    rw [List.length_map, List.length_dropLast]
  have hTCne : ((input_ids.drop output_ids.length).dropLast.map
      (fun iid => "twocomp_carry_" ++ iid)) ≠ [] :=
    List.length_pos.mp (by omega)
  have hBne : input_ids.drop output_ids.length ≠ [] := List.length_pos.mp (by omega)
  have hTRne : ((input_ids.drop output_ids.length).map
      (fun iid => "twocomp_result_" ++ iid)) ≠ [] := List.length_pos.mp (by omega)
  obtain ⟨f, hf⟩ : ∃ f, smt_modadd output_ids (input_ids.take output_ids.length)
      ((input_ids.drop output_ids.length).map (fun iid => "twocomp_result_" ++ iid))
      (output_ids.dropLast.map (fun oid => "carry_" ++ oid)) = some f := by
    have := sats_smt_modadd (fun _ => false) output_ids.length hw output_ids
      (input_ids.take output_ids.length)
      ((input_ids.drop output_ids.length).map (fun iid => "twocomp_result_" ++ iid))
      (output_ids.dropLast.map (fun oid => "carry_" ++ oid)) rfl hAl hTRl hCAl
    cases h : smt_modadd output_ids (input_ids.take output_ids.length)
        ((input_ids.drop output_ids.length).map (fun iid => "twocomp_result_" ++ iid))
        (output_ids.dropLast.map (fun oid => "carry_" ++ oid)) with
    | none => rw [h] at this; simp at this
    | some f => exact ⟨f, rfl⟩
  have hemit : MODSUB_smt_constraints input_ids output_ids =
      some ((((input_ids.drop output_ids.length).dropLast.map
          (fun iid => "twocomp_carry_" ++ iid))
        ++ ((input_ids.drop output_ids.length).map (fun iid => "twocomp_result_" ++ iid))
        ++ (output_ids.dropLast.map (fun oid => "carry_" ++ oid))
        ++ output_ids),
        (((zip3 ((input_ids.drop output_ids.length).dropLast.map
              (fun iid => "twocomp_carry_" ++ iid))
            (input_ids.drop output_ids.length).tail
            ((input_ids.drop output_ids.length).dropLast.map
              (fun iid => "twocomp_carry_" ++ iid)).tail).map
          (fun q => smt_assert_equivalent q.1
            (BE.conj (BE.neg (BE.var q.2.1)) (BE.var q.2.2)))
        ++ [Constr.distinct
            (((input_ids.drop output_ids.length).dropLast.map
              (fun iid => "twocomp_carry_" ++ iid)).getD
              (((input_ids.drop output_ids.length).dropLast.map
                (fun iid => "twocomp_carry_" ++ iid)).length - 1) "")
            ((input_ids.drop output_ids.length).getD
              ((input_ids.drop output_ids.length).length - 1) "")]
        ++ (zip3 ((input_ids.drop output_ids.length).map
              (fun iid => "twocomp_result_" ++ iid))
            (input_ids.drop output_ids.length)
            ((input_ids.drop output_ids.length).dropLast.map
              (fun iid => "twocomp_carry_" ++ iid))).map
          (fun q => smt_assert_equivalent q.1
            (BE.xor2 (BE.neg (BE.var q.2.1)) (BE.var q.2.2)))
        ++ [smt_assert_equivalent
            (((input_ids.drop output_ids.length).map
              (fun iid => "twocomp_result_" ++ iid)).getD
              (((input_ids.drop output_ids.length).map
                (fun iid => "twocomp_result_" ++ iid)).length - 1) "")
            (BE.var ((input_ids.drop output_ids.length).getD
              ((input_ids.drop output_ids.length).length - 1) ""))])
        ++ f)) := by
    simp only [smt_assert_equivalent, MODSUB_smt_constraints, smt_assert_equivalent]
    rw [getLast?_eq_getD _ "" hTCne, getLast?_eq_getD _ "" hBne,
      getLast?_eq_getD _ "" hTRne, hf]
    rfl
  refine ⟨_, _, hemit, ?_⟩
  intro A B Z hA hB hZ
  constructor
  · rintro ⟨σ, hArd, hBrd, hZrd, hsat⟩
    rw [sats_append, Bool.and_eq_true] at hsat
    obtain ⟨hs1, hs2⟩ := hsat
    rw [sats_twocomp_smt_core σ output_ids.length hw _ _ _ hTRl hBl hTCl] at hs1
    obtain ⟨hR, _⟩ := (twcRel_iff output_ids.length hw _ _ _
      (by rw [List.length_map, hBl]) (by rw [List.length_map, hTRl])
      (by rw [List.length_map]; exact hTCl)).mp hs1
    have hfs := sats_smt_modadd σ output_ids.length hw output_ids
      (input_ids.take output_ids.length)
      ((input_ids.drop output_ids.length).map (fun iid => "twocomp_result_" ++ iid))
      (output_ids.dropLast.map (fun oid => "carry_" ++ oid))
      rfl hAl hTRl hCAl
    rw [hf, Option.map_some'] at hfs
    have hf2 := Option.some.inj hfs
    rw [hf2] at hs2
    obtain ⟨hZeq, _⟩ := (chainRel_iff output_ids.length hw _ _ _ _
      (by rw [List.length_map, hAl]) (by rw [List.length_map, hTRl])
      (by rw [List.length_map]) (by rw [List.length_map, hCAl])).mp hs2
    rw [← hZrd, hZeq, valMSB_addMSB _ _
      (by rw [List.length_map, hAl, List.length_map, hTRl]),
      hArd, hR, hBrd, valMSB_twcMSB B, hB, hA]
    rw [Nat.add_mod, Nat.mod_mod_of_dvd _ (dvd_refl _), ← Nat.add_mod]
  · intro hval
    have hT : (twcMSB B).1.length = output_ids.length := by rw [length_twcMSB, hB]
    have hndb : (((modsubSmtBlocks input_ids output_ids A B).map
        Prod.fst).flatten).Nodup := by
      have he : ((modsubSmtBlocks input_ids output_ids A B).map Prod.fst).flatten =
          MODSUB_smt_vars input_ids output_ids := by
        simp only [modsubSmtBlocks, MODSUB_smt_vars, List.map_cons, List.map_nil,
          List.flatten_cons, List.flatten_nil, List.append_nil, List.append_assoc]
        rw [← List.append_assoc (input_ids.take output_ids.length)
          (input_ids.drop output_ids.length), List.take_append_drop]
      rw [he]
      exact hnd
    have hblens : ∀ p ∈ modsubSmtBlocks input_ids output_ids A B,
        p.1.length = p.2.length := by
      intro p hp
      simp only [modsubSmtBlocks, List.mem_cons, List.not_mem_nil, or_false] at hp
      rcases hp with rfl | rfl | rfl | rfl | rfl | rfl
      · rw [hAl, hA]
      · rw [hBl, hB]
      · rw [hTCl, length_twcCarries, hB]
      · rw [hTRl, length_twcMSB, hB]
      · rw [hCAl, length_carriesMSB, hA]
      · rw [length_addMSB A _ (by rw [hA, hT]), hA]
    have hreads := map_alookup_blocks _ hndb hblens
    have h1 := hreads (input_ids.take output_ids.length, A) (by simp [modsubSmtBlocks])
    have h2 := hreads (input_ids.drop output_ids.length, B) (by simp [modsubSmtBlocks])
    have h3 := hreads ((input_ids.drop output_ids.length).dropLast.map
      (fun iid => "twocomp_carry_" ++ iid), twcCarries B) (by simp [modsubSmtBlocks])
    have h4 := hreads ((input_ids.drop output_ids.length).map
      (fun iid => "twocomp_result_" ++ iid), (twcMSB B).1) (by simp [modsubSmtBlocks])
    have h5 := hreads (output_ids.dropLast.map (fun oid => "carry_" ++ oid),
      carriesMSB A (twcMSB B).1) (by simp [modsubSmtBlocks])
    have h7 := hreads (output_ids, (addMSB A (twcMSB B).1).1) (by simp [modsubSmtBlocks])
    have hZv : (addMSB A (twcMSB B).1).1 = Z := by
      apply valMSB_inj _ _ (by rw [length_addMSB A _ (by rw [hA, hT]), hA, hZ])
      rw [valMSB_addMSB _ _ (by rw [hA, hT]), valMSB_twcMSB B, hB, hA,
        Nat.add_mod, Nat.mod_mod_of_dvd _ (dvd_refl _), ← Nat.add_mod, hval]
    refine ⟨_, h1, h2, by rw [h7, hZv], ?_⟩
    rw [sats_append, Bool.and_eq_true]
    constructor
    · rw [sats_twocomp_smt_core _ output_ids.length hw _ _ _ hTRl hBl hTCl]
      apply (twcRel_iff output_ids.length hw _ _ _
        (by rw [List.length_map, hBl]) (by rw [List.length_map, hTRl])
        (by rw [List.length_map]; exact hTCl)).mpr
      constructor
      · rw [h2, h4]
      · rw [h2, h3]
    · have hfs := sats_smt_modadd (alookup
        ((modsubSmtBlocks input_ids output_ids A B).flatMap fun p => p.1.zip p.2))
        output_ids.length hw output_ids
        (input_ids.take output_ids.length)
        ((input_ids.drop output_ids.length).map (fun iid => "twocomp_result_" ++ iid))
        (output_ids.dropLast.map (fun oid => "carry_" ++ oid))
        rfl hAl hTRl hCAl
      rw [hf, Option.map_some'] at hfs
      rw [Option.some.inj hfs]
      apply (chainRel_iff output_ids.length hw _ _ _ _
        (by rw [List.length_map, hAl]) (by rw [List.length_map, hTRl])
        (by rw [List.length_map]) (by rw [List.length_map, hCAl])).mpr
      constructor
      · rw [h7, h1, h4]
      · rw [h5, h1, h4]


/-! ## Claim C3: MODSUB SAT and SMT semantics -/

/-- C3 counterexample: at width 1 both `MODSUB.sat_constraints` and
`MODSUB.smt_constraints` raise `IndexError` (the twocomp carry id list is
empty and `[-1]` is evaluated on it), modelled as returning nothing, so the
claimed equivalence fails for that width. -/
theorem c3_width_one_modsub_refuted :
    MODSUB_sat_constraints ["a_0", "b_0"] ["modsub_0_6_0"] = none ∧
    MODSUB_smt_constraints ["a_0", "b_0"] ["modsub_0_6_0"] = none :=
  ⟨by decide, by decide⟩

/-- C3 (amended): for every width `w ≥ 2` and 2-operand MODSUB with pairwise
distinct variable names, both the SAT and the SMT emitters succeed, and an
assignment with first operand word `A`, second operand word `B` and output
word `Z` satisfying the emitted constraint set exists exactly when
`valMSB Z = (valMSB A + (2^w - valMSB B)) mod 2^w`, i.e. the output is
`A - B mod 2^w` via the two's complement `~B + 1` of the second operand
(whose result and carry words are forced to the canonical seeded-carry
chain). -/
theorem c3_twocomp_semantics :
    (∀ (w : Nat), 2 ≤ w → ∀ (input_ids output_ids : List String),
      input_ids.length = 2 * w → output_ids.length = w →
      (MODSUB_sat_vars input_ids output_ids).Nodup →
      ∃ ids CS, MODSUB_sat_constraints input_ids output_ids = some (ids, CS) ∧
        ∀ (A B Z : List Bool), A.length = w → B.length = w → Z.length = w →
          ((∃ σ : String → Bool, (input_ids.take w).map σ = A ∧
              (input_ids.drop w).map σ = B ∧ output_ids.map σ = Z ∧ sats σ CS = true)
            ↔ valMSB Z = (valMSB A + (2 ^ w - valMSB B)) % 2 ^ w)) ∧
    (∀ (w : Nat), 2 ≤ w → ∀ (input_ids output_ids : List String),
      input_ids.length = 2 * w → output_ids.length = w →
      (MODSUB_smt_vars input_ids output_ids).Nodup →
      ∃ ids CS, MODSUB_smt_constraints input_ids output_ids = some (ids, CS) ∧
        ∀ (A B Z : List Bool), A.length = w → B.length = w → Z.length = w →
          ((∃ σ : String → Bool, (input_ids.take w).map σ = A ∧
              (input_ids.drop w).map σ = B ∧ output_ids.map σ = Z ∧ sats σ CS = true)
            ↔ valMSB Z = (valMSB A + (2 ^ w - valMSB B)) % 2 ^ w)) :=
  ⟨fun w hw input_ids output_ids hil hol hnd =>
    modsub_sat_correct w hw input_ids output_ids hil hol hnd,
   fun w hw input_ids output_ids hil hol hnd =>
    modsub_smt_correct w hw input_ids output_ids hil hol hnd⟩

theorem c3_twocomp_semantics_witness :
    (2 ≤ 2 ∧ (["a_0", "a_1", "b_0", "b_1"] : List String).length = 2 * 2 ∧
      (["modsub_0_6_0", "modsub_0_6_1"] : List String).length = 2 ∧
      (MODSUB_sat_vars ["a_0", "a_1", "b_0", "b_1"]
        ["modsub_0_6_0", "modsub_0_6_1"]).Nodup ∧
      (MODSUB_smt_vars ["a_0", "a_1", "b_0", "b_1"]
        ["modsub_0_6_0", "modsub_0_6_1"]).Nodup) ∧
    (∃ ids CS, MODSUB_sat_constraints ["a_0", "a_1", "b_0", "b_1"]
        ["modsub_0_6_0", "modsub_0_6_1"] = some (ids, CS) ∧
      ∀ (A B Z : List Bool), A.length = 2 → B.length = 2 → Z.length = 2 →
        ((∃ σ : String → Bool,
            ((["a_0", "a_1", "b_0", "b_1"] : List String).take 2).map σ = A ∧
            ((["a_0", "a_1", "b_0", "b_1"] : List String).drop 2).map σ = B ∧
            (["modsub_0_6_0", "modsub_0_6_1"] : List String).map σ = Z ∧
            sats σ CS = true)
          ↔ valMSB Z = (valMSB A + (2 ^ 2 - valMSB B)) % 2 ^ 2)) ∧
    (∃ ids CS, MODSUB_smt_constraints ["a_0", "a_1", "b_0", "b_1"]
        ["modsub_0_6_0", "modsub_0_6_1"] = some (ids, CS) ∧
      ∀ (A B Z : List Bool), A.length = 2 → B.length = 2 → Z.length = 2 →
        ((∃ σ : String → Bool,
            ((["a_0", "a_1", "b_0", "b_1"] : List String).take 2).map σ = A ∧
            ((["a_0", "a_1", "b_0", "b_1"] : List String).drop 2).map σ = B ∧
            (["modsub_0_6_0", "modsub_0_6_1"] : List String).map σ = Z ∧
            sats σ CS = true)
          ↔ valMSB Z = (valMSB A + (2 ^ 2 - valMSB B)) % 2 ^ 2)) :=
  ⟨⟨by decide, by decide, by decide, by decide, by decide⟩,
   c3_twocomp_semantics.1 2 (by decide) ["a_0", "a_1", "b_0", "b_1"]
     ["modsub_0_6_0", "modsub_0_6_1"] (by decide) (by decide) (by decide),
   c3_twocomp_semantics.2 2 (by decide) ["a_0", "a_1", "b_0", "b_1"]
     ["modsub_0_6_0", "modsub_0_6_1"] (by decide) (by decide) (by decide)⟩


end Claasp
